import Mathlib

/-!
# The WebSocket frame codec of librapid

A shallow embedding of `example/http/websocket/websocketcodec.cpp`:
the outbound header writer `writeWebSocketHeader`, the incremental
inbound reader `WebSocketFrameReader` (a four-stage state machine driven by
`readFrame`) and the read loop of `WebSocketCodec`; and of the bit counter
`countSetBits` of `source/platform/utils.cpp`.

Conventions of the embedding.

* A byte is a `Nat`; the bitwise operators of the source are the
  bitwise operators on `Nat`.  Machine integers are `Nat` with an explicit
  reduction modulo `2 ^ w` wherever the source narrows a value.
* A C++ method that mutates the reader and may throw becomes a function
  that returns the reader as the exception leaves it together with an
  `Except` value.
* The `switch` of `readFrame` falls through from one `case` label to the
  next; every label becomes one function that ends by calling the function
  of the following label.
* A read or write at an index at or past `readable()` is outside what the
  buffer holds.  The code is followed up to the first such access: reader,
  buffer and `wantReadSize` are reported as the statements before it have
  left them, together with the marker `outsideReadable`.
-/

namespace Rapid

/-! ## Constants declared in `websocketcodec.h` -/

/-- Modelled from the spec: `WS_MASK_FIN` of the absent header
`websocketcodec.h`, the FIN bit (bit 7) of the first header byte. -/
abbrev WS_MASK_FIN : Nat := 0x80

/-- Modelled from the spec: `WS_MASK_OPCODE` of the absent header, the four
opcode bits of the first header byte. -/
abbrev WS_MASK_OPCODE : Nat := 0x0F

/-- Modelled from the spec: `WS_MASK_PAYLOAD_LENGTH` of the absent header,
the seven length bits of the second header byte. -/
abbrev WS_MASK_PAYLOAD_LENGTH : Nat := 0x7F

/-- Modelled from the spec: `WS_MIN_SIZE` of the absent header, the size of
the fixed part of a frame header (two bytes). -/
abbrev WS_MIN_SIZE : Nat := 2

/-- Modelled from the spec: `WS_MASK_SIZE` of the absent header, the size of
a masking key (four bytes). -/
abbrev WS_MASK_SIZE : Nat := 4

/-- Modelled from the spec: `WS_NO_EXT_PAYLOAD_LENGTH_MAX` of the absent
header, the largest length the 7-bit field carries literally. -/
abbrev WS_NO_EXT_PAYLOAD_LENGTH_MAX : Nat := 125

/-- Modelled from the spec: `WS_16BIT_EXT_PAYLOAD_LENGTH` of the absent
header, the 7-bit value announcing a 16-bit extended length. -/
abbrev WS_16BIT_EXT_PAYLOAD_LENGTH : Nat := 126

/-- Modelled from the spec: `WS_64BIT_EXT_PAYLOAD_LENGTH` of the absent
header, the 7-bit value announcing a 64-bit extended length. -/
abbrev WS_64BIT_EXT_PAYLOAD_LENGTH : Nat := 127

/-- The largest value of a `uint16_t` (`<cstdint>`). -/
abbrev UINT16_MAX : Nat := 65535

/-- Modelled from the spec: enumerator `WS_OP_CONTINUATION` of
`WebSocketOpcodes` (absent header). -/
abbrev WS_OP_CONTINUATION : Nat := 0x0

/-- Modelled from the spec: enumerator `WS_OP_TEXT` of `WebSocketOpcodes`
(absent header). -/
abbrev WS_OP_TEXT : Nat := 0x1

/-- Modelled from the spec: enumerator `WS_OP_BINARY` of `WebSocketOpcodes`
(absent header). -/
abbrev WS_OP_BINARY : Nat := 0x2

/-- Modelled from the spec: enumerator `WS_OP_CLOSED` of `WebSocketOpcodes`
(absent header). -/
abbrev WS_OP_CLOSED : Nat := 0x8

/-- Modelled from the spec: enumerator `WS_OP_PING` of `WebSocketOpcodes`
(absent header). -/
abbrev WS_OP_PING : Nat := 0x9

/-- Modelled from the spec: enumerator `WS_OP_PONG` of `WebSocketOpcodes`
(absent header). -/
abbrev WS_OP_PONG : Nat := 0xA

/-! ## Machine integers -/

/-- Narrowing conversion to `uint8_t`. -/
def toUInt8 (x : Nat) : Nat := x % 2 ^ 8

/-- Narrowing conversion to `uint16_t`. -/
def toUInt16 (x : Nat) : Nat := x % 2 ^ 16

/-- Narrowing conversion to `uint32_t`. -/
def toUInt32 (x : Nat) : Nat := x % 2 ^ 32

/-- Narrowing conversion to `uint64_t`. -/
def toUInt64 (x : Nat) : Nat := x % 2 ^ 64

/-- The value of a byte sequence stored at increasing addresses, read as one
integer by a little-endian host (the toolkit is built for x86 Windows). -/
def littleEndianValue : List Nat → Nat
  | [] => 0
  | b :: bs => b + 256 * littleEndianValue bs

/-- The value of a byte sequence read most significant byte first. -/
def bigEndianValue (bs : List Nat) : Nat :=
  bs.foldl (fun acc b => acc * 256 + b) 0

/-- The call `memcpy(&x, p, sizeof(uint16_t))` on a 64-bit object `x`: the
two bytes at `p` replace the two low-order bytes of `x`, the six others
keep their value. -/
def memcpyUInt16 (x : Nat) (bytes : List Nat) : Nat :=
  (x / 2 ^ 16) * 2 ^ 16 + littleEndianValue bytes

/-- The call `memcpy(&x, p, sizeof(uint64_t))` on a 64-bit object `x`: all
eight bytes of `x` are replaced. -/
def memcpyUInt64 (bytes : List Nat) : Nat :=
  littleEndianValue bytes

/-- Winsock `ntohs` on a little-endian host: the argument is narrowed to
16 bits and its two bytes are exchanged. -/
def ntohs (x : Nat) : Nat :=
  (toUInt16 x % 256) * 256 + toUInt16 x / 256

/-- Winsock `htonll` on a little-endian host: the eight bytes of the 64-bit
argument are reversed. -/
def htonll (x : Nat) : Nat :=
  (x % 256) * 256 ^ 7 + (x / 256 % 256) * 256 ^ 6 + (x / 256 ^ 2 % 256) * 256 ^ 5
    + (x / 256 ^ 3 % 256) * 256 ^ 4 + (x / 256 ^ 4 % 256) * 256 ^ 3
    + (x / 256 ^ 5 % 256) * 256 ^ 2 + (x / 256 ^ 6 % 256) * 256 + (x / 256 ^ 7 % 256)

/-! ## The byte-stream buffer -/

/-- Modelled from the spec: `rapid::IoBuffer` (`rapid/iobuffer.h` is absent).
The buffer is the sequence of its currently readable bytes, oldest first;
`peek()` points at the first of them. -/
structure IoBuffer where
  data : List Nat
deriving DecidableEq

/-- Modelled from the spec: the macro `RAPID_ENSURE(condition)` (its header
`rapid/details/contracts.h` is absent) evaluates the condition and raises a
protocol-violation error when it is false.  The second constructor marks an
access the buffer contract does not cover: the code indexed `peek()` at or
past `readable()`. -/
inductive CodecError where
  | protocolViolation
  | outsideReadable
deriving DecidableEq

namespace IoBuffer

/-- Modelled from the spec: `IoBuffer::readable()`, the readable-byte
count. -/
def readable (b : IoBuffer) : Nat := b.data.length

/-- Modelled from the spec: `IoBuffer::isEmpty()`, no readable byte. -/
def isEmpty (b : IoBuffer) : Bool := b.readable == 0

/-- Modelled from the spec: the expression `peek()[i]` used as a value.
Only the readable bytes belong to the buffer, an index at or past
`readable()` gives no value. -/
def peekAt (b : IoBuffer) (i : Nat) : Option Nat := b.data[i]?

/-- Modelled from the spec: the `n` bytes a `memcpy` reads from
`peek() + offset`, when all of them are readable. -/
def peekBytes (b : IoBuffer) (offset n : Nat) : Option (List Nat) :=
  if offset + n ≤ b.readable then some ((b.data.drop offset).take n) else none

/-- Modelled from the spec: `IoBuffer::retrieve(n)`, the bulk discard of the
first `n` readable bytes. -/
def retrieve (b : IoBuffer) (n : Nat) : IoBuffer := ⟨b.data.drop n⟩

/-- Modelled from the spec: `IoBuffer::makeWriteableSpace(n)` reserves
writable capacity and leaves the readable bytes as they are. -/
def makeWriteableSpace (b : IoBuffer) (_n : Nat) : IoBuffer := b

/-- Modelled from the spec: bytes arriving from the connection, and bytes
written by `rapid::writeData`, are appended behind the readable bytes. -/
def append (b : IoBuffer) (bytes : List Nat) : IoBuffer := ⟨b.data ++ bytes⟩

end IoBuffer

/-- Modelled from the spec: `rapid::writeData(pBuffer, v)` for a `uint8_t`
value (`rapid/iobuffer.h` is absent) appends the byte. -/
def writeDataUInt8 (pBuffer : IoBuffer) (v : Nat) : IoBuffer :=
  pBuffer.append [toUInt8 v]

/-- Modelled from the spec: `rapid::writeData<BigEndian>(pBuffer, v)` for a
`uint16_t` value appends its two bytes, most significant first. -/
def writeDataBigEndianUInt16 (pBuffer : IoBuffer) (v : Nat) : IoBuffer :=
  pBuffer.append [toUInt16 v / 256, toUInt16 v % 256]

/-- Modelled from the spec: `rapid::writeData<BigEndian>(pBuffer, v)` for a
`uint64_t` value appends its eight bytes, most significant first. -/
def writeDataBigEndianUInt64 (pBuffer : IoBuffer) (v : Nat) : IoBuffer :=
  pBuffer.append
    [toUInt64 v / 256 ^ 7 % 256, toUInt64 v / 256 ^ 6 % 256, toUInt64 v / 256 ^ 5 % 256,
     toUInt64 v / 256 ^ 4 % 256, toUInt64 v / 256 ^ 3 % 256, toUInt64 v / 256 ^ 2 % 256,
     toUInt64 v / 256 % 256, toUInt64 v % 256]

/-! ## `writeWebSocketHeader` -/

/-- The function `writeWebSocketHeader(pBuffer, contentLength)`; the result
is the buffer after the call. -/
def writeWebSocketHeader (pBuffer : IoBuffer) (contentLength : Nat) : IoBuffer :=
  let pBuffer := pBuffer.makeWriteableSpace WS_MIN_SIZE
  let byteFirst := toUInt8 (WS_MASK_FIN ||| WS_OP_TEXT)
  let pBuffer := writeDataUInt8 pBuffer byteFirst
  -- (byteSecond, extendedLength) after the three-way test
  let second : Nat × Nat :=
    if contentLength ≤ WS_NO_EXT_PAYLOAD_LENGTH_MAX then
      (toUInt8 contentLength, 0)
    else if contentLength ≤ UINT16_MAX then
      (toUInt8 (0x00 ||| WS_16BIT_EXT_PAYLOAD_LENGTH), 2)
    else
      (toUInt8 (0x00 ||| WS_64BIT_EXT_PAYLOAD_LENGTH), 8)
  let pBuffer := writeDataUInt8 pBuffer second.1
  if second.2 = 2 then
    writeDataBigEndianUInt16 (pBuffer.makeWriteableSpace 2) (toUInt16 contentLength)
  else if second.2 = 8 then
    writeDataBigEndianUInt64 (pBuffer.makeWriteableSpace 8) contentLength
  else
    pBuffer

/-! ## `WebSocketFrameReader` -/

/-- The parse stages of the reader (the values of `state_`). -/
inductive WebSocketParseState where
  | WS_PARSE_FIN
  | WS_PARSE_EXPECTED_SIZE
  | WS_PARSE_READ_DATA
  | WS_PARSE_DONE
deriving DecidableEq

/-- The data members of `WebSocketFrameReader`.  `opcode_` is a `Nat`: the
source stores `static_cast<WebSocketOpcodes>(firstByte & WS_MASK_OPCODE)`
before it validates the value. -/
structure WebSocketFrameReader where
  lastFrame_ : Bool
  isMasked_ : Bool
  unparsedContentLength_ : Nat
  opcode_ : Nat
  state_ : WebSocketParseState
  indexOfFirstMask_ : Nat
  bytesReceiveLengthAndMask_ : Nat
  contentLength_ : Nat
  totalReadBytes_ : Nat
  mask_ : List Nat
deriving DecidableEq

/-- What a call of `readFrame` leaves behind: the reader, the buffer, and
either the value stored into `wantReadSize` when the call returns or the
error with which it ends.  `stored` is what the call has put into the
reference `wantReadSize` by then, whether it returns or not: the last value
it stored, `none` when it stored nothing and the reference keeps the value
the caller gave it. -/
structure ReadResult where
  reader : WebSocketFrameReader
  buffer : IoBuffer
  wantReadSize : Except CodecError Nat
  stored : Option Nat

namespace WebSocketFrameReader

/-- The constructor `WebSocketFrameReader::WebSocketFrameReader()`.  Its
initialiser list does not mention `mask_`; `mask0` stands for the
indeterminate bytes the array starts with. -/
def new (mask0 : List Nat) : WebSocketFrameReader where
  lastFrame_ := true
  isMasked_ := true
  unparsedContentLength_ := 0
  opcode_ := WS_OP_CLOSED
  state_ := .WS_PARSE_FIN
  indexOfFirstMask_ := 0
  bytesReceiveLengthAndMask_ := 0
  contentLength_ := 0
  totalReadBytes_ := 0
  mask_ := mask0

/-- The method `reset()`. -/
def reset (r : WebSocketFrameReader) : WebSocketFrameReader :=
  { r with
    lastFrame_ := true
    isMasked_ := true
    state_ := .WS_PARSE_FIN
    unparsedContentLength_ := 0
    opcode_ := WS_OP_CONTINUATION
    bytesReceiveLengthAndMask_ := 0
    contentLength_ := 0
    indexOfFirstMask_ := 0
    totalReadBytes_ := 0 }

/-- The method `opcode()`. -/
def opcode (r : WebSocketFrameReader) : Nat := r.opcode_

/-- The method `getMaskSize()`. -/
def getMaskSize (r : WebSocketFrameReader) : Nat :=
  if !r.isMasked_ then 0 else 4

/-- The method `getConetentLength()` (the spelling is the one of the
source). -/
def getConetentLength (r : WebSocketFrameReader) : Nat := r.contentLength_

/-- The `switch (opcode_)` of `parseFinAndContentLength`: the six `case`
labels that `break`. -/
def isLegalOpcode (op : Nat) : Bool :=
  op == WS_OP_CONTINUATION || op == WS_OP_TEXT || op == WS_OP_BINARY
    || op == WS_OP_CLOSED || op == WS_OP_PING || op == WS_OP_PONG

/-- The method `parseFinAndContentLength(pBuffer)`.  It reads `peek()[0]`
and `peek()[1]`, assigns `lastFrame_`, `unparsedContentLength_` and
`isMasked_`, checks `RAPID_ENSURE(isMasked_)`, assigns `opcode_` and checks
it against the legal set. -/
def parseFinAndContentLength (r : WebSocketFrameReader) (pBuffer : IoBuffer) :
    WebSocketFrameReader × Except CodecError Unit :=
  match pBuffer.peekAt 0, pBuffer.peekAt 1 with
  | some firstByte, some sencondByte =>
    let r1 := { r with
      lastFrame_ := (firstByte &&& WS_MASK_FIN) == WS_MASK_FIN
      unparsedContentLength_ := sencondByte &&& WS_MASK_PAYLOAD_LENGTH
      isMasked_ := ((sencondByte &&& 0x80) >>> 7) != 0 }
    if !r1.isMasked_ then (r1, .error .protocolViolation)
    else
      let r2 := { r1 with opcode_ := firstByte &&& WS_MASK_OPCODE }
      if isLegalOpcode r2.opcode_ then (r2, .ok ()) else (r2, .error .protocolViolation)
  | _, _ => (r, .error .outsideReadable)

/-- The method `isReadyRead(pBuffer)`: the reader it leaves and the value
returned. -/
def isReadyRead (r : WebSocketFrameReader) (pBuffer : IoBuffer) :
    WebSocketFrameReader × Bool :=
  let bytesRead :=
    if r.unparsedContentLength_ = WS_16BIT_EXT_PAYLOAD_LENGTH then
      WS_MIN_SIZE + r.getMaskSize + 2
    else if r.unparsedContentLength_ = WS_64BIT_EXT_PAYLOAD_LENGTH then
      WS_MIN_SIZE + r.getMaskSize + 8
    else
      WS_MIN_SIZE + r.getMaskSize
  if pBuffer.readable ≥ bytesRead then (r, true)
  else ({ r with bytesReceiveLengthAndMask_ := bytesRead - pBuffer.readable }, false)

/-- The `switch (unparsedContentLength_)` of `parseContentLength`, after
`indexOfFirstMask_ = 2`. -/
def parseExtendedLength (r : WebSocketFrameReader) (pBuffer : IoBuffer) :
    Option WebSocketFrameReader :=
  let r := { r with indexOfFirstMask_ := 2 }
  if r.unparsedContentLength_ = WS_16BIT_EXT_PAYLOAD_LENGTH then
    (pBuffer.peekBytes WS_MIN_SIZE 2).map fun bytes =>
      { r with
        contentLength_ := ntohs (memcpyUInt16 r.contentLength_ bytes)
        indexOfFirstMask_ := 4
        bytesReceiveLengthAndMask_ := r.getMaskSize + 2 }
  else if r.unparsedContentLength_ = WS_64BIT_EXT_PAYLOAD_LENGTH then
    (pBuffer.peekBytes WS_MIN_SIZE 8).map fun bytes =>
      { r with
        contentLength_ := htonll (memcpyUInt64 bytes)
        indexOfFirstMask_ := 10
        bytesReceiveLengthAndMask_ := r.getMaskSize + 8 }
  else
    some { r with
      bytesReceiveLengthAndMask_ := r.getMaskSize
      contentLength_ := r.unparsedContentLength_ }

/-- The method `parseContentLength(pBuffer)`: the length `switch`, then
`RAPID_ENSURE(isMasked_)`, then the `memcpy` of the four key bytes into
`mask_`. -/
def parseContentLength (r : WebSocketFrameReader) (pBuffer : IoBuffer) :
    WebSocketFrameReader × Except CodecError Unit :=
  match parseExtendedLength r pBuffer with
  | none => ({ r with indexOfFirstMask_ := 2 }, .error .outsideReadable)
  | some r1 =>
    if !r1.isMasked_ then (r1, .error .protocolViolation)
    else
      match pBuffer.peekBytes r1.indexOfFirstMask_ WS_MASK_SIZE with
      | none => (r1, .error .outsideReadable)
      | some key => ({ r1 with mask_ := key }, .ok ())

/-- The loop of `maskData` from counter value `i` on, over the bytes at
`peek() + i`: while `i < contentLength` the byte at index `i` is replaced by
its XOR with `mask[i % 4]`.  The result is the bytes as the loop leaves them
and whether the loop came to an index with no readable byte.  The loop is
followed up to that index: every readable byte before it has been replaced
by then. -/
def maskLoop (mask : List Nat) (contentLength : Nat) : Nat → List Nat → List Nat × Bool
  | i, [] => ([], decide (i < contentLength))
  | i, b :: rest =>
    if i < contentLength then
      ((b ^^^ mask.getD (i % 4) 0) :: (maskLoop mask contentLength (i + 1) rest).1,
        (maskLoop mask contentLength (i + 1) rest).2)
    else (b :: rest, false)

/-- The method `maskData(buffer)`: `RAPID_ENSURE(isMasked_)`, then the XOR
loop over the first `contentLength_` bytes at `peek()`.  The result is the
buffer as the call leaves it, and how the call ends. -/
def maskData (r : WebSocketFrameReader) (buffer : IoBuffer) :
    IoBuffer × Except CodecError Unit :=
  if !r.isMasked_ then (buffer, .error .protocolViolation)
  else
    match maskLoop r.mask_ r.contentLength_ 0 buffer.data with
    | (bytes, true) => (⟨bytes⟩, .error .outsideReadable)
    | (bytes, false) => (⟨bytes⟩, .ok ())

/-- The label `case WS_PARSE_DONE:` of `readFrame`.  `stored` is what the call
has put into `wantReadSize` when the label is entered: the 0 of the label
before on a fall through, nothing when the `switch` jumps here. -/
def readFrameDone (r : WebSocketFrameReader) (buffer : IoBuffer) (stored : Option Nat) :
    ReadResult :=
  match r.maskData buffer with
  | (buffer1, .error e) => ⟨r, buffer1, .error e, stored⟩
  | (buffer1, .ok _) => ⟨r, buffer1, .ok 0, some 0⟩

/-- The label `case WS_PARSE_READ_DATA:` of `readFrame`, falling through to
`WS_PARSE_DONE`.  The difference is computed on `uint64_t` and stored in the
`uint32_t` reference `wantReadSize`. -/
def readFrameReadData (r : WebSocketFrameReader) (buffer : IoBuffer) : ReadResult :=
  let wantReadSize :=
    toUInt32 (r.contentLength_ - min r.contentLength_ (toUInt64 buffer.readable))
  if wantReadSize > 0 then ⟨r, buffer, .ok wantReadSize, some wantReadSize⟩
  else readFrameDone { r with state_ := .WS_PARSE_DONE } buffer (some wantReadSize)

/-- The label `case WS_PARSE_EXPECTED_SIZE:` of `readFrame`, falling through
to `WS_PARSE_READ_DATA`.  The assignment `wantReadSize = contentLength_` of
the `else` branch is overwritten by the first statement of the next label
before the call returns, so it leaves no trace in the result. -/
def readFrameExpectedSize (r : WebSocketFrameReader) (buffer : IoBuffer) : ReadResult :=
  match r.isReadyRead buffer with
  | (r1, false) =>
    ⟨r1, buffer, .ok (toUInt32 r1.bytesReceiveLengthAndMask_),
      some (toUInt32 r1.bytesReceiveLengthAndMask_)⟩
  | (r1, true) =>
    match r1.parseContentLength buffer with
    | (r2, .error e) => ⟨r2, buffer, .error e, none⟩
    | (r2, .ok _) =>
      let buffer1 := buffer.retrieve (WS_MIN_SIZE + r2.bytesReceiveLengthAndMask_)
      readFrameReadData { r2 with state_ := .WS_PARSE_READ_DATA } buffer1

/-- The method `readFrame(buffer, wantReadSize)`. -/
def readFrame (r : WebSocketFrameReader) (buffer : IoBuffer) : ReadResult :=
  match r.state_ with
  | .WS_PARSE_FIN =>
    if buffer.isEmpty then ⟨r, buffer, .ok WS_MIN_SIZE, some WS_MIN_SIZE⟩
    else
      match r.parseFinAndContentLength buffer with
      | (r1, .error e) => ⟨r1, buffer, .error e, none⟩
      | (r1, .ok _) => readFrameExpectedSize { r1 with state_ := .WS_PARSE_EXPECTED_SIZE } buffer
  | .WS_PARSE_EXPECTED_SIZE => readFrameExpectedSize r buffer
  | .WS_PARSE_READ_DATA => readFrameReadData r buffer
  | .WS_PARSE_DONE => readFrameDone r buffer none

end WebSocketFrameReader

/-! ## Driving the reader -/

/-- The header `writeWebSocketHeader` produces for `contentLength` on an
empty buffer, with bit 7 (MASK) of its second byte set, the way a client
sends it. -/
def maskedHeader (contentLength : Nat) : List Nat :=
  match (writeWebSocketHeader ⟨[]⟩ contentLength).data with
  | first :: second :: rest => first :: (second ||| 0x80) :: rest
  | bytes => bytes

/-- Chunked delivery: `chunk` is appended to the buffer and `readFrame` is
called; while the call reports a shortfall and chunks remain, the next one
is delivered in the same way.  The result is the one of the last call
made. -/
def feedChunks (r : WebSocketFrameReader) (buffer : IoBuffer) (chunk : List Nat) :
    List (List Nat) → ReadResult
  | [] => r.readFrame (buffer.append chunk)
  | next :: more =>
    match r.readFrame (buffer.append chunk) with
    | ⟨r1, buffer1, .ok (_ + 1), _⟩ => feedChunks r1 buffer1 next more
    | res => res

/-! ## `WebSocketRequest`, `WebSocketCodec` and the read loop -/

namespace IoBuffer

/-- Modelled from the spec: `IoBuffer::read(n)`, the bulk read-and-remove of
the first `n` readable bytes: the bytes returned and the buffer left. -/
def read (b : IoBuffer) (n : Nat) : List Nat × IoBuffer :=
  (b.data.take n, ⟨b.data.drop n⟩)

end IoBuffer

/-- The data members of `WebSocketRequest` the codec writes: `opcode_`
(`setOpcode`) and `content_` (`setContent`). -/
structure WebSocketRequest where
  opcode_ : Nat
  content_ : List Nat
deriving DecidableEq

/-- The data members of `WebSocketCodec` that `readLoop` touches: the frame
reader and the request object it fills for every frame. -/
structure WebSocketCodec where
  reader_ : WebSocketFrameReader
  pWebSocketRequest_ : WebSocketRequest

/-- Everything one iteration of `readLoop` reads and writes: the codec, the
receive buffer of the connection, the reference argument `bytesToRead`, and
the messages handed to `dispatcher_->onMessage` so far, oldest first (each
one is the value of the request object at the moment of the call). -/
structure ReadLoopState where
  codec : WebSocketCodec
  receiveBuffer : IoBuffer
  bytesToRead : Nat
  dispatched : List WebSocketRequest

namespace WebSocketCodec

/-- The constructor `WebSocketCodec::WebSocketCodec(disp)`: a fresh reader
and a fresh `WebSocketRequest`, whose constructor stores `WS_OP_CLOSED`. -/
def new (mask0 : List Nat) : WebSocketCodec where
  reader_ := WebSocketFrameReader.new mask0
  pWebSocketRequest_ := ⟨WS_OP_CLOSED, []⟩

/-- The body of the `do ... while` loop of `readLoop`: one `readFrame` call
and, when it stored 0 into `bytesToRead`, `setOpcode`, `setContent` with the
bytes read off the buffer, `reset()` and `onMessage`.  The second component
is the error with which `readFrame` left, if it threw; `bytesToRead` then
holds what the call had stored into it, or its old value. -/
def readLoopBody (s : ReadLoopState) : ReadLoopState × Option CodecError :=
  let res := s.codec.reader_.readFrame s.receiveBuffer
  match res.wantReadSize with
  | .error e =>
    ({ s with
       codec := { s.codec with reader_ := res.reader }
       receiveBuffer := res.buffer
       bytesToRead := res.stored.getD s.bytesToRead }, some e)
  | .ok bytesToRead =>
    if bytesToRead = 0 then
      let content := res.buffer.read res.reader.getConetentLength
      let request : WebSocketRequest := ⟨res.reader.opcode, content.1⟩
      ({ codec := ⟨res.reader.reset, request⟩
         receiveBuffer := content.2
         bytesToRead := bytesToRead
         dispatched := s.dispatched ++ [request] }, none)
    else
      ({ s with
         codec := { s.codec with reader_ := res.reader }
         receiveBuffer := res.buffer
         bytesToRead := bytesToRead }, none)

/-- The loop of `readLoop` with a bound on the number of iterations: the
body runs, and runs again while `!bytesToRead && !pBuffer->isEmpty()`.
`none` means the bound was reached. -/
def readLoopFuel : Nat → ReadLoopState → Option (ReadLoopState × Option CodecError)
  | 0, _ => none
  | fuel + 1, s =>
    match readLoopBody s with
    | (s1, some e) => some (s1, some e)
    | (s1, none) =>
      if s1.bytesToRead = 0 ∧ s1.receiveBuffer.isEmpty = false then readLoopFuel fuel s1
      else some (s1, none)

/-- The method `readLoop(pConn, bytesToRead)` on the receive buffer of the
connection.  The bound `readable + 2` on the iterations is never reached
(`readLoop_returns`). -/
def readLoop (codec : WebSocketCodec) (receiveBuffer : IoBuffer) (bytesToRead : Nat) :
    Option (ReadLoopState × Option CodecError) :=
  readLoopFuel (receiveBuffer.readable + 2) ⟨codec, receiveBuffer, bytesToRead, []⟩

end WebSocketCodec

/-! ## Vocabulary of the claims -/

/-- The size of the extended length field a raw 7-bit length announces. -/
def extendedLengthSize (rawLength : Nat) : Nat :=
  if rawLength = 126 then 2 else if rawLength = 127 then 8 else 0

/-- The payload XORed cyclically with the key, byte `j` of the list with key
byte `(i + j) mod 4`: what a client puts on the wire for `i = 0`. -/
def cyclicXor (key : List Nat) : Nat → List Nat → List Nat
  | _, [] => []
  | i, b :: rest => (b ^^^ key.getD (i % 4) 0) :: cyclicXor key (i + 1) rest

/-- A complete masked frame: its first header byte (FIN, reserved bits,
opcode), its masking key and its payload before masking. -/
structure MaskedFrame where
  firstByte : Nat
  key : List Nat
  payload : List Nat

namespace MaskedFrame

/-- A frame the reader accepts: legal opcode, first byte a byte, four key
bytes, a payload length that fits the 64-bit length field. -/
def Valid (f : MaskedFrame) : Prop :=
  f.firstByte < 256 ∧ WebSocketFrameReader.isLegalOpcode (f.firstByte &&& 0x0F) = true ∧
    f.key.length = 4 ∧ f.payload.length < 2 ^ 64

/-- The wire bytes of the frame: first byte, second byte with the mask bit
and the length field laid out as `writeWebSocketHeader` lays it out, the
key, the masked payload. -/
def wire (f : MaskedFrame) : List Nat :=
  f.firstByte :: (maskedHeader f.payload.length).tail ++ f.key ++ cyclicXor f.key 0 f.payload

/-- The message the read loop is to dispatch for the frame. -/
def message (f : MaskedFrame) : WebSocketRequest :=
  ⟨f.firstByte &&& 0x0F, f.payload⟩

end MaskedFrame

/-- The reader states reachable from construction through `readFrame` calls
(whatever the buffer, whether the call returns or throws) and `reset()`. -/
inductive Reachable : WebSocketFrameReader → Prop where
  | construct (mask0 : List Nat) : Reachable (WebSocketFrameReader.new mask0)
  | readFrame (r : WebSocketFrameReader) (buffer : IoBuffer) :
      Reachable r → Reachable (r.readFrame buffer).reader
  | reset (r : WebSocketFrameReader) : Reachable r → Reachable r.reset

/-- What a caller sees of one `readFrame` call: the value stored into
`wantReadSize` or the error, the buffer after the call (hence the bytes
consumed and, at completion, the unmasked payload), and, once the header has
been parsed (the stage is past `WS_PARSE_FIN`), `opcode()` and
`getConetentLength()`. -/
structure FrameObservation where
  wantReadSize : Except CodecError Nat
  buffer : IoBuffer
  frame : Option (Nat × Nat)

/-- The observation of a `readFrame` result. -/
def observe (res : ReadResult) : FrameObservation where
  wantReadSize := res.wantReadSize
  buffer := res.buffer
  frame :=
    if res.reader.state_ = .WS_PARSE_FIN then none
    else some (res.reader.opcode, res.reader.getConetentLength)

/-- The observations of a reader that is given an input chunk by chunk: each
chunk is appended to the buffer and `readFrame` is called. -/
def observeChunks (r : WebSocketFrameReader) (buffer : IoBuffer) :
    List (List Nat) → List FrameObservation
  | [] => []
  | chunk :: more =>
    observe (r.readFrame (buffer.append chunk))
      :: observeChunks (r.readFrame (buffer.append chunk)).reader
          (r.readFrame (buffer.append chunk)).buffer more

/-- The wire bytes of a sequence of frames, one after the other. -/
def MaskedFrame.wireAll : List MaskedFrame → List Nat
  | [] => []
  | f :: more => f.wire ++ MaskedFrame.wireAll more

/-- What two `readFrame` results share when the buffers they started from
differ in their first byte only: the value reported or the error, the reader
left behind, the readable count, and every byte after the first. -/
def SameOutcome (res res' : ReadResult) : Prop :=
  res.wantReadSize = res'.wantReadSize ∧ res.reader = res'.reader ∧
    res.buffer.readable = res'.buffer.readable ∧ res.buffer.data.drop 1 = res'.buffer.data.drop 1

/-- Two readers that differ at most in fields the parse never reads before
writing them: the stored opcode while the stage is `WS_PARSE_FIN`, the key
bytes while the stage is `WS_PARSE_FIN` or `WS_PARSE_EXPECTED_SIZE`. -/
def Agree (r r' : WebSocketFrameReader) : Prop :=
  r' = r ∨
  (r.state_ = .WS_PARSE_FIN ∧ ∃ o m, r' = { r with opcode_ := o, mask_ := m }) ∨
  (r.state_ = .WS_PARSE_EXPECTED_SIZE ∧ ∃ m, r' = { r with mask_ := m })

/-- A reader that has parsed the two header bytes `81 FE` (FIN, Text, masked,
16-bit extended length to follow) and waits in `WS_PARSE_EXPECTED_SIZE`. -/
def exampleAwaitingLength : WebSocketFrameReader :=
  ((WebSocketFrameReader.new [0, 0, 0, 0]).readFrame ⟨[0x81, 0xFE]⟩).reader

/-- The number of bytes a `readFrame` call retires from the front of the buffer, read off the
stage before and after the call: `2 + ext + 4` (fixed header, extended length field of the
raw length stored in the reader, key) when the call made the transition from
`WS_PARSE_EXPECTED_SIZE` to `WS_PARSE_READ_DATA`, that is when it started in one of the
first two stages and ended in one of the last two; none otherwise. -/
def retiredBytes (r : WebSocketFrameReader) (res : ReadResult) : Nat :=
  if (r.state_ = .WS_PARSE_FIN ∨ r.state_ = .WS_PARSE_EXPECTED_SIZE) ∧
      (res.reader.state_ = .WS_PARSE_READ_DATA ∨ res.reader.state_ = .WS_PARSE_DONE) then
    2 + extendedLengthSize res.reader.unparsedContentLength_ + 4
  else 0

/-- What a `readFrame` call that retires `n` bytes does to the buffer.  The `n` bytes leave
the front.  If the call does not end in stage `WS_PARSE_DONE`, the bytes behind them are
left as they were.  If it ends in `WS_PARSE_DONE`, the XOR loop has run over the first
`contentLength_` of them, as far as they are readable.  The call reports 0 exactly when
it ends in `WS_PARSE_DONE` with all `contentLength_` bytes readable; with fewer readable
it ends, in `WS_PARSE_DONE`, at the first index that is not readable. -/
def BufferEffect (n : Nat) (buffer : IoBuffer) (res : ReadResult) : Prop :=
  n ≤ buffer.readable ∧
  res.buffer.readable + n = buffer.readable ∧
  (res.reader.state_ ≠ .WS_PARSE_DONE → res.buffer.data = buffer.data.drop n) ∧
  (res.reader.state_ = .WS_PARSE_DONE →
    res.buffer.data
      = cyclicXor res.reader.mask_ 0 ((buffer.data.drop n).take res.reader.contentLength_)
        ++ (buffer.data.drop n).drop res.reader.contentLength_) ∧
  (res.wantReadSize = .ok 0 ↔
    res.reader.state_ = .WS_PARSE_DONE ∧ res.reader.contentLength_ ≤ res.buffer.readable) ∧
  (res.wantReadSize = .error .outsideReadable ∧ res.reader.state_ = .WS_PARSE_DONE ↔
    res.reader.state_ = .WS_PARSE_DONE ∧ res.buffer.readable < res.reader.contentLength_)

namespace WebSocketCodec

/-- The states the member `reader_` of a codec has at the start of a loop iteration of
`readLoop`.  Only `readLoop` touches `reader_`, so such a state is the one the constructor
made or the one an earlier iteration left, of this call or of an earlier one, whether the
iteration went on, returned or threw. -/
inductive ReachableReader : WebSocketFrameReader → Prop where
  | construct (mask0 : List Nat) : ReachableReader (WebSocketCodec.new mask0).reader_
  | readLoopBody (s : ReadLoopState) :
      ReachableReader s.codec.reader_ → ReachableReader (readLoopBody s).1.codec.reader_

/-- The message `readLoop` hands to the dispatcher after a `readFrame` call: after a call
that reported 0, the request with `opcode()` of the reader and the `getConetentLength()`
bytes read off the buffer; after any other call, none. -/
def dispatchedBy (call : ReadResult) : Option WebSocketRequest :=
  match call.wantReadSize with
  | .ok 0 => some ⟨call.reader.opcode, (call.buffer.read call.reader.getConetentLength).1⟩
  | _ => none

/-- The `readFrame` calls of one run of the loop that starts with reader `r` and buffer `b`,
in the order they are made, each with its result.  The first call is `r.readFrame b`.
After a call that reported 0 and left bytes behind the payload, the next call is made on
the reset reader and on the bytes behind the payload.  A call that did not report 0, or
left nothing behind the payload, is the last one. -/
inductive ReadFrameCalls : WebSocketFrameReader → IoBuffer → List ReadResult → Prop where
  | last (r : WebSocketFrameReader) (b : IoBuffer) :
      ¬ ((r.readFrame b).wantReadSize = .ok 0 ∧
          ((r.readFrame b).buffer.read (r.readFrame b).reader.getConetentLength).2.isEmpty
            = false) →
      ReadFrameCalls r b [r.readFrame b]
  | next (r : WebSocketFrameReader) (b : IoBuffer) (calls : List ReadResult) :
      (r.readFrame b).wantReadSize = .ok 0 →
      ((r.readFrame b).buffer.read (r.readFrame b).reader.getConetentLength).2.isEmpty = false →
      ReadFrameCalls (r.readFrame b).reader.reset
        ((r.readFrame b).buffer.read (r.readFrame b).reader.getConetentLength).2 calls →
      ReadFrameCalls r b (r.readFrame b :: calls)

end WebSocketCodec

/-! ## `countSetBits` of `platform/utils.cpp` -/

/-- The local variables of `countSetBits` that its `for` loop updates: the counter `i`
(`uint32_t`), the probe `bitTest` (`ULONG_PTR`) and the result `bitSetCount`
(`uint32_t`). -/
structure CountSetBitsState where
  i : Nat
  bitTest : Nat
  bitSetCount : Nat
deriving DecidableEq

/-- The local variables of `countSetBits` when the loop is entered: `i = 0`,
`bitTest = static_cast<ULONG_PTR>(1) << LSHIFT` with
`LSHIFT = sizeof(ULONG_PTR) * 8 - 1`, and `bitSetCount = 0`.  `ULONG_PTR` is the
pointer-sized unsigned integer of the Windows SDK; `sizeofULongPtr` is its size in bytes,
4 on a 32-bit and 8 on a 64-bit target. -/
def countSetBitsEntry (sizeofULongPtr : Nat) : CountSetBitsState where
  i := 0
  bitTest := (1 <<< toUInt32 (sizeofULongPtr * 8 - 1)) % 2 ^ (sizeofULongPtr * 8)
  bitSetCount := 0

/-- One iteration of the loop of `countSetBits`: the body
`bitSetCount += ((bitMask & bitTest) ? 1 : 0); bitTest /= 2;` followed by `++i`. -/
def countSetBitsStep (bitMask : Nat) (s : CountSetBitsState) : CountSetBitsState where
  i := toUInt32 (s.i + 1)
  bitTest := s.bitTest / 2
  bitSetCount := toUInt32 (s.bitSetCount + (if bitMask &&& s.bitTest ≠ 0 then 1 else 0))

/-- The loop `for (...; i <= LSHIFT; ++i)` of `countSetBits` with a bound on the number of
times the condition is tested; it ends with the value of `bitSetCount` when the condition
fails.  `none` means the bound was reached. -/
def countSetBitsLoop (bitMask LSHIFT : Nat) : Nat → CountSetBitsState → Option Nat
  | 0, _ => none
  | fuel + 1, s =>
    if s.i ≤ LSHIFT then countSetBitsLoop bitMask LSHIFT fuel (countSetBitsStep bitMask s)
    else some s.bitSetCount

/-- The function `countSetBits(bitMask)` for a `ULONG_PTR` of `sizeofULongPtr` bytes.  The
bound `LSHIFT + 2` on the tests of the loop condition is never reached
(`countSetBits_eq`). -/
def countSetBits (sizeofULongPtr : Nat) (bitMask : Nat) : Option Nat :=
  let LSHIFT := toUInt32 (sizeofULongPtr * 8 - 1)
  countSetBitsLoop bitMask LSHIFT (LSHIFT + 2) (countSetBitsEntry sizeofULongPtr)

/-- The population count of a word of `wordBits` bits: the number of bit positions below
`wordBits` at which `m` has a 1. -/
def populationCount (wordBits m : Nat) : Nat :=
  (List.range wordBits).countP fun k => m.testBit k

/-! ## The header writer -/

/-- The bytes `writeWebSocketHeader` appends, case by case. -/
theorem writeWebSocketHeader_data (pBuffer : IoBuffer) (L : Nat) :
    (writeWebSocketHeader pBuffer L).data = pBuffer.data ++
      (if L ≤ 125 then [0x81, L % 256]
       else if L ≤ 65535 then [0x81, 126, L % 65536 / 256, L % 65536 % 256]
       else [0x81, 127,
          L % 2 ^ 64 / 256 ^ 7 % 256, L % 2 ^ 64 / 256 ^ 6 % 256, L % 2 ^ 64 / 256 ^ 5 % 256,
          L % 2 ^ 64 / 256 ^ 4 % 256, L % 2 ^ 64 / 256 ^ 3 % 256, L % 2 ^ 64 / 256 ^ 2 % 256,
          L % 2 ^ 64 / 256 % 256, L % 2 ^ 64 % 256]) := by
  unfold writeWebSocketHeader
  by_cases h1 : L ≤ 125
  · simp [h1, writeDataUInt8, IoBuffer.append, IoBuffer.makeWriteableSpace, toUInt8,
      WS_MASK_FIN, WS_OP_TEXT]
  · by_cases h2 : L ≤ 65535
    · simp [h1, h2, writeDataUInt8, writeDataBigEndianUInt16, IoBuffer.append,
        IoBuffer.makeWriteableSpace, toUInt8, toUInt16, WS_MASK_FIN, WS_OP_TEXT,
        WS_16BIT_EXT_PAYLOAD_LENGTH]
    · simp [h1, h2, writeDataUInt8, writeDataBigEndianUInt64, IoBuffer.append,
        IoBuffer.makeWriteableSpace, toUInt8, toUInt64, WS_MASK_FIN, WS_OP_TEXT,
        WS_64BIT_EXT_PAYLOAD_LENGTH]

/-- The big-endian value of eight bytes, written out. -/
theorem bigEndianValue_eight (a b c d e f g h : Nat) :
    bigEndianValue [a, b, c, d, e, f, g, h]
      = a * 256 ^ 7 + b * 256 ^ 6 + c * 256 ^ 5 + d * 256 ^ 4 + e * 256 ^ 3 + f * 256 ^ 2
        + g * 256 + h := by
  simp [bigEndianValue]
  ring

/-- A 64-bit value is the sum of its eight bytes at their weights. -/
theorem bytes_of_uint64 (L : Nat) (hL : L < 2 ^ 64) :
    (L / 256 ^ 7 % 256) * 256 ^ 7 + (L / 256 ^ 6 % 256) * 256 ^ 6 + (L / 256 ^ 5 % 256) * 256 ^ 5
      + (L / 256 ^ 4 % 256) * 256 ^ 4 + (L / 256 ^ 3 % 256) * 256 ^ 3
      + (L / 256 ^ 2 % 256) * 256 ^ 2 + (L / 256 % 256) * 256 + L % 256 = L := by
  norm_num at hL ⊢
  omega

/-- A value below 128 has bit 7 clear. -/
theorem land_128_of_lt : ∀ n < 128, n &&& 0x80 = 0 := by decide

/-- C1: for every 64-bit payload length `L`, `writeWebSocketHeader` appends
exactly `[0x81, L]` when `L ≤ 125`, `[0x81, 126, L / 256, L % 256]` when
`125 < L ≤ 65535`, and otherwise `[0x81, 127]` followed by the eight bytes of
the big-endian encoding of `L`.  In every case the first byte is `0x81` (FIN
set, reserved bits zero, opcode Text) and bit 7 of the second byte is 0. -/
theorem writeWebSocketHeader_bytes (pBuffer : IoBuffer) (L : Nat) (hL : L < 2 ^ 64) :
    ∃ header : List Nat,
      (writeWebSocketHeader pBuffer L).data = pBuffer.data ++ header ∧
      (L ≤ 125 → header = [0x81, L]) ∧
      (125 < L → L ≤ 65535 → header = [0x81, 126, L / 256, L % 256]) ∧
      (65535 < L → ∃ ext : List Nat, header = 0x81 :: 127 :: ext ∧ ext.length = 8 ∧
          (∀ b ∈ ext, b < 256) ∧ bigEndianValue ext = L) ∧
      (∃ second tail, header = 0x81 :: second :: tail ∧ second &&& 0x80 = 0) ∧
      ((0x81 : Nat) &&& WS_MASK_FIN = WS_MASK_FIN ∧ (0x81 : Nat) &&& 0x70 = 0 ∧
        (0x81 : Nat) &&& WS_MASK_OPCODE = WS_OP_TEXT) := by
  refine ⟨_, writeWebSocketHeader_data pBuffer L, ?_, ?_, ?_, ?_, by decide⟩
  · intro h
    have : L % 256 = L := Nat.mod_eq_of_lt (by omega)
    simp [h, this]
  · intro h1 h2
    have h3 : ¬ L ≤ 125 := by omega
    have : L % 65536 = L := Nat.mod_eq_of_lt (by omega)
    simp [h3, h2, this]
  · intro h
    have h1 : ¬ L ≤ 125 := by omega
    have h2 : ¬ L ≤ 65535 := by omega
    have h3 : L % 2 ^ 64 = L := Nat.mod_eq_of_lt hL
    rw [if_neg h1, if_neg h2, h3]
    refine ⟨_, rfl, rfl, ?_, ?_⟩
    · intro b hb
      simp only [List.mem_cons, List.mem_singleton, List.not_mem_nil, or_false] at hb
      rcases hb with h | h | h | h | h | h | h | h <;> subst h <;> exact Nat.mod_lt _ (by decide)
    · rw [bigEndianValue_eight]
      exact bytes_of_uint64 L hL
  · by_cases h1 : L ≤ 125
    · rw [if_pos h1]
      exact ⟨_, _, rfl, land_128_of_lt _ (by omega)⟩
    · by_cases h2 : L ≤ 65535
      · rw [if_neg h1, if_pos h2]
        exact ⟨_, _, rfl, by decide⟩
      · rw [if_neg h1, if_neg h2]
        exact ⟨_, _, rfl, by decide⟩

/-- Witness of C1 at `L = 70000` on a buffer that already holds one byte. -/
theorem writeWebSocketHeader_bytes_witness :
    (70000 : Nat) < 2 ^ 64 ∧
    ∃ header : List Nat,
      (writeWebSocketHeader ⟨[7]⟩ 70000).data = [7] ++ header ∧
      (70000 ≤ 125 → header = [0x81, 70000]) ∧
      (125 < 70000 → 70000 ≤ 65535 → header = [0x81, 126, 70000 / 256, 70000 % 256]) ∧
      (65535 < 70000 → ∃ ext : List Nat, header = 0x81 :: 127 :: ext ∧ ext.length = 8 ∧
          (∀ b ∈ ext, b < 256) ∧ bigEndianValue ext = 70000) ∧
      (∃ second tail, header = 0x81 :: second :: tail ∧ second &&& 0x80 = 0) ∧
      ((0x81 : Nat) &&& WS_MASK_FIN = WS_MASK_FIN ∧ (0x81 : Nat) &&& 0x70 = 0 ∧
        (0x81 : Nat) &&& WS_MASK_OPCODE = WS_OP_TEXT) :=
  ⟨by decide, writeWebSocketHeader_bytes ⟨[7]⟩ 70000 (by decide)⟩

/-- C2: the header written by `writeWebSocketHeader` is 2 bytes long exactly
when `L ≤ 125`, 4 bytes long exactly when `126 ≤ L ≤ 65535` and 10 bytes long
exactly when `L ≥ 65536`; `L = 125` uses the literal 7-bit field, `L = 126`
and `L = 65535` the 16-bit extended field, `L = 65536` the 64-bit one. -/
theorem writeWebSocketHeader_length (pBuffer : IoBuffer) (L : Nat) :
    ((writeWebSocketHeader pBuffer L).readable = pBuffer.readable + 2 ↔ L ≤ 125) ∧
    ((writeWebSocketHeader pBuffer L).readable = pBuffer.readable + 4 ↔ 126 ≤ L ∧ L ≤ 65535) ∧
    ((writeWebSocketHeader pBuffer L).readable = pBuffer.readable + 10 ↔ 65536 ≤ L) ∧
    (writeWebSocketHeader pBuffer 125).data = pBuffer.data ++ [0x81, 125] ∧
    (writeWebSocketHeader pBuffer 126).data = pBuffer.data ++ [0x81, 126, 0x00, 0x7E] ∧
    (writeWebSocketHeader pBuffer 65535).data = pBuffer.data ++ [0x81, 126, 0xFF, 0xFF] ∧
    (writeWebSocketHeader pBuffer 65536).data
      = pBuffer.data ++ [0x81, 127, 0, 0, 0, 0, 0, 1, 0, 0] := by
  have hlen : (writeWebSocketHeader pBuffer L).readable = pBuffer.readable +
      (if L ≤ 125 then 2 else if L ≤ 65535 then 4 else 10) := by
    simp only [IoBuffer.readable, writeWebSocketHeader_data, List.length_append]
    split
    · rfl
    · split <;> rfl
  refine ⟨?_, ?_, ?_, ?_, ?_, ?_, ?_⟩
  · rw [hlen]; split <;> [skip; split] <;> omega
  · rw [hlen]; split <;> [skip; split] <;> omega
  · rw [hlen]; split <;> [skip; split] <;> omega
  all_goals simp [writeWebSocketHeader_data]

namespace WebSocketFrameReader

/-! ## Stage lemmas of the reader -/

/-- The XOR loop comes to an index with no readable byte exactly when fewer bytes than
`contentLength` are readable. -/
theorem maskLoop_fault (mask : List Nat) (n : Nat) :
    ∀ (l : List Nat) (i : Nat), (maskLoop mask n i l).2 = decide (i + l.length < n) := by
  intro l
  induction l with
  | nil => intro i; simp [maskLoop]
  | cons b rest ih =>
    intro i
    by_cases hi : i < n
    · simp only [maskLoop, hi, if_true, ih (i + 1), List.length_cons]
      congr 1
      apply propext
      constructor <;> intro h <;> omega
    · simp only [maskLoop, hi, if_false, List.length_cons]
      exact (decide_eq_false (by omega)).symm

/-- The bytes the XOR loop leaves: the bytes at loop indices below `contentLength`, XORed
cyclically with the key, followed by the untouched rest. -/
theorem maskLoop_bytes (mask : List Nat) (n : Nat) :
    ∀ (l : List Nat) (i : Nat),
      (maskLoop mask n i l).1 = cyclicXor mask i (l.take (n - i)) ++ l.drop (n - i) := by
  intro l
  induction l with
  | nil => intro i; simp [maskLoop, cyclicXor]
  | cons b rest ih =>
    intro i
    by_cases hi : i < n
    · have e : n - i = (n - (i + 1)) + 1 := by omega
      simp only [maskLoop, hi, if_true, ih (i + 1)]
      rw [e, List.take_succ_cons, List.drop_succ_cons]
      rfl
    · have e : n - i = 0 := by omega
      simp [maskLoop, hi, e, cyclicXor]

/-- The XOR loop succeeds when every index below `contentLength` has a readable byte. -/
theorem maskLoop_isSome (mask : List Nat) (n : Nat) :
    ∀ (l : List Nat) (i : Nat), n ≤ i + l.length →
      ∃ out, maskLoop mask n i l = (out, false) := by
  intro l i h
  refine ⟨(maskLoop mask n i l).1, ?_⟩
  have h2 := maskLoop_fault mask n l i
  rw [decide_eq_false (by omega)] at h2
  rw [← h2]

/-- The XOR loop keeps the length, XORs the bytes at loop indices below `contentLength` with
the key byte of the index modulo 4, and leaves the others alone. -/
theorem maskLoop_getElem (mask : List Nat) (n : Nat) :
    ∀ (l : List Nat) (i : Nat) (out : List Nat) (fault : Bool),
      maskLoop mask n i l = (out, fault) →
      out.length = l.length ∧
      ∀ j, out[j]? = if i + j < n then (l[j]?).map (fun w => w ^^^ mask.getD ((i + j) % 4) 0)
                     else l[j]? := by
  intro l
  induction l with
  | nil =>
    intro i out fault h
    simp only [maskLoop, Prod.mk.injEq] at h
    obtain ⟨rfl, -⟩ := h
    simp
  | cons b rest ih =>
    intro i out fault h
    by_cases hi : i < n
    · simp only [maskLoop, hi, if_true, Prod.mk.injEq] at h
      obtain ⟨rfl, -⟩ := h
      obtain ⟨hlen, hget⟩ := ih (i + 1) _ _ rfl
      refine ⟨by simp [hlen], ?_⟩
      intro j
      cases j with
      | zero => simp [hi]
      | succ j =>
        have := hget j
        simp only [List.getElem?_cons_succ, this]
        have e : i + 1 + j = i + (j + 1) := by omega
        rw [e]
    · simp only [maskLoop, hi, if_false, Prod.mk.injEq] at h
      obtain ⟨rfl, -⟩ := h
      refine ⟨rfl, ?_⟩
      intro j
      have : ¬ i + j < n := by omega
      simp [this]

/-- Stage `WS_PARSE_READ_DATA` with a non-zero 32-bit shortfall: the shortfall is reported,
reader and buffer stay as they are. -/
theorem readFrameReadData_short (r : WebSocketFrameReader) (buffer : IoBuffer)
    (hw : toUInt32 (r.contentLength_ - min r.contentLength_ (toUInt64 buffer.readable)) ≠ 0) :
    r.readFrameReadData buffer
      = ⟨r, buffer,
          .ok (toUInt32 (r.contentLength_ - min r.contentLength_ (toUInt64 buffer.readable))),
          some (toUInt32 (r.contentLength_ - min r.contentLength_ (toUInt64 buffer.readable)))⟩ := by
  unfold readFrameReadData
  simp only [gt_iff_lt]
  rw [if_pos (Nat.pos_of_ne_zero hw)]

/-- Stage `WS_PARSE_READ_DATA` with a zero 32-bit shortfall falls through to `WS_PARSE_DONE`. -/
theorem readFrameReadData_full (r : WebSocketFrameReader) (buffer : IoBuffer)
    (hw : toUInt32 (r.contentLength_ - min r.contentLength_ (toUInt64 buffer.readable)) = 0) :
    r.readFrameReadData buffer
      = readFrameDone { r with state_ := .WS_PARSE_DONE } buffer (some 0) := by
  unfold readFrameReadData
  simp only [gt_iff_lt]
  rw [if_neg (by omega), hw]

/-- Stage `WS_PARSE_DONE` of a masked reader whose XOR loop stays inside the readable bytes. -/
theorem readFrameDone_ok (r : WebSocketFrameReader) (buffer : IoBuffer) (out : List Nat)
    (stored : Option Nat) (hm : r.isMasked_ = true)
    (h : maskLoop r.mask_ r.contentLength_ 0 buffer.data = (out, false)) :
    r.readFrameDone buffer stored = ⟨r, ⟨out⟩, .ok 0, some 0⟩ := by
  simp [readFrameDone, maskData, hm, h]

/-- Stage `WS_PARSE_FIN` on a buffer of at least two bytes with the mask bit set and a legal
opcode: the four header fields are stored and the call falls through to
`WS_PARSE_EXPECTED_SIZE`. -/
theorem readFrame_fin_ok (r : WebSocketFrameReader) (hs : r.state_ = .WS_PARSE_FIN)
    (b0 b1 : Nat) (rest : List Nat) (hmask : b1 &&& 0x80 = 0x80)
    (hop : isLegalOpcode (b0 &&& 0x0F) = true) :
    r.readFrame ⟨b0 :: b1 :: rest⟩
      = readFrameExpectedSize
          { r with
            lastFrame_ := (b0 &&& 0x80) == 0x80
            unparsedContentLength_ := b1 &&& 0x7F
            isMasked_ := true
            opcode_ := b0 &&& 0x0F
            state_ := .WS_PARSE_EXPECTED_SIZE }
          ⟨b0 :: b1 :: rest⟩ := by
  simp [readFrame, hs, IoBuffer.isEmpty, IoBuffer.readable, parseFinAndContentLength,
    IoBuffer.peekAt, hmask, hop]

/-- The 16-bit extended length as the source computes it is the big-endian value of its two
bytes. -/
theorem ntohs_memcpyUInt16 (x e0 e1 : Nat) (h0 : e0 < 256) (h1 : e1 < 256) :
    ntohs (memcpyUInt16 x [e0, e1]) = e0 * 256 + e1 := by
  simp only [ntohs, memcpyUInt16, littleEndianValue, toUInt16]
  omega

/-- The 64-bit extended length as the source computes it is the big-endian value of its
eight bytes. -/
theorem htonll_memcpyUInt64 (e0 e1 e2 e3 e4 e5 e6 e7 : Nat)
    (h0 : e0 < 256) (h1 : e1 < 256) (h2 : e2 < 256) (h3 : e3 < 256)
    (h4 : e4 < 256) (h5 : e5 < 256) (h6 : e6 < 256) (h7 : e7 < 256) :
    htonll (memcpyUInt64 [e0, e1, e2, e3, e4, e5, e6, e7])
      = bigEndianValue [e0, e1, e2, e3, e4, e5, e6, e7] := by
  rw [bigEndianValue_eight]
  simp only [htonll, memcpyUInt64, littleEndianValue]
  generalize hx : e0 + 256 * (e1 + 256 * (e2 + 256 * (e3 + 256 * (e4 + 256 * (e5 + 256 * (e6 + 256 * (e7 + 256 * 0))))))) = x
  have a0 : x % 256 = e0 := by omega
  have a1 : x / 256 % 256 = e1 := by omega
  have a2 : x / 256 ^ 2 % 256 = e2 := by norm_num; omega
  have a3 : x / 256 ^ 3 % 256 = e3 := by norm_num; omega
  have a4 : x / 256 ^ 4 % 256 = e4 := by norm_num; omega
  have a5 : x / 256 ^ 5 % 256 = e5 := by norm_num; omega
  have a6 : x / 256 ^ 6 % 256 = e6 := by norm_num; omega
  have a7 : x / 256 ^ 7 % 256 = e7 := by norm_num; omega
  rw [a0, a1, a2, a3, a4, a5, a6, a7]

/-- Stage `WS_PARSE_EXPECTED_SIZE` with a literal length and at least six buffered bytes. -/
theorem readFrameExpectedSize_literal (r : WebSocketFrameReader) (hm : r.isMasked_ = true)
    (h126 : r.unparsedContentLength_ ≠ 126) (h127 : r.unparsedContentLength_ ≠ 127)
    (h0 h1 k0 k1 k2 k3 : Nat) (rest : List Nat) :
    r.readFrameExpectedSize ⟨h0 :: h1 :: k0 :: k1 :: k2 :: k3 :: rest⟩
      = readFrameReadData
          { r with
            indexOfFirstMask_ := 2
            bytesReceiveLengthAndMask_ := 4
            contentLength_ := r.unparsedContentLength_
            mask_ := [k0, k1, k2, k3]
            state_ := .WS_PARSE_READ_DATA }
          ⟨rest⟩ := by
  simp [readFrameExpectedSize, isReadyRead, parseContentLength, parseExtendedLength,
    getMaskSize, hm, h126, h127, IoBuffer.readable, IoBuffer.peekBytes, IoBuffer.retrieve,
    WS_MIN_SIZE, WS_MASK_SIZE]

/-- Stage `WS_PARSE_EXPECTED_SIZE` with a 16-bit extended length and at least eight buffered
bytes. -/
theorem readFrameExpectedSize_ext16 (r : WebSocketFrameReader) (hm : r.isMasked_ = true)
    (hu : r.unparsedContentLength_ = 126)
    (h0 h1 e0 e1 k0 k1 k2 k3 : Nat) (rest : List Nat) :
    r.readFrameExpectedSize ⟨h0 :: h1 :: e0 :: e1 :: k0 :: k1 :: k2 :: k3 :: rest⟩
      = readFrameReadData
          { r with
            indexOfFirstMask_ := 4
            bytesReceiveLengthAndMask_ := 6
            contentLength_ := ntohs (memcpyUInt16 r.contentLength_ [e0, e1])
            mask_ := [k0, k1, k2, k3]
            state_ := .WS_PARSE_READ_DATA }
          ⟨rest⟩ := by
  simp [readFrameExpectedSize, isReadyRead, parseContentLength, parseExtendedLength,
    getMaskSize, hm, hu, IoBuffer.readable, IoBuffer.peekBytes, IoBuffer.retrieve,
    WS_MIN_SIZE, WS_MASK_SIZE]

/-- Stage `WS_PARSE_EXPECTED_SIZE` with a 64-bit extended length and at least fourteen
buffered bytes. -/
theorem readFrameExpectedSize_ext64 (r : WebSocketFrameReader) (hm : r.isMasked_ = true)
    (hu : r.unparsedContentLength_ = 127)
    (h0 h1 e0 e1 e2 e3 e4 e5 e6 e7 k0 k1 k2 k3 : Nat) (rest : List Nat) :
    r.readFrameExpectedSize
        ⟨h0 :: h1 :: e0 :: e1 :: e2 :: e3 :: e4 :: e5 :: e6 :: e7 :: k0 :: k1 :: k2 :: k3 :: rest⟩
      = readFrameReadData
          { r with
            indexOfFirstMask_ := 10
            bytesReceiveLengthAndMask_ := 12
            contentLength_ := htonll (memcpyUInt64 [e0, e1, e2, e3, e4, e5, e6, e7])
            mask_ := [k0, k1, k2, k3]
            state_ := .WS_PARSE_READ_DATA }
          ⟨rest⟩ := by
  simp [readFrameExpectedSize, isReadyRead, parseContentLength, parseExtendedLength,
    getMaskSize, hm, hu, IoBuffer.readable, IoBuffer.peekBytes, IoBuffer.retrieve,
    WS_MIN_SIZE, WS_MASK_SIZE]

/-- Stage `WS_PARSE_READ_DATA` with fewer readable bytes than `contentLength_` and a shortfall
below `2 ^ 32`: the exact shortfall is reported, reader and buffer stay as they are. -/
theorem readFrameReadData_shortfall (r : WebSocketFrameReader) (buffer : IoBuffer)
    (hlt : buffer.readable < r.contentLength_) (h64 : r.contentLength_ < 2 ^ 64)
    (h32 : r.contentLength_ - buffer.readable < 2 ^ 32) :
    r.readFrameReadData buffer
      = ⟨r, buffer, .ok (r.contentLength_ - buffer.readable),
          some (r.contentLength_ - buffer.readable)⟩ := by
  have e64 : toUInt64 buffer.readable = buffer.readable := Nat.mod_eq_of_lt (by omega)
  have e : toUInt32 (r.contentLength_ - min r.contentLength_ (toUInt64 buffer.readable))
      = r.contentLength_ - buffer.readable := by
    rw [e64, Nat.min_eq_right (Nat.le_of_lt hlt)]
    exact Nat.mod_eq_of_lt h32
  have h := readFrameReadData_short r buffer (by rw [e]; omega)
  rw [e] at h
  exact h

/-- Stage `WS_PARSE_READ_DATA` of a masked reader with the whole payload readable: the XOR
loop runs over the payload, the stage becomes `WS_PARSE_DONE` and 0 is reported. -/
theorem readFrameReadData_complete (r : WebSocketFrameReader) (buffer : IoBuffer)
    (hm : r.isMasked_ = true) (hlen : r.contentLength_ ≤ buffer.readable)
    (hsize : buffer.readable < 2 ^ 64) :
    ∃ out : List Nat,
      maskLoop r.mask_ r.contentLength_ 0 buffer.data = (out, false) ∧
      r.readFrameReadData buffer = ⟨{ r with state_ := .WS_PARSE_DONE }, ⟨out⟩, .ok 0, some 0⟩ := by
  obtain ⟨out, hout⟩ := maskLoop_isSome r.mask_ r.contentLength_ buffer.data 0
    (by simpa [IoBuffer.readable] using hlen)
  refine ⟨out, hout, ?_⟩
  have h64 : toUInt64 buffer.readable = buffer.readable := Nat.mod_eq_of_lt hsize
  have hw : toUInt32 (r.contentLength_ - min r.contentLength_ (toUInt64 buffer.readable)) = 0 := by
    rw [h64, Nat.min_eq_left hlen, Nat.sub_self]
    rfl
  rw [readFrameReadData_full r buffer hw]
  exact readFrameDone_ok _ buffer out _ hm hout

/-- Setting bit 7 of a value below 128 sets the mask bit. -/
theorem lor_128_land_128 : ∀ n < 128, (n ||| 0x80) &&& 0x80 = 0x80 := by decide

/-- Setting bit 7 of a value below 128 keeps its seven low bits. -/
theorem lor_128_land_127 : ∀ n < 128, (n ||| 0x80) &&& 0x7F = n := by decide

/-- The bytes of `maskedHeader`, case by case. -/
theorem maskedHeader_eq (L : Nat) :
    maskedHeader L =
      (if L ≤ 125 then [0x81, L % 256 ||| 0x80]
       else if L ≤ 65535 then [0x81, 0xFE, L % 65536 / 256, L % 65536 % 256]
       else [0x81, 0xFF,
          L % 2 ^ 64 / 256 ^ 7 % 256, L % 2 ^ 64 / 256 ^ 6 % 256, L % 2 ^ 64 / 256 ^ 5 % 256,
          L % 2 ^ 64 / 256 ^ 4 % 256, L % 2 ^ 64 / 256 ^ 3 % 256, L % 2 ^ 64 / 256 ^ 2 % 256,
          L % 2 ^ 64 / 256 % 256, L % 2 ^ 64 % 256]) := by
  unfold maskedHeader
  rw [writeWebSocketHeader_data]
  by_cases h1 : L ≤ 125
  · simp [h1]
  · by_cases h2 : L ≤ 65535
    · simp [h1, h2]
    · simp [h1, h2]

/-- A reader in stage `WS_PARSE_FIN` rejects every header `writeWebSocketHeader` writes: its
mask bit is clear. -/
theorem readFrame_writer_bytes_rejected (r : WebSocketFrameReader)
    (hs : r.state_ = .WS_PARSE_FIN) (L : Nat) (payload : List Nat) :
    (r.readFrame ((writeWebSocketHeader ⟨[]⟩ L).append payload)).wantReadSize
      = .error .protocolViolation := by
  have key : ∀ b1 tail, b1 &&& 0x80 = 0 →
      (r.readFrame ⟨0x81 :: b1 :: tail⟩).wantReadSize = .error .protocolViolation := by
    intro b1 tail hb
    simp [readFrame, hs, IoBuffer.isEmpty, IoBuffer.readable, parseFinAndContentLength,
      IoBuffer.peekAt, hb]
  simp only [IoBuffer.append, writeWebSocketHeader_data, List.nil_append]
  by_cases h1 : L ≤ 125
  · rw [if_pos h1]
    exact key _ _ (land_128_of_lt _ (by omega))
  · by_cases h2 : L ≤ 65535
    · rw [if_neg h1, if_pos h2]
      exact key _ _ (by decide)
    · rw [if_neg h1, if_neg h2]
      exact key _ _ (by decide)

/-- A reader in stage `WS_PARSE_FIN` given `maskedHeader L`, four key bytes and a tail passes
the first two stages: it resolves the length `L`, stores the key and retires header and
key. -/
theorem readFrame_masked_frame (r : WebSocketFrameReader) (hs : r.state_ = .WS_PARSE_FIN)
    (L : Nat) (hL : L < 2 ^ 64) (k0 k1 k2 k3 : Nat) (tail : List Nat) :
    r.readFrame ⟨maskedHeader L ++ [k0, k1, k2, k3] ++ tail⟩
      = readFrameReadData
          { r with
            lastFrame_ := true
            unparsedContentLength_ := if L ≤ 125 then L else if L ≤ 65535 then 126 else 127
            isMasked_ := true
            opcode_ := WS_OP_TEXT
            indexOfFirstMask_ := if L ≤ 125 then 2 else if L ≤ 65535 then 4 else 10
            bytesReceiveLengthAndMask_ := if L ≤ 125 then 4 else if L ≤ 65535 then 6 else 12
            contentLength_ := L
            mask_ := [k0, k1, k2, k3]
            state_ := .WS_PARSE_READ_DATA }
          ⟨tail⟩ := by
  rw [maskedHeader_eq]
  by_cases h1 : L ≤ 125
  · have hmod : L % 256 = L := Nat.mod_eq_of_lt (by omega)
    simp only [if_pos h1, hmod, List.cons_append, List.nil_append]
    rw [readFrame_fin_ok r hs _ _ _ (lor_128_land_128 L (by omega)) (by decide)]
    rw [readFrameExpectedSize_literal _ rfl
      (by simp only [lor_128_land_127 L (by omega)]; omega)
      (by simp only [lor_128_land_127 L (by omega)]; omega)]
    simp only [lor_128_land_127 L (by omega)]
    rfl
  · by_cases h2 : L ≤ 65535
    · have hmod : L % 65536 = L := Nat.mod_eq_of_lt (by omega)
      simp only [if_neg h1, if_pos h2, hmod, List.cons_append, List.nil_append]
      rw [readFrame_fin_ok r hs _ _ _ (by decide) (by decide)]
      rw [readFrameExpectedSize_ext16 _ rfl rfl]
      rw [ntohs_memcpyUInt16 _ _ _ (by omega) (by omega)]
      have : L / 256 * 256 + L % 256 = L := by omega
      rw [this]
      rfl
    · have hmod : L % 2 ^ 64 = L := Nat.mod_eq_of_lt hL
      simp only [if_neg h1, if_neg h2, hmod, List.cons_append, List.nil_append]
      rw [readFrame_fin_ok r hs _ _ _ (by decide) (by decide)]
      rw [readFrameExpectedSize_ext64 _ rfl rfl]
      rw [htonll_memcpyUInt64 _ _ _ _ _ _ _ _ (Nat.mod_lt _ (by decide))
        (Nat.mod_lt _ (by decide)) (Nat.mod_lt _ (by decide)) (Nat.mod_lt _ (by decide))
        (Nat.mod_lt _ (by decide)) (Nat.mod_lt _ (by decide)) (Nat.mod_lt _ (by decide))
        (Nat.mod_lt _ (by decide))]
      rw [bigEndianValue_eight, bytes_of_uint64 L hL]
      rfl

/-- A reader in stage `WS_PARSE_FIN` given a buffer of one byte indexes `peek()[1]`. -/
theorem readFrame_single_byte (r : WebSocketFrameReader) (hs : r.state_ = .WS_PARSE_FIN)
    (b : Nat) :
    r.readFrame ⟨[b]⟩ = ⟨r, ⟨[b]⟩, .error .outsideReadable, none⟩ := by
  simp [readFrame, hs, IoBuffer.isEmpty, IoBuffer.readable, parseFinAndContentLength,
    IoBuffer.peekAt]

/-! ## Claims C3 to C10 -/

/-- C3, counterexample: the header `writeWebSocketHeader` writes for `L = 1`, followed by one
payload byte, is not decoded by a fresh reader; `readFrame` raises the protocol violation
of `RAPID_ENSURE(isMasked_)` and the resolved length stays 0. -/
theorem readFrame_roundtrip_unmasked_counterexample :
    (new [0, 0, 0, 0]).readFrame ((writeWebSocketHeader ⟨[]⟩ 1).append [0x61])
      = ⟨{ new [0, 0, 0, 0] with isMasked_ := false, unparsedContentLength_ := 1 },
          ⟨[0x81, 0x01, 0x61]⟩, .error .protocolViolation, none⟩ ∧
    ¬ (((new [0, 0, 0, 0]).readFrame
          ((writeWebSocketHeader ⟨[]⟩ 1).append [0x61])).wantReadSize = .ok 0 ∧
       ((new [0, 0, 0, 0]).readFrame
          ((writeWebSocketHeader ⟨[]⟩ 1).append [0x61])).reader.getConetentLength = 1) := by
  refine ⟨rfl, ?_⟩
  rintro ⟨-, h⟩
  exact absurd h (by decide)

/-- C3, amended: for every 64-bit `L` the bytes of `writeWebSocketHeader(L)` followed by `L`
payload bytes are rejected by a fresh reader as a protocol violation (the mask bit is
unset); with bit 7 of the second byte set and a 4-byte key inserted before the payload,
`readFrame` on a fresh reader yields a decoded frame (`wantReadSize = 0`, stage
`WS_PARSE_DONE`) whose resolved payload length `getConetentLength` equals `L`. -/
theorem readFrame_roundtrip_masked (L : Nat) (hL : L < 2 ^ 64) (mask0 : List Nat)
    (k0 k1 k2 k3 : Nat) (payload : List Nat) (hpay : payload.length = L) :
    ((new mask0).readFrame ((writeWebSocketHeader ⟨[]⟩ L).append payload)).wantReadSize
        = .error .protocolViolation ∧
    ((new mask0).readFrame ⟨maskedHeader L ++ [k0, k1, k2, k3] ++ payload⟩).wantReadSize
        = .ok 0 ∧
    ((new mask0).readFrame ⟨maskedHeader L ++ [k0, k1, k2, k3] ++ payload⟩).reader.state_
        = .WS_PARSE_DONE ∧
    ((new mask0).readFrame
        ⟨maskedHeader L ++ [k0, k1, k2, k3] ++ payload⟩).reader.getConetentLength = L := by
  refine ⟨readFrame_writer_bytes_rejected _ rfl L payload, ?_⟩
  rw [readFrame_masked_frame (new mask0) rfl L hL]
  obtain ⟨out, -, hread⟩ := readFrameReadData_complete
    { new mask0 with
      lastFrame_ := true
      unparsedContentLength_ := if L ≤ 125 then L else if L ≤ 65535 then 126 else 127
      isMasked_ := true
      opcode_ := WS_OP_TEXT
      indexOfFirstMask_ := if L ≤ 125 then 2 else if L ≤ 65535 then 4 else 10
      bytesReceiveLengthAndMask_ := if L ≤ 125 then 4 else if L ≤ 65535 then 6 else 12
      contentLength_ := L
      mask_ := [k0, k1, k2, k3]
      state_ := .WS_PARSE_READ_DATA }
    ⟨payload⟩ rfl (by simp [IoBuffer.readable, hpay])
    (by simpa [IoBuffer.readable, hpay] using hL)
  rw [hread]
  exact ⟨rfl, rfl, rfl⟩

/-- Witness of the amended C3 at `L = 126` with key `1 2 3 4`. -/
theorem readFrame_roundtrip_masked_witness :
    (126 : Nat) < 2 ^ 64 ∧ (List.replicate 126 0x61).length = 126 ∧
    ((new [0, 0, 0, 0]).readFrame
        ((writeWebSocketHeader ⟨[]⟩ 126).append (List.replicate 126 0x61))).wantReadSize
        = .error .protocolViolation ∧
    ((new [0, 0, 0, 0]).readFrame
        ⟨maskedHeader 126 ++ [1, 2, 3, 4] ++ List.replicate 126 0x61⟩).wantReadSize
        = .ok 0 ∧
    ((new [0, 0, 0, 0]).readFrame
        ⟨maskedHeader 126 ++ [1, 2, 3, 4] ++ List.replicate 126 0x61⟩).reader.state_
        = .WS_PARSE_DONE ∧
    ((new [0, 0, 0, 0]).readFrame
        ⟨maskedHeader 126 ++ [1, 2, 3, 4]
          ++ List.replicate 126 0x61⟩).reader.getConetentLength = 126 :=
  ⟨by decide, List.length_replicate _ _,
    readFrame_roundtrip_masked 126 (by decide) [0, 0, 0, 0] 1 2 3 4
      (List.replicate 126 0x61) (List.length_replicate _ _)⟩

/-- C4, evaluation at the failing input: the masked Text frame `81 83 01 02 03 04 49 4B 4D`
(key `01 02 03 04`, payload `48 49 4E`) is decoded by one `readFrame` call on the whole
frame; delivered in 1-byte chunks, the first call already indexes `peek()[1]` with one
readable byte and the delivery stops there with nothing decoded.  With a first chunk of
two bytes the chunked delivery gives the result of the single call. -/
theorem feedChunks_single_bytes_diverges :
    ((new [0, 0, 0, 0]).readFrame ⟨[0x81, 0x83, 1, 2, 3, 4, 0x49, 0x4B, 0x4D]⟩).wantReadSize
      = .ok 0 ∧
    ((new [0, 0, 0, 0]).readFrame ⟨[0x81, 0x83, 1, 2, 3, 4, 0x49, 0x4B, 0x4D]⟩).reader.opcode
      = WS_OP_TEXT ∧
    ((new [0, 0, 0, 0]).readFrame
      ⟨[0x81, 0x83, 1, 2, 3, 4, 0x49, 0x4B, 0x4D]⟩).reader.getConetentLength = 3 ∧
    ((new [0, 0, 0, 0]).readFrame ⟨[0x81, 0x83, 1, 2, 3, 4, 0x49, 0x4B, 0x4D]⟩).buffer
      = ⟨[0x48, 0x49, 0x4E]⟩ ∧
    feedChunks (new [0, 0, 0, 0]) ⟨[]⟩ [0x81]
        [[0x83], [1], [2], [3], [4], [0x49], [0x4B], [0x4D]]
      = ⟨new [0, 0, 0, 0], ⟨[0x81]⟩, .error .outsideReadable, none⟩ ∧
    feedChunks (new [0, 0, 0, 0]) ⟨[]⟩ [0x81, 0x83]
        [[1], [2], [3], [4], [0x49], [0x4B], [0x4D]]
      = (new [0, 0, 0, 0]).readFrame ⟨[0x81, 0x83, 1, 2, 3, 4, 0x49, 0x4B, 0x4D]⟩ := by
  refine ⟨rfl, rfl, rfl, rfl, rfl, ?_⟩
  rfl

/-- C5, evaluation at the failing inputs: on every buffer holding exactly one readable byte a
freshly constructed reader, and a reader after `reset()`, index `peek()[1]`, the second
header byte that is not buffered; no `wantReadSize` is reported. -/
theorem readFrame_one_byte_reads_second (mask0 : List Nat) (b : Nat) :
    (new mask0).readFrame ⟨[b]⟩ = ⟨new mask0, ⟨[b]⟩, .error .outsideReadable, none⟩ ∧
    (new mask0).reset.readFrame ⟨[b]⟩
      = ⟨(new mask0).reset, ⟨[b]⟩, .error .outsideReadable, none⟩ := by
  constructor <;>
    simp [readFrame, new, reset, IoBuffer.isEmpty, IoBuffer.readable, parseFinAndContentLength,
      IoBuffer.peekAt]

/-- C6: for every buffer of at least 2 bytes whose first byte has its low nibble outside
`0x0, 0x1, 0x2, 0x8, 0x9, 0xA`, `readFrame` on a reader in stage `WS_PARSE_FIN` fails with a
protocol violation whatever the other bits are; no frame is decoded, the stage stays
`WS_PARSE_FIN` and the buffer is untouched. -/
theorem readFrame_illegal_opcode (r : WebSocketFrameReader) (hs : r.state_ = .WS_PARSE_FIN)
    (b0 b1 : Nat) (rest : List Nat)
    (hop : b0 &&& 0x0F ∉ [0x0, 0x1, 0x2, 0x8, 0x9, 0xA]) :
    (r.readFrame ⟨b0 :: b1 :: rest⟩).wantReadSize = .error .protocolViolation ∧
    (r.readFrame ⟨b0 :: b1 :: rest⟩).reader.state_ = .WS_PARSE_FIN ∧
    (r.readFrame ⟨b0 :: b1 :: rest⟩).buffer = ⟨b0 :: b1 :: rest⟩ := by
  simp only [List.mem_cons, List.mem_singleton, List.not_mem_nil, or_false, not_or] at hop
  obtain ⟨h0, h1, h2, h8, h9, hA⟩ := hop
  by_cases hmask : ((b1 &&& 0x80) >>> 7 != 0) = true
  · simp [readFrame, hs, IoBuffer.isEmpty, IoBuffer.readable, parseFinAndContentLength,
      IoBuffer.peekAt, hmask, isLegalOpcode, h0, h1, h2, h8, h9, hA]
  · simp [readFrame, hs, IoBuffer.isEmpty, IoBuffer.readable, parseFinAndContentLength,
      IoBuffer.peekAt, hmask]

/-- Witness of C6 at the first byte `0x83` (FIN set, opcode 3) with the mask bit set. -/
theorem readFrame_illegal_opcode_witness :
    (new [0, 0, 0, 0]).state_ = .WS_PARSE_FIN ∧
    (0x83 : Nat) &&& 0x0F ∉ [0x0, 0x1, 0x2, 0x8, 0x9, 0xA] ∧
    ((new [0, 0, 0, 0]).readFrame ⟨0x83 :: 0x81 :: [1, 2, 3, 4, 0x60]⟩).wantReadSize
      = .error .protocolViolation ∧
    ((new [0, 0, 0, 0]).readFrame ⟨0x83 :: 0x81 :: [1, 2, 3, 4, 0x60]⟩).reader.state_
      = .WS_PARSE_FIN ∧
    ((new [0, 0, 0, 0]).readFrame ⟨0x83 :: 0x81 :: [1, 2, 3, 4, 0x60]⟩).buffer
      = ⟨0x83 :: 0x81 :: [1, 2, 3, 4, 0x60]⟩ :=
  ⟨rfl, by decide, readFrame_illegal_opcode (new [0, 0, 0, 0]) rfl 0x83 0x81 [1, 2, 3, 4, 0x60]
    (by decide)⟩

/-- C7: for every buffer of at least 2 bytes whose second byte has bit 7 clear, `readFrame`
on a reader in stage `WS_PARSE_FIN` fails with a protocol violation for every first byte
and length field; no frame is decoded, the stage stays `WS_PARSE_FIN` and the buffer is
untouched. -/
theorem readFrame_unmasked (r : WebSocketFrameReader) (hs : r.state_ = .WS_PARSE_FIN)
    (b0 b1 : Nat) (rest : List Nat) (hmask : b1 &&& 0x80 = 0) :
    (r.readFrame ⟨b0 :: b1 :: rest⟩).wantReadSize = .error .protocolViolation ∧
    (r.readFrame ⟨b0 :: b1 :: rest⟩).reader.state_ = .WS_PARSE_FIN ∧
    (r.readFrame ⟨b0 :: b1 :: rest⟩).buffer = ⟨b0 :: b1 :: rest⟩ := by
  simp [readFrame, hs, IoBuffer.isEmpty, IoBuffer.readable, parseFinAndContentLength,
    IoBuffer.peekAt, hmask]

/-- Witness of C7 at the unmasked Text header `81 03`. -/
theorem readFrame_unmasked_witness :
    (new [0, 0, 0, 0]).state_ = .WS_PARSE_FIN ∧ (0x03 : Nat) &&& 0x80 = 0 ∧
    ((new [0, 0, 0, 0]).readFrame ⟨0x81 :: 0x03 :: [0x48, 0x49, 0x4E]⟩).wantReadSize
      = .error .protocolViolation ∧
    ((new [0, 0, 0, 0]).readFrame ⟨0x81 :: 0x03 :: [0x48, 0x49, 0x4E]⟩).reader.state_
      = .WS_PARSE_FIN ∧
    ((new [0, 0, 0, 0]).readFrame ⟨0x81 :: 0x03 :: [0x48, 0x49, 0x4E]⟩).buffer
      = ⟨0x81 :: 0x03 :: [0x48, 0x49, 0x4E]⟩ :=
  ⟨rfl, by decide, readFrame_unmasked (new [0, 0, 0, 0]) rfl 0x81 0x03 [0x48, 0x49, 0x4E]
    (by decide)⟩

/-- C8, evaluation at the failing input: a fresh reader given the 14 header bytes of a masked
frame that announces `2 ^ 32` payload bytes, and no payload byte.  The 64-bit shortfall
`2 ^ 32` narrowed to the `uint32_t` `wantReadSize` is 0, so the stage becomes
`WS_PARSE_DONE` on an empty buffer and the XOR loop of `maskData` indexes bytes that are
not buffered. -/
theorem readFrame_completes_without_payload :
    toUInt32 (4294967296 - min 4294967296 (toUInt64 0)) = 0 ∧
    ((new [0, 0, 0, 0]).readFrame
      ⟨[0x81, 0xFF, 0, 0, 0, 1, 0, 0, 0, 0, 1, 2, 3, 4]⟩).reader.state_ = .WS_PARSE_DONE ∧
    ((new [0, 0, 0, 0]).readFrame
      ⟨[0x81, 0xFF, 0, 0, 0, 1, 0, 0, 0, 0, 1, 2, 3, 4]⟩).reader.getConetentLength
        = 4294967296 ∧
    ((new [0, 0, 0, 0]).readFrame
      ⟨[0x81, 0xFF, 0, 0, 0, 1, 0, 0, 0, 0, 1, 2, 3, 4]⟩).buffer.readable = 0 ∧
    ((new [0, 0, 0, 0]).readFrame
      ⟨[0x81, 0xFF, 0, 0, 0, 1, 0, 0, 0, 0, 1, 2, 3, 4]⟩).wantReadSize
        = .error .outsideReadable :=
  ⟨rfl, rfl, rfl, rfl, rfl⟩

/-- C9, evaluation at the failing input: a fresh reader given the 14 header bytes of a masked
frame that announces `2 ^ 32 + 1` payload bytes reaches stage `WS_PARSE_READ_DATA` with an
empty buffer; called again in that stage it reports `wantReadSize = 1`, not the shortfall
`2 ^ 32 + 1`. -/
theorem readFrame_shortfall_narrowed :
    ((new [0, 0, 0, 0]).readFrame
      ⟨[0x81, 0xFF, 0, 0, 0, 1, 0, 0, 0, 1, 1, 2, 3, 4]⟩).reader.state_
        = .WS_PARSE_READ_DATA ∧
    ((new [0, 0, 0, 0]).readFrame
      ⟨[0x81, 0xFF, 0, 0, 0, 1, 0, 0, 0, 1, 1, 2, 3, 4]⟩).reader.getConetentLength
        = 4294967297 ∧
    ((new [0, 0, 0, 0]).readFrame
      ⟨[0x81, 0xFF, 0, 0, 0, 1, 0, 0, 0, 1, 1, 2, 3, 4]⟩).buffer = ⟨[]⟩ ∧
    (((new [0, 0, 0, 0]).readFrame
      ⟨[0x81, 0xFF, 0, 0, 0, 1, 0, 0, 0, 1, 1, 2, 3, 4]⟩).reader.readFrame ⟨[]⟩).wantReadSize
        = .ok 1 ∧
    (((new [0, 0, 0, 0]).readFrame
      ⟨[0x81, 0xFF, 0, 0, 0, 1, 0, 0, 0, 1, 1, 2, 3, 4]⟩).reader.readFrame ⟨[]⟩).reader.state_
        = .WS_PARSE_READ_DATA ∧
    (4294967297 : Nat) - IoBuffer.readable ⟨[]⟩ ≠ 1 :=
  ⟨rfl, rfl, rfl, rfl, rfl, by decide⟩

/-- C10: for every 4-byte key `K` and every reader in stage `WS_PARSE_READ_DATA` (masked flag
set, key `K`) whose `n = contentLength_` masked payload bytes `W` are buffered, followed
by any bytes `rest`, `readFrame` reaches `WS_PARSE_DONE` and reports 0; afterwards the
buffered byte at every index `i < n` is `W[i] XOR K[i mod 4]`, and every buffered byte at
an index `≥ n` is unchanged, as is the readable count. -/
theorem readFrame_unmasks_payload (r : WebSocketFrameReader) (K W rest : List Nat)
    (hs : r.state_ = .WS_PARSE_READ_DATA) (hm : r.isMasked_ = true)
    (hK : r.mask_ = K) (hK4 : K.length = 4)
    (hn : W.length = r.contentLength_) (hsize : (W ++ rest).length < 2 ^ 64) :
    ∃ out : List Nat,
      r.readFrame ⟨W ++ rest⟩ = ⟨{ r with state_ := .WS_PARSE_DONE }, ⟨out⟩, .ok 0, some 0⟩ ∧
      out.length = (W ++ rest).length ∧
      (∀ i, i < r.contentLength_ →
        ∃ w k, W[i]? = some w ∧ K[i % 4]? = some k ∧ out[i]? = some (w ^^^ k)) ∧
      (∀ i, r.contentLength_ ≤ i → out[i]? = (W ++ rest)[i]?) := by
  obtain ⟨out, hloop, hread⟩ := readFrameReadData_complete r ⟨W ++ rest⟩ hm
    (by simp [IoBuffer.readable, ← hn]) (by simpa [IoBuffer.readable] using hsize)
  obtain ⟨hlen, hget⟩ := maskLoop_getElem _ _ _ _ _ _ hloop
  refine ⟨out, ?_, hlen, ?_, ?_⟩
  · simp only [readFrame, hs]
    exact hread
  · intro i hi
    have hiW : i < W.length := by omega
    have hk : i % 4 < K.length := by omega
    refine ⟨W[i], K[i % 4], List.getElem?_eq_getElem hiW, List.getElem?_eq_getElem hk, ?_⟩
    have := hget i
    simp only [Nat.zero_add, hi, if_true] at this
    rw [this, List.getElem?_append_left hiW, List.getElem?_eq_getElem hiW, hK]
    simp [List.getD_eq_getElem?_getD, List.getElem?_eq_getElem hk]
  · intro i hi
    have := hget i
    have hni : ¬ i < r.contentLength_ := by omega
    simpa only [Nat.zero_add, hni, if_false] using this

/-- Witness of C10: key `1 2 3 4`, masked payload `49 4B 4D`, one byte of a next frame. -/
theorem readFrame_unmasks_payload_witness :
    ∃ out : List Nat,
      readFrame { new [1, 2, 3, 4] with state_ := .WS_PARSE_READ_DATA, contentLength_ := 3 }
          ⟨[0x49, 0x4B, 0x4D] ++ [0x81]⟩
        = ⟨{ new [1, 2, 3, 4] with state_ := .WS_PARSE_DONE, contentLength_ := 3 }, ⟨out⟩,
            .ok 0, some 0⟩ ∧
      out.length = ([0x49, 0x4B, 0x4D] ++ [0x81]).length ∧
      (∀ i, i < 3 →
        ∃ w k, [0x49, 0x4B, 0x4D][i]? = some w ∧ [1, 2, 3, 4][i % 4]? = some k ∧
          out[i]? = some (w ^^^ k)) ∧
      (∀ i, 3 ≤ i → out[i]? = ([0x49, 0x4B, 0x4D] ++ [0x81])[i]?) :=
  readFrame_unmasks_payload
    { new [1, 2, 3, 4] with state_ := .WS_PARSE_READ_DATA, contentLength_ := 3 }
    [1, 2, 3, 4] [0x49, 0x4B, 0x4D] [0x81] rfl rfl rfl rfl rfl (by decide)

/-! ## Further stage lemmas -/

/-- Running the XOR loop on its own output gives the input back. -/
theorem maskLoop_twice (mask : List Nat) (n : Nat) :
    ∀ (l : List Nat) (i : Nat) (out : List Nat), maskLoop mask n i l = (out, false) →
      maskLoop mask n i out = (l, false) := by
  intro l
  induction l with
  | nil =>
    intro i out h
    simp only [maskLoop, Prod.mk.injEq, decide_eq_false_iff_not] at h
    obtain ⟨rfl, hi⟩ := h
    simp [maskLoop, hi]
  | cons b rest ih =>
    intro i out h
    by_cases hi : i < n
    · simp only [maskLoop, hi, if_true, Prod.mk.injEq] at h
      obtain ⟨rfl, h2⟩ := h
      have := ih (i + 1) _ (Prod.ext rfl h2)
      simp only [maskLoop, hi, if_true, this, Nat.xor_cancel_right]
    · simp only [maskLoop, hi, if_false, Prod.mk.injEq] at h
      obtain ⟨rfl, -⟩ := h
      simp [maskLoop, hi]

/-- The XOR loop from a counter value at or past `contentLength` changes nothing. -/
theorem maskLoop_done (mask : List Nat) (n i : Nat) (l : List Nat) (h : ¬ i < n) :
    maskLoop mask n i l = (l, false) := by
  cases l <;> simp [maskLoop, h]

/-- Masking keeps the length. -/
theorem cyclicXor_length (key : List Nat) :
    ∀ (payload : List Nat) (i : Nat), (cyclicXor key i payload).length = payload.length := by
  intro payload
  induction payload with
  | nil => intro i; rfl
  | cons b rest ih => intro i; simp [cyclicXor, ih]

/-- The XOR loop over a masked payload gives the payload back and leaves what follows. -/
theorem maskLoop_cyclicXor (key rest : List Nat) :
    ∀ (payload : List Nat) (i : Nat),
      maskLoop key (i + payload.length) i (cyclicXor key i payload ++ rest)
        = (payload ++ rest, false) := by
  intro payload
  induction payload with
  | nil =>
    intro i
    exact maskLoop_done key _ i _ (by simp)
  | cons b tail ih =>
    intro i
    have hlt : i < i + (b :: tail).length := by simp
    have hn : i + (b :: tail).length = (i + 1) + tail.length := by
      simp only [List.length_cons]
      omega
    simp only [cyclicXor, List.cons_append, maskLoop, hlt, if_true]
    rw [hn, List.append_eq, ih (i + 1)]
    simp [Nat.xor_cancel_right]

/-- The three cases of the raw length field. -/
theorem extendedLengthSize_cases (u : Nat) :
    (u = 126 ∧ extendedLengthSize u = 2) ∨ (u = 127 ∧ extendedLengthSize u = 8) ∨
      (u ≠ 126 ∧ u ≠ 127 ∧ extendedLengthSize u = 0) := by
  unfold extendedLengthSize
  by_cases h126 : u = 126
  · simp [h126]
  · by_cases h127 : u = 127
    · simp [h127]
    · simp [h126, h127]

/-- Stage `WS_PARSE_EXPECTED_SIZE` of a masked reader with the whole header and key
buffered: the fields it stores, the bytes it retires, and the fall through to
`WS_PARSE_READ_DATA`. -/
theorem readFrameExpectedSize_ready (r : WebSocketFrameReader) (buffer : IoBuffer)
    (hm : r.isMasked_ = true)
    (hn : 2 + extendedLengthSize r.unparsedContentLength_ + 4 ≤ buffer.readable) :
    r.readFrameExpectedSize buffer
      = readFrameReadData
          { r with
            indexOfFirstMask_ := 2 + extendedLengthSize r.unparsedContentLength_
            bytesReceiveLengthAndMask_ := 4 + extendedLengthSize r.unparsedContentLength_
            contentLength_ :=
              if r.unparsedContentLength_ = 126 then
                ntohs (memcpyUInt16 r.contentLength_ ((buffer.data.drop 2).take 2))
              else if r.unparsedContentLength_ = 127 then
                htonll (memcpyUInt64 ((buffer.data.drop 2).take 8))
              else r.unparsedContentLength_
            mask_ := (buffer.data.drop (2 + extendedLengthSize r.unparsedContentLength_)).take 4
            state_ := .WS_PARSE_READ_DATA }
          (buffer.retrieve (2 + extendedLengthSize r.unparsedContentLength_ + 4)) := by
  rcases extendedLengthSize_cases r.unparsedContentLength_ with
    ⟨hu, he⟩ | ⟨hu, he⟩ | ⟨h126, h127, he⟩
  · rw [he] at hn ⊢
    have h1 : 8 ≤ buffer.readable := by omega
    have h2 : 4 ≤ buffer.readable := by omega
    simp [readFrameExpectedSize, isReadyRead, parseContentLength, parseExtendedLength,
      getMaskSize, hm, hu, IoBuffer.peekBytes, WS_MIN_SIZE, WS_MASK_SIZE, h1, h2]
  · rw [he] at hn ⊢
    have h1 : 14 ≤ buffer.readable := by omega
    have h2 : 10 ≤ buffer.readable := by omega
    simp [readFrameExpectedSize, isReadyRead, parseContentLength, parseExtendedLength,
      getMaskSize, hm, hu, IoBuffer.peekBytes, WS_MIN_SIZE, WS_MASK_SIZE, h1, h2]
  · rw [he] at hn ⊢
    have h1 : 6 ≤ buffer.readable := by omega
    simp [readFrameExpectedSize, isReadyRead, parseContentLength, parseExtendedLength,
      getMaskSize, hm, h126, h127, IoBuffer.peekBytes, WS_MIN_SIZE, WS_MASK_SIZE, h1]

/-- Stage `WS_PARSE_EXPECTED_SIZE` of a masked reader with fewer bytes than header and key
need: the exact shortfall is stored and reported. -/
theorem readFrameExpectedSize_short (r : WebSocketFrameReader) (buffer : IoBuffer)
    (hm : r.isMasked_ = true)
    (hn : buffer.readable < 2 + 4 + extendedLengthSize r.unparsedContentLength_) :
    r.readFrameExpectedSize buffer
      = ⟨{ r with bytesReceiveLengthAndMask_ :=
              2 + 4 + extendedLengthSize r.unparsedContentLength_ - buffer.readable },
          buffer,
          .ok (2 + 4 + extendedLengthSize r.unparsedContentLength_ - buffer.readable),
          some (2 + 4 + extendedLengthSize r.unparsedContentLength_ - buffer.readable)⟩ := by
  have h32 : ∀ k, k ≤ 14 → toUInt32 (k - buffer.readable) = k - buffer.readable :=
    fun k hk => Nat.mod_eq_of_lt (by omega)
  rcases extendedLengthSize_cases r.unparsedContentLength_ with
    ⟨hu, he⟩ | ⟨hu, he⟩ | ⟨h126, h127, he⟩
  · rw [he] at hn ⊢
    simp [readFrameExpectedSize, isReadyRead, getMaskSize, hm, hu, WS_MIN_SIZE,
      Nat.not_le.mpr hn, h32 8 (by omega)]
  · rw [he] at hn ⊢
    simp [readFrameExpectedSize, isReadyRead, getMaskSize, hm, hu, WS_MIN_SIZE,
      Nat.not_le.mpr hn, h32 14 (by omega)]
  · rw [he] at hn ⊢
    simp [readFrameExpectedSize, isReadyRead, getMaskSize, hm, h126, h127, WS_MIN_SIZE,
      Nat.not_le.mpr hn, h32 6 (by omega)]

/-- The 16-bit length of the source is the big-endian value of the two bytes copied. -/
theorem ntohs_memcpyUInt16_bigEndian (x : Nat) (l : List Nat) (hl : l.length = 2)
    (hb : ∀ b ∈ l, b < 256) : ntohs (memcpyUInt16 x l) = bigEndianValue l := by
  match l, hl with
  | [e0, e1], _ =>
    rw [ntohs_memcpyUInt16 x e0 e1 (hb e0 (by simp)) (hb e1 (by simp))]
    simp [bigEndianValue]

/-- The 64-bit length of the source is the big-endian value of the eight bytes copied. -/
theorem htonll_memcpyUInt64_bigEndian (l : List Nat) (hl : l.length = 8)
    (hb : ∀ b ∈ l, b < 256) : htonll (memcpyUInt64 l) = bigEndianValue l := by
  match l, hl with
  | [e0, e1, e2, e3, e4, e5, e6, e7], _ =>
    exact htonll_memcpyUInt64 e0 e1 e2 e3 e4 e5 e6 e7 (hb _ (by simp)) (hb _ (by simp))
      (hb _ (by simp)) (hb _ (by simp)) (hb _ (by simp)) (hb _ (by simp)) (hb _ (by simp))
      (hb _ (by simp))

/-- Stage `WS_PARSE_DONE` of a masked reader: the first `contentLength_` readable bytes are
XORed with the key; 0 is stored and reported when all of them are readable, otherwise the
XOR loop leaves the readable bytes and nothing more is stored. -/
theorem readFrameDone_masked (r : WebSocketFrameReader) (buffer : IoBuffer)
    (stored : Option Nat) (hm : r.isMasked_ = true) :
    r.readFrameDone buffer stored
      = ⟨r, ⟨cyclicXor r.mask_ 0 (buffer.data.take r.contentLength_)
              ++ buffer.data.drop r.contentLength_⟩,
          if buffer.readable < r.contentLength_ then .error .outsideReadable else .ok 0,
          if buffer.readable < r.contentLength_ then stored else some 0⟩ := by
  have hb := maskLoop_bytes r.mask_ r.contentLength_ buffer.data 0
  have hf := maskLoop_fault r.mask_ r.contentLength_ buffer.data 0
  simp only [Nat.sub_zero, Nat.zero_add] at hb hf
  unfold readFrameDone maskData
  rcases hloop : maskLoop r.mask_ r.contentLength_ 0 buffer.data with ⟨bytes, fault⟩
  rw [hloop] at hb hf
  simp only at hb hf
  subst hb
  by_cases hlt : buffer.readable < r.contentLength_
  · have hlt2 : buffer.data.length < r.contentLength_ := hlt
    rw [decide_eq_true hlt2] at hf
    subst hf
    simp [hm, hlt]
  · have hlt2 : ¬ buffer.data.length < r.contentLength_ := hlt
    rw [decide_eq_false hlt2] at hf
    subst hf
    simp [hm, hlt]

/-- Stage `WS_PARSE_DONE` of an unmasked reader fails its `RAPID_ENSURE`. -/
theorem readFrameDone_unmasked (r : WebSocketFrameReader) (buffer : IoBuffer)
    (stored : Option Nat) (hm : r.isMasked_ = false) :
    r.readFrameDone buffer stored = ⟨r, buffer, .error .protocolViolation, stored⟩ := by
  simp [readFrameDone, maskData, hm]

/-- Stage `WS_PARSE_DONE` leaves the reader and the readable count as they are. -/
theorem readFrameDone_frame (r : WebSocketFrameReader) (buffer : IoBuffer)
    (stored : Option Nat) :
    (r.readFrameDone buffer stored).reader = r ∧
    (r.readFrameDone buffer stored).buffer.readable = buffer.readable := by
  by_cases hm : r.isMasked_ = true
  · rw [readFrameDone_masked r buffer stored hm]
    refine ⟨rfl, ?_⟩
    simp only [IoBuffer.readable, List.length_append, cyclicXor_length, List.length_take,
      List.length_drop]
    omega
  · rw [readFrameDone_unmasked r buffer stored (by simpa using hm)]
    exact ⟨rfl, rfl⟩

/-- Stage `WS_PARSE_READ_DATA` changes at most the stage, and never the readable count. -/
theorem readFrameReadData_frame (r : WebSocketFrameReader) (buffer : IoBuffer) :
    (((r.readFrameReadData buffer).reader = r ∧ (r.readFrameReadData buffer).buffer = buffer) ∨
      (r.readFrameReadData buffer).reader = { r with state_ := .WS_PARSE_DONE }) ∧
    (r.readFrameReadData buffer).buffer.readable = buffer.readable := by
  unfold readFrameReadData
  simp only
  split
  · exact ⟨Or.inl ⟨rfl, rfl⟩, rfl⟩
  · exact ⟨Or.inr (readFrameDone_frame _ _ _).1, (readFrameDone_frame _ _ _).2⟩

/-- The length `switch` keeps the masked flag and the stage. -/
theorem parseExtendedLength_isMasked (r r1 : WebSocketFrameReader) (buffer : IoBuffer)
    (h : r.parseExtendedLength buffer = some r1) :
    r1.isMasked_ = r.isMasked_ ∧ r1.state_ = r.state_ := by
  unfold parseExtendedLength at h
  simp only at h
  split at h
  · simp only [Option.map_eq_some'] at h
    obtain ⟨bytes, -, rfl⟩ := h
    exact ⟨rfl, rfl⟩
  · split at h
    · simp only [Option.map_eq_some'] at h
      obtain ⟨bytes, -, rfl⟩ := h
      exact ⟨rfl, rfl⟩
    · simp only [Option.some.injEq] at h
      subst h
      exact ⟨rfl, rfl⟩

/-- `parseContentLength` keeps the masked flag and the stage, and its `RAPID_ENSURE` holds for a
masked reader. -/
theorem parseContentLength_isMasked (r : WebSocketFrameReader) (buffer : IoBuffer) :
    (r.parseContentLength buffer).1.isMasked_ = r.isMasked_ ∧
    (r.parseContentLength buffer).1.state_ = r.state_ ∧
    (r.isMasked_ = true → (r.parseContentLength buffer).2 ≠ .error .protocolViolation) := by
  unfold parseContentLength
  cases hext : r.parseExtendedLength buffer with
  | none => simp
  | some r1 =>
    obtain ⟨h1, h2⟩ := parseExtendedLength_isMasked r r1 buffer hext
    by_cases hm : r1.isMasked_ = true
    · cases hkey : buffer.peekBytes r1.indexOfFirstMask_ WS_MASK_SIZE with
      | none => simp [hm, hkey, ← h1, h2]
      | some key => simp [hm, hkey, ← h1, h2]
    · simp [hm, ← h1, h2]

/-- Stage `WS_PARSE_DONE` of a masked reader raises no protocol violation. -/
theorem readFrameDone_no_violation (r : WebSocketFrameReader) (buffer : IoBuffer)
    (stored : Option Nat) (hm : r.isMasked_ = true) :
    (r.readFrameDone buffer stored).wantReadSize ≠ .error .protocolViolation := by
  rw [readFrameDone_masked r buffer stored hm]
  simp only
  split <;> simp

/-- Stage `WS_PARSE_READ_DATA` of a masked reader raises no protocol violation. -/
theorem readFrameReadData_no_violation (r : WebSocketFrameReader) (buffer : IoBuffer)
    (hm : r.isMasked_ = true) :
    (r.readFrameReadData buffer).wantReadSize ≠ .error .protocolViolation := by
  unfold readFrameReadData
  simp only
  split
  · simp
  · exact readFrameDone_no_violation _ _ _ hm

/-- The two outcomes of `isReadyRead`; a shortfall it stores is between 1 and 14. -/
theorem isReadyRead_cases (r : WebSocketFrameReader) (buffer : IoBuffer) :
    r.isReadyRead buffer = (r, true) ∨
    ∃ k, 0 < k ∧ k ≤ 14 ∧
      r.isReadyRead buffer = ({ r with bytesReceiveLengthAndMask_ := k }, false) := by
  have key : ∀ N : Nat, N ≤ 14 →
      ((if buffer.readable ≥ N then (r, true)
        else ({ r with bytesReceiveLengthAndMask_ := N - buffer.readable }, false))
          = (r, true) ∨
       ∃ k, 0 < k ∧ k ≤ 14 ∧
        (if buffer.readable ≥ N then (r, true)
          else ({ r with bytesReceiveLengthAndMask_ := N - buffer.readable }, false))
          = ({ r with bytesReceiveLengthAndMask_ := k }, false)) := by
    intro N hN
    by_cases h : buffer.readable ≥ N
    · exact Or.inl (if_pos h)
    · exact Or.inr ⟨N - buffer.readable, by omega, by omega, if_neg h⟩
  refine key _ ?_
  simp only [getMaskSize, WS_MIN_SIZE]
  split <;> [skip; split] <;> split <;> omega

/-- Stage `WS_PARSE_EXPECTED_SIZE` keeps the masked flag, never moves the stage backwards, and
raises no protocol violation for a masked reader. -/
theorem readFrameExpectedSize_isMasked (r : WebSocketFrameReader) (buffer : IoBuffer) :
    (r.readFrameExpectedSize buffer).reader.isMasked_ = r.isMasked_ ∧
    ((r.readFrameExpectedSize buffer).reader.state_ = r.state_ ∨
      (r.readFrameExpectedSize buffer).reader.state_ = .WS_PARSE_READ_DATA ∨
      (r.readFrameExpectedSize buffer).reader.state_ = .WS_PARSE_DONE) ∧
    (r.isMasked_ = true →
      (r.readFrameExpectedSize buffer).wantReadSize ≠ .error .protocolViolation) := by
  unfold readFrameExpectedSize
  rcases isReadyRead_cases r buffer with hready | ⟨k, -, -, hready⟩
  · -- enough bytes: `parseContentLength`, then the payload stage
    rw [hready]
    obtain ⟨h1, h2, h3⟩ := parseContentLength_isMasked r buffer
    rcases hp : r.parseContentLength buffer with ⟨r2, _ | _⟩
    · rw [hp] at h1 h2 h3
      simp only [hp] at h1 h2 h3 ⊢
      exact ⟨h1, Or.inl h2, fun hm h => h3 hm (by
        simp only [Except.error.injEq] at h
        rw [h])⟩
    · rw [hp] at h1 h2
      simp only [hp] at h1 h2 ⊢
      have hframe := (readFrameReadData_frame
        { r2 with state_ := .WS_PARSE_READ_DATA }
        (buffer.retrieve (WS_MIN_SIZE + r2.bytesReceiveLengthAndMask_))).1
      refine ⟨?_, ?_, ?_⟩
      · rcases hframe with ⟨h, -⟩ | h <;> rw [h] <;> exact h1
      · rcases hframe with ⟨h, -⟩ | h <;> rw [h]
        · exact Or.inr (Or.inl rfl)
        · exact Or.inr (Or.inr rfl)
      · intro hm
        exact readFrameReadData_no_violation _ _ (by simpa [h1] using hm)
  · rw [hready]
    exact ⟨rfl, Or.inl rfl, fun _ => by simp⟩

/-- `parseFinAndContentLength` keeps the stage, and returns only with the masked flag set. -/
theorem parseFinAndContentLength_isMasked (r : WebSocketFrameReader) (buffer : IoBuffer) :
    (r.parseFinAndContentLength buffer).1.state_ = r.state_ ∧
    ((r.parseFinAndContentLength buffer).2 = .ok () →
      (r.parseFinAndContentLength buffer).1.isMasked_ = true) := by
  unfold parseFinAndContentLength
  cases buffer.peekAt 0 with
  | none => simp
  | some firstByte =>
    cases buffer.peekAt 1 with
    | none => simp
    | some sencondByte =>
      simp only
      by_cases hm : ((sencondByte &&& 0x80) >>> 7 != 0) = true
      · by_cases hop : isLegalOpcode (firstByte &&& WS_MASK_OPCODE) = true
        · simp [hm, hop]
        · simp [hm, hop]
      · simp [hm]

/-- The code `readFrame` runs in stage `WS_PARSE_FIN`. -/
theorem readFrame_of_fin (r : WebSocketFrameReader) (hs : r.state_ = .WS_PARSE_FIN)
    (buffer : IoBuffer) :
    r.readFrame buffer
      = if buffer.isEmpty then ⟨r, buffer, .ok WS_MIN_SIZE, some WS_MIN_SIZE⟩
        else
          match r.parseFinAndContentLength buffer with
          | (r1, .error e) => ⟨r1, buffer, .error e, none⟩
          | (r1, .ok _) =>
            readFrameExpectedSize { r1 with state_ := .WS_PARSE_EXPECTED_SIZE } buffer := by
  unfold readFrame
  rw [hs]

/-- The code `readFrame` runs in stage `WS_PARSE_EXPECTED_SIZE`. -/
theorem readFrame_of_expected (r : WebSocketFrameReader)
    (hs : r.state_ = .WS_PARSE_EXPECTED_SIZE) (buffer : IoBuffer) :
    r.readFrame buffer = r.readFrameExpectedSize buffer := by
  unfold readFrame
  rw [hs]

/-- One `readFrame` call keeps the invariant that a stage past `WS_PARSE_FIN` has the masked
flag set, and under it raises a protocol violation in stage `WS_PARSE_FIN` only. -/
theorem readFrame_isMasked (r : WebSocketFrameReader) (buffer : IoBuffer)
    (hinv : r.state_ ≠ .WS_PARSE_FIN → r.isMasked_ = true) :
    ((r.readFrame buffer).reader.state_ ≠ .WS_PARSE_FIN →
      (r.readFrame buffer).reader.isMasked_ = true) ∧
    (r.state_ ≠ .WS_PARSE_FIN →
      (r.readFrame buffer).wantReadSize ≠ .error .protocolViolation) := by
  unfold readFrame
  cases hs : r.state_ with
  | WS_PARSE_FIN =>
    simp only [ne_eq, not_true_eq_false, false_imp_iff, and_true]
    by_cases he : buffer.isEmpty = true
    · simp only [he, if_true]
      intro h
      exact absurd hs h
    · simp only [he, Bool.false_eq_true, if_false]
      obtain ⟨h1, h2⟩ := parseFinAndContentLength_isMasked r buffer
      rcases hp : r.parseFinAndContentLength buffer with ⟨r1, e | u⟩
      · rw [hp] at h1
        simp only [hp] at h1 ⊢
        intro h
        exact absurd (h1.trans hs) h
      · rw [hp] at h2
        simp only [hp] at h2 ⊢
        intro _
        rw [(readFrameExpectedSize_isMasked _ buffer).1]
        exact h2 trivial
  | WS_PARSE_EXPECTED_SIZE =>
    have hm := hinv (by simp [hs])
    obtain ⟨h1, h2, h3⟩ := readFrameExpectedSize_isMasked r buffer
    exact ⟨fun _ => by rw [h1]; exact hm, fun _ => h3 hm⟩
  | WS_PARSE_READ_DATA =>
    have hm := hinv (by simp [hs])
    have hframe := (readFrameReadData_frame r buffer).1
    refine ⟨fun _ => ?_, fun _ => readFrameReadData_no_violation r buffer hm⟩
    rcases hframe with ⟨h, -⟩ | h <;> rw [h] <;> exact hm
  | WS_PARSE_DONE =>
    have hm := hinv (by simp [hs])
    refine ⟨fun _ => ?_, fun _ => readFrameDone_no_violation r buffer _ hm⟩
    rw [(readFrameDone_frame r buffer _).1]
    exact hm

/-! ### Buffers that differ in their first byte -/

theorem peekBytes_cons (b0 b0' : Nat) (rest : List Nat) (offset n : Nat) (h : 0 < offset) :
    IoBuffer.peekBytes ⟨b0 :: rest⟩ offset n = IoBuffer.peekBytes ⟨b0' :: rest⟩ offset n := by
  obtain ⟨k, rfl⟩ : ∃ k, offset = k + 1 := ⟨offset - 1, by omega⟩
  simp [IoBuffer.peekBytes, IoBuffer.readable]

theorem parseExtendedLength_cons (r : WebSocketFrameReader) (b0 b0' : Nat) (rest : List Nat) :
    r.parseExtendedLength ⟨b0 :: rest⟩ = r.parseExtendedLength ⟨b0' :: rest⟩ := by
  unfold parseExtendedLength
  simp only [peekBytes_cons b0 b0' rest WS_MIN_SIZE _ (by decide)]

theorem parseExtendedLength_index (r r1 : WebSocketFrameReader) (buffer : IoBuffer)
    (h : r.parseExtendedLength buffer = some r1) : 0 < r1.indexOfFirstMask_ := by
  unfold parseExtendedLength at h
  simp only at h
  split at h
  · simp only [Option.map_eq_some'] at h
    obtain ⟨bytes, -, rfl⟩ := h
    exact Nat.succ_pos _
  · split at h
    · simp only [Option.map_eq_some'] at h
      obtain ⟨bytes, -, rfl⟩ := h
      exact Nat.succ_pos _
    · simp only [Option.some.injEq] at h
      subst h
      exact Nat.succ_pos _

theorem parseContentLength_cons (r : WebSocketFrameReader) (b0 b0' : Nat) (rest : List Nat) :
    r.parseContentLength ⟨b0 :: rest⟩ = r.parseContentLength ⟨b0' :: rest⟩ := by
  unfold parseContentLength
  rw [parseExtendedLength_cons r b0 b0' rest]
  cases hext : r.parseExtendedLength ⟨b0' :: rest⟩ with
  | none => rfl
  | some r1 =>
    simp only [peekBytes_cons b0 b0' rest r1.indexOfFirstMask_ _
      (parseExtendedLength_index r r1 _ hext)]

/-- Bytes that agree outside bits 4 to 6 have the same FIN bit and the same opcode bits. -/
theorem land_128_of_land_143 (b0 b0' : Nat) (h : b0 &&& 0x8F = b0' &&& 0x8F) :
    b0 &&& 0x80 = b0' &&& 0x80 ∧ b0 &&& 0x0F = b0' &&& 0x0F := by
  have c1 : (0x8F &&& 0x80 : Nat) = 0x80 := by decide
  have c2 : (0x8F &&& 0x0F : Nat) = 0x0F := by decide
  have e1 : ∀ b : Nat, b &&& 0x80 = (b &&& 0x8F) &&& 0x80 := by
    intro b
    rw [Nat.and_assoc, c1]
  have e2 : ∀ b : Nat, b &&& 0x0F = (b &&& 0x8F) &&& 0x0F := by
    intro b
    rw [Nat.and_assoc, c2]
  exact ⟨by rw [e1 b0, e1 b0', h], by rw [e2 b0, e2 b0', h]⟩

theorem parseFinAndContentLength_cons (r : WebSocketFrameReader) (b0 b0' : Nat)
    (rest : List Nat) (h : b0 &&& 0x8F = b0' &&& 0x8F) :
    r.parseFinAndContentLength ⟨b0 :: rest⟩ = r.parseFinAndContentLength ⟨b0' :: rest⟩ := by
  obtain ⟨h1, h2⟩ := land_128_of_land_143 b0 b0' h
  unfold parseFinAndContentLength
  cases rest with
  | nil => simp [IoBuffer.peekAt]
  | cons b1 tail =>
    simp only [IoBuffer.peekAt, List.getElem?_cons_zero, List.getElem?_cons_succ,
      WS_MASK_FIN, WS_MASK_OPCODE, h1, h2]

theorem readFrameDone_cons (r : WebSocketFrameReader) (b0 b0' : Nat) (rest : List Nat)
    (stored : Option Nat) :
    SameOutcome (r.readFrameDone ⟨b0 :: rest⟩ stored) (r.readFrameDone ⟨b0' :: rest⟩ stored) := by
  unfold SameOutcome
  by_cases hm : r.isMasked_ = true
  · rw [readFrameDone_masked _ _ _ hm, readFrameDone_masked _ _ _ hm]
    refine ⟨rfl, rfl, ?_, ?_⟩
    · simp [IoBuffer.readable, cyclicXor_length]
    · cases r.contentLength_ with
      | zero => simp [cyclicXor]
      | succ n => simp [cyclicXor]
  · have hm' : r.isMasked_ = false := by simpa using hm
    rw [readFrameDone_unmasked _ _ _ hm', readFrameDone_unmasked _ _ _ hm']
    exact ⟨rfl, rfl, rfl, rfl⟩

theorem readFrameReadData_cons (r : WebSocketFrameReader) (b0 b0' : Nat) (rest : List Nat) :
    SameOutcome (r.readFrameReadData ⟨b0 :: rest⟩) (r.readFrameReadData ⟨b0' :: rest⟩) := by
  unfold readFrameReadData
  have hr : IoBuffer.readable ⟨b0 :: rest⟩ = IoBuffer.readable ⟨b0' :: rest⟩ := rfl
  simp only [hr]
  split
  · exact ⟨rfl, rfl, rfl, rfl⟩
  · exact readFrameDone_cons _ b0 b0' rest _

theorem sameOutcome_refl (res : ReadResult) : SameOutcome res res := ⟨rfl, rfl, rfl, rfl⟩

theorem retrieve_cons (b0 b0' : Nat) (rest : List Nat) (n : Nat) (h : 0 < n) :
    IoBuffer.retrieve ⟨b0 :: rest⟩ n = IoBuffer.retrieve ⟨b0' :: rest⟩ n := by
  obtain ⟨k, rfl⟩ : ∃ k, n = k + 1 := ⟨n - 1, by omega⟩
  simp [IoBuffer.retrieve]

theorem readFrameExpectedSize_cons (r : WebSocketFrameReader) (b0 b0' : Nat)
    (rest : List Nat) :
    SameOutcome (r.readFrameExpectedSize ⟨b0 :: rest⟩)
      (r.readFrameExpectedSize ⟨b0' :: rest⟩) := by
  unfold readFrameExpectedSize
  have hready : r.isReadyRead ⟨b0 :: rest⟩ = r.isReadyRead ⟨b0' :: rest⟩ := rfl
  rw [hready]
  rcases r.isReadyRead ⟨b0' :: rest⟩ with ⟨r1, _ | _⟩
  · exact ⟨rfl, rfl, rfl, rfl⟩
  · simp only
    rw [parseContentLength_cons r1 b0 b0' rest]
    rcases r1.parseContentLength ⟨b0' :: rest⟩ with ⟨r2, e | u⟩
    · exact ⟨rfl, rfl, rfl, rfl⟩
    · simp only
      rw [retrieve_cons b0 b0' rest _ (by simp only [WS_MIN_SIZE]; omega)]
      exact sameOutcome_refl _

/-! ### Readers that differ in stored opcode and key bytes -/

theorem parseExtendedLength_mask (r : WebSocketFrameReader) (m : List Nat) (buffer : IoBuffer) :
    parseExtendedLength { r with mask_ := m } buffer
      = (r.parseExtendedLength buffer).map fun r1 => { r1 with mask_ := m } := by
  unfold parseExtendedLength
  simp only [getMaskSize]
  split
  · cases buffer.peekBytes WS_MIN_SIZE 2 <;> rfl
  · split
    · cases buffer.peekBytes WS_MIN_SIZE 8 <;> rfl
    · rfl

theorem parseContentLength_mask (r : WebSocketFrameReader) (m : List Nat) (buffer : IoBuffer) :
    (parseContentLength { r with mask_ := m } buffer).2 = (r.parseContentLength buffer).2 ∧
    ((r.parseContentLength buffer).2 = .ok () →
      (parseContentLength { r with mask_ := m } buffer).1 = (r.parseContentLength buffer).1) ∧
    ((r.parseContentLength buffer).2 ≠ .ok () →
      (parseContentLength { r with mask_ := m } buffer).1
          = { (r.parseContentLength buffer).1 with mask_ := m } ∧
        (r.parseContentLength buffer).1.state_ = r.state_) := by
  unfold parseContentLength
  rw [parseExtendedLength_mask]
  cases hext : r.parseExtendedLength buffer with
  | none => simp
  | some r1 =>
    have hstate := (parseExtendedLength_isMasked r r1 buffer hext).2
    simp only [Option.map_some']
    by_cases hm : r1.isMasked_ = true
    · cases buffer.peekBytes r1.indexOfFirstMask_ WS_MASK_SIZE with
      | none => simp [hm, hstate]
      | some key => simp [hm]
    · simp [hm, hstate]

theorem isReadyRead_mask (r : WebSocketFrameReader) (m : List Nat) (buffer : IoBuffer) :
    isReadyRead { r with mask_ := m } buffer
      = ({ (r.isReadyRead buffer).1 with mask_ := m }, (r.isReadyRead buffer).2) := by
  have key : ∀ N : Nat,
      (if buffer.readable ≥ N then (({ r with mask_ := m } : WebSocketFrameReader), true)
        else ({ r with mask_ := m, bytesReceiveLengthAndMask_ := N - buffer.readable }, false))
      = ({ (if buffer.readable ≥ N then (r, true)
              else ({ r with bytesReceiveLengthAndMask_ := N - buffer.readable }, false)).1
            with mask_ := m },
          (if buffer.readable ≥ N then (r, true)
              else ({ r with bytesReceiveLengthAndMask_ := N - buffer.readable }, false)).2) := by
    intro N
    by_cases h : buffer.readable ≥ N
    · simp only [h, if_true]
    · simp only [h, if_false]
  exact key _

theorem readFrameExpectedSize_mask (r : WebSocketFrameReader) (m : List Nat)
    (buffer : IoBuffer) :
    (readFrameExpectedSize { r with mask_ := m } buffer).wantReadSize
      = (r.readFrameExpectedSize buffer).wantReadSize ∧
    (readFrameExpectedSize { r with mask_ := m } buffer).buffer
      = (r.readFrameExpectedSize buffer).buffer ∧
    ((readFrameExpectedSize { r with mask_ := m } buffer).reader
        = (r.readFrameExpectedSize buffer).reader ∨
      ((r.readFrameExpectedSize buffer).reader.state_ = r.state_ ∧
        (readFrameExpectedSize { r with mask_ := m } buffer).reader
          = { (r.readFrameExpectedSize buffer).reader with mask_ := m })) := by
  unfold readFrameExpectedSize
  rw [isReadyRead_mask]
  rcases isReadyRead_cases r buffer with hready | ⟨k, -, -, hready⟩
  · rw [hready]
    simp only
    obtain ⟨h1, h2, h3⟩ := parseContentLength_mask r m buffer
    rcases hp : r.parseContentLength buffer with ⟨r2, e | u⟩
    · rw [hp] at h1 h3
      simp only at h1 h3
      obtain ⟨h4, h5⟩ := h3 (by simp)
      rcases hp' : parseContentLength { r with mask_ := m } buffer with ⟨r2', e'⟩
      rw [hp'] at h1 h4
      simp only at h1 h4
      subst h1 h4
      exact ⟨rfl, rfl, Or.inr ⟨h5, rfl⟩⟩
    · rw [hp] at h1 h2
      simp only at h1 h2
      have h6 := h2 trivial
      rcases hp' : parseContentLength { r with mask_ := m } buffer with ⟨r2', e'⟩
      rw [hp'] at h1 h6
      simp only at h1 h6
      subst h1 h6
      exact ⟨rfl, rfl, Or.inl rfl⟩
  · rw [hready]
    exact ⟨rfl, rfl, Or.inr ⟨rfl, rfl⟩⟩

theorem parseFinAndContentLength_opcode_mask (r : WebSocketFrameReader) (o : Nat)
    (m : List Nat) (buffer : IoBuffer) :
    (parseFinAndContentLength { r with opcode_ := o, mask_ := m } buffer).2
      = (r.parseFinAndContentLength buffer).2 ∧
    ((r.parseFinAndContentLength buffer).2 = .ok () →
      (parseFinAndContentLength { r with opcode_ := o, mask_ := m } buffer).1
        = { (r.parseFinAndContentLength buffer).1 with mask_ := m }) ∧
    ((r.parseFinAndContentLength buffer).2 ≠ .ok () →
      ∃ o', (parseFinAndContentLength { r with opcode_ := o, mask_ := m } buffer).1
        = { (r.parseFinAndContentLength buffer).1 with opcode_ := o', mask_ := m }) := by
  unfold parseFinAndContentLength
  cases buffer.peekAt 0 with
  | none => exact ⟨rfl, by simp, fun _ => ⟨o, rfl⟩⟩
  | some firstByte =>
    cases buffer.peekAt 1 with
    | none => exact ⟨rfl, by simp, fun _ => ⟨o, rfl⟩⟩
    | some sencondByte =>
      simp only
      by_cases hm : ((sencondByte &&& 0x80) >>> 7 != 0) = true
      · by_cases hop : isLegalOpcode (firstByte &&& WS_MASK_OPCODE) = true
        · simp [hm, hop]
        · simp only [hm, hop, Bool.not_true, Bool.false_eq_true, if_false, ne_eq,
            not_false_eq_true, true_and, reduceCtorEq, false_imp_iff, true_imp_iff]
          exact ⟨firstByte &&& WS_MASK_OPCODE, rfl⟩
      · simp only [hm, Bool.not_false, if_true, ne_eq, not_false_eq_true, true_and,
          reduceCtorEq, false_imp_iff, true_imp_iff]
        exact ⟨o, rfl⟩

/-- One `readFrame` call on the same buffer from two readers that agree: the same value or
error, the same buffer, and readers that agree again. -/
theorem readFrame_agree (r r' : WebSocketFrameReader) (h : Agree r r') (buffer : IoBuffer) :
    (r'.readFrame buffer).wantReadSize = (r.readFrame buffer).wantReadSize ∧
    (r'.readFrame buffer).buffer = (r.readFrame buffer).buffer ∧
    Agree (r.readFrame buffer).reader (r'.readFrame buffer).reader := by
  rcases h with rfl | ⟨hs, o, m, rfl⟩ | ⟨hs, m, rfl⟩
  · exact ⟨rfl, rfl, Or.inl rfl⟩
  · -- both readers are in stage `WS_PARSE_FIN`
    rw [readFrame_of_fin r hs, readFrame_of_fin { r with opcode_ := o, mask_ := m } hs]
    by_cases he : buffer.isEmpty = true
    · rw [if_pos he, if_pos he]
      exact ⟨rfl, rfl, Or.inr (Or.inl ⟨hs, o, m, rfl⟩)⟩
    · rw [if_neg he, if_neg he]
      obtain ⟨h1, h2, h3⟩ := parseFinAndContentLength_opcode_mask r o m buffer
      have hstate := (parseFinAndContentLength_isMasked r buffer).1
      rcases hp : r.parseFinAndContentLength buffer with ⟨r1, e | u⟩
      · rw [hp] at h1 h3 hstate
        simp only at h1 h3 hstate
        obtain ⟨o', h4⟩ := h3 (by simp)
        rcases hp' : parseFinAndContentLength { r with opcode_ := o, mask_ := m } buffer
          with ⟨r1', e'⟩
        rw [hp'] at h1 h4
        simp only at h1 h4
        subst h1 h4
        exact ⟨rfl, rfl, Or.inr (Or.inl ⟨hstate.trans hs, o', m, rfl⟩)⟩
      · rw [hp] at h1 h2
        simp only at h1 h2
        have h4 := h2 trivial
        rcases hp' : parseFinAndContentLength { r with opcode_ := o, mask_ := m } buffer
          with ⟨r1', e'⟩
        rw [hp'] at h1 h4
        simp only at h1 h4
        subst h1 h4
        simp only
        obtain ⟨k1, k2, k3⟩ := readFrameExpectedSize_mask
          { r1 with state_ := .WS_PARSE_EXPECTED_SIZE } m buffer
        refine ⟨k1, k2, ?_⟩
        rcases k3 with k3 | ⟨k4, k5⟩
        · exact Or.inl k3
        · exact Or.inr (Or.inr ⟨k4, m, k5⟩)
  · -- both readers are in stage `WS_PARSE_EXPECTED_SIZE`
    rw [readFrame_of_expected r hs, readFrame_of_expected { r with mask_ := m } hs]
    obtain ⟨k1, k2, k3⟩ := readFrameExpectedSize_mask r m buffer
    refine ⟨k1, k2, ?_⟩
    rcases k3 with k3 | ⟨k4, k5⟩
    · exact Or.inl k3
    · exact Or.inr (Or.inr ⟨k4.trans hs, m, k5⟩)

theorem observe_agree (res res' : ReadResult) (hw : res'.wantReadSize = res.wantReadSize)
    (hb : res'.buffer = res.buffer) (h : Agree res.reader res'.reader) :
    observe res' = observe res := by
  unfold observe
  rcases h with h | ⟨hs, o, m, h⟩ | ⟨hs, m, h⟩
  · rw [hw, hb, h]
  · rw [hw, hb, h]
    simp [hs]
  · rw [hw, hb, h]
    simp [hs, opcode, getConetentLength]

theorem observeChunks_agree (chunks : List (List Nat)) :
    ∀ (r r' : WebSocketFrameReader) (buffer : IoBuffer), Agree r r' →
      observeChunks r' buffer chunks = observeChunks r buffer chunks := by
  induction chunks with
  | nil => intro r r' buffer _; rfl
  | cons chunk more ih =>
    intro r r' buffer h
    obtain ⟨hw, hb, ha⟩ := readFrame_agree r r' h (buffer.append chunk)
    simp only [observeChunks]
    rw [observe_agree _ _ hw hb ha, hb, ih _ _ _ ha]

/-! ### How many bytes a call retires -/

theorem parseContentLength_unmasked (r : WebSocketFrameReader) (buffer : IoBuffer)
    (hm : r.isMasked_ = false) : ∃ e, (r.parseContentLength buffer).2 = .error e := by
  unfold parseContentLength
  cases hext : r.parseExtendedLength buffer with
  | none => exact ⟨_, rfl⟩
  | some r1 =>
    have h1 := (parseExtendedLength_isMasked r r1 buffer hext).1
    simp only [h1, hm, Bool.not_false, if_true]
    exact ⟨_, rfl⟩

theorem toUInt32_small (k : Nat) (h0 : 0 < k) (h1 : k ≤ 14) : toUInt32 k ≠ 0 := by
  have : toUInt32 k = k := Nat.mod_eq_of_lt (by omega)
  omega

theorem readFrameExpectedSize_readable (r : WebSocketFrameReader) (buffer : IoBuffer) :
    (r.readFrameExpectedSize buffer).buffer.readable ≤ buffer.readable ∧
    ((r.readFrameExpectedSize buffer).wantReadSize = .ok 0 →
      (r.readFrameExpectedSize buffer).buffer.readable + 6 ≤ buffer.readable) := by
  by_cases hm : r.isMasked_ = true
  · by_cases hn : buffer.readable < 2 + 4 + extendedLengthSize r.unparsedContentLength_
    · rw [readFrameExpectedSize_short r buffer hm hn]
      refine ⟨Nat.le_refl _, ?_⟩
      intro h
      simp only [Except.ok.injEq] at h
      omega
    · rw [readFrameExpectedSize_ready r buffer hm (by omega)]
      rw [(readFrameReadData_frame _ _).2]
      simp only [IoBuffer.retrieve, IoBuffer.readable, List.length_drop]
      simp only [IoBuffer.readable] at hn
      omega
  · have hm' : r.isMasked_ = false := by simpa using hm
    unfold readFrameExpectedSize
    rcases isReadyRead_cases r buffer with hready | ⟨k, hk0, hk1, hready⟩
    · rw [hready]
      obtain ⟨e, he⟩ := parseContentLength_unmasked r buffer hm'
      rcases hp : r.parseContentLength buffer with ⟨r2, e2 | u⟩
      · simp only [hp]
        exact ⟨Nat.le_refl _, fun h => by simp at h⟩
      · rw [hp] at he
        cases he
    · rw [hready]
      refine ⟨Nat.le_refl _, ?_⟩
      intro h
      simp only [Except.ok.injEq] at h
      exact absurd h (toUInt32_small k hk0 hk1)

/-- `readFrame` never adds readable bytes, and a call in stage `WS_PARSE_FIN` that reports 0
has retired at least the 6 bytes of header and key. -/
theorem readFrame_readable (r : WebSocketFrameReader) (buffer : IoBuffer) :
    (r.readFrame buffer).buffer.readable ≤ buffer.readable ∧
    (r.state_ = .WS_PARSE_FIN → (r.readFrame buffer).wantReadSize = .ok 0 →
      (r.readFrame buffer).buffer.readable + 6 ≤ buffer.readable) := by
  cases hs : r.state_ with
  | WS_PARSE_FIN =>
    rw [readFrame_of_fin r hs]
    by_cases he : buffer.isEmpty = true
    · rw [if_pos he]
      exact ⟨Nat.le_refl _, fun _ h => by simp [WS_MIN_SIZE] at h⟩
    · rw [if_neg he]
      rcases r.parseFinAndContentLength buffer with ⟨r1, e | u⟩
      · exact ⟨Nat.le_refl _, fun _ h => by simp at h⟩
      · exact ⟨(readFrameExpectedSize_readable _ buffer).1,
          fun _ => (readFrameExpectedSize_readable _ buffer).2⟩
  | WS_PARSE_EXPECTED_SIZE =>
    rw [readFrame_of_expected r hs]
    exact ⟨(readFrameExpectedSize_readable r buffer).1, fun h => by cases h⟩
  | WS_PARSE_READ_DATA =>
    have h : r.readFrame buffer = r.readFrameReadData buffer := by
      unfold readFrame
      rw [hs]
    rw [h, (readFrameReadData_frame r buffer).2]
    exact ⟨Nat.le_refl _, fun h => by cases h⟩
  | WS_PARSE_DONE =>
    have h : r.readFrame buffer = r.readFrameDone buffer none := by
      unfold readFrame
      rw [hs]
    rw [h, (readFrameDone_frame r buffer _).2]
    exact ⟨Nat.le_refl _, fun h => by cases h⟩

/-! ### Whole frames -/

/-- A reader in stage `WS_PARSE_FIN` given a first byte with a legal opcode, the masked length
field for `L`, four key bytes and a tail passes the first two stages. -/
theorem readFrame_frame_header (r : WebSocketFrameReader) (hs : r.state_ = .WS_PARSE_FIN)
    (b0 : Nat) (hop : isLegalOpcode (b0 &&& 0x0F) = true)
    (L : Nat) (hL : L < 2 ^ 64) (k0 k1 k2 k3 : Nat) (tail : List Nat) :
    r.readFrame ⟨b0 :: (maskedHeader L).tail ++ [k0, k1, k2, k3] ++ tail⟩
      = readFrameReadData
          { r with
            lastFrame_ := (b0 &&& 0x80) == 0x80
            unparsedContentLength_ := if L ≤ 125 then L else if L ≤ 65535 then 126 else 127
            isMasked_ := true
            opcode_ := b0 &&& 0x0F
            indexOfFirstMask_ := if L ≤ 125 then 2 else if L ≤ 65535 then 4 else 10
            bytesReceiveLengthAndMask_ := if L ≤ 125 then 4 else if L ≤ 65535 then 6 else 12
            contentLength_ := L
            mask_ := [k0, k1, k2, k3]
            state_ := .WS_PARSE_READ_DATA }
          ⟨tail⟩ := by
  rw [maskedHeader_eq]
  by_cases h1 : L ≤ 125
  · have hmod : L % 256 = L := Nat.mod_eq_of_lt (by omega)
    simp only [if_pos h1, hmod, List.tail_cons, List.cons_append, List.nil_append]
    rw [readFrame_fin_ok r hs _ _ _ (lor_128_land_128 L (by omega)) hop]
    rw [readFrameExpectedSize_literal _ rfl
      (by simp only [lor_128_land_127 L (by omega)]; omega)
      (by simp only [lor_128_land_127 L (by omega)]; omega)]
    simp only [lor_128_land_127 L (by omega)]
  · by_cases h2 : L ≤ 65535
    · have hmod : L % 65536 = L := Nat.mod_eq_of_lt (by omega)
      simp only [if_neg h1, if_pos h2, hmod, List.tail_cons, List.cons_append, List.nil_append]
      rw [readFrame_fin_ok r hs _ _ _ (by decide) hop]
      rw [readFrameExpectedSize_ext16 _ rfl rfl]
      rw [ntohs_memcpyUInt16 _ _ _ (by omega) (by omega)]
      have : L / 256 * 256 + L % 256 = L := by omega
      rw [this]
      rfl
    · have hmod : L % 2 ^ 64 = L := Nat.mod_eq_of_lt hL
      simp only [if_neg h1, if_neg h2, hmod, List.tail_cons, List.cons_append, List.nil_append]
      rw [readFrame_fin_ok r hs _ _ _ (by decide) hop]
      rw [readFrameExpectedSize_ext64 _ rfl rfl]
      rw [htonll_memcpyUInt64 _ _ _ _ _ _ _ _ (Nat.mod_lt _ (by decide))
        (Nat.mod_lt _ (by decide)) (Nat.mod_lt _ (by decide)) (Nat.mod_lt _ (by decide))
        (Nat.mod_lt _ (by decide)) (Nat.mod_lt _ (by decide)) (Nat.mod_lt _ (by decide))
        (Nat.mod_lt _ (by decide))]
      rw [bigEndianValue_eight, bytes_of_uint64 L hL]
      rfl

/-- A reader in stage `WS_PARSE_FIN` given the wire bytes of a valid frame decodes it in one
call: 0 is reported and the buffer starts with the unmasked payload. -/
theorem readFrame_whole_frame (r : WebSocketFrameReader) (hs : r.state_ = .WS_PARSE_FIN)
    (f : MaskedFrame) (hv : f.Valid) (rest : List Nat)
    (hsize : (f.payload ++ rest).length < 2 ^ 64) :
    ∃ r1 : WebSocketFrameReader,
      r.readFrame ⟨f.wire ++ rest⟩ = ⟨r1, ⟨f.payload ++ rest⟩, .ok 0, some 0⟩ ∧
      r1.opcode = f.firstByte &&& 0x0F ∧ r1.getConetentLength = f.payload.length := by
  obtain ⟨-, hop, hkey, hlen⟩ := hv
  obtain ⟨firstByte, key, payload⟩ := f
  simp only at hop hkey hlen hsize ⊢
  match key, hkey with
  | [k0, k1, k2, k3], _ =>
    have hw : MaskedFrame.wire ⟨firstByte, [k0, k1, k2, k3], payload⟩ ++ rest
        = firstByte :: (maskedHeader payload.length).tail ++ [k0, k1, k2, k3]
            ++ (cyclicXor [k0, k1, k2, k3] 0 payload ++ rest) := by
      simp [MaskedFrame.wire]
    rw [hw, readFrame_frame_header r hs firstByte hop payload.length hlen]
    obtain ⟨out, hloop, hread⟩ := readFrameReadData_complete
      { r with
        lastFrame_ := (firstByte &&& 0x80) == 0x80
        unparsedContentLength_ :=
          if payload.length ≤ 125 then payload.length
          else if payload.length ≤ 65535 then 126 else 127
        isMasked_ := true
        opcode_ := firstByte &&& 0x0F
        indexOfFirstMask_ :=
          if payload.length ≤ 125 then 2 else if payload.length ≤ 65535 then 4 else 10
        bytesReceiveLengthAndMask_ :=
          if payload.length ≤ 125 then 4 else if payload.length ≤ 65535 then 6 else 12
        contentLength_ := payload.length
        mask_ := [k0, k1, k2, k3]
        state_ := .WS_PARSE_READ_DATA }
      ⟨cyclicXor [k0, k1, k2, k3] 0 payload ++ rest⟩ rfl
      (by simp [IoBuffer.readable, cyclicXor_length])
      (by simpa [IoBuffer.readable, cyclicXor_length] using hsize)
    have hx := maskLoop_cyclicXor [k0, k1, k2, k3] rest payload 0
    simp only [Nat.zero_add] at hx
    simp only [hx, Prod.mk.injEq, and_true] at hloop
    subst hloop
    exact ⟨_, hread, rfl, rfl⟩

end WebSocketFrameReader

namespace WebSocketCodec

open WebSocketFrameReader

/-! ## The read loop -/

/-- The loop body when `readFrame` stored 0: the message is filled, the payload bytes leave
the buffer, the reader is reset, the message is dispatched. -/
theorem readLoopBody_of_zero (s : ReadLoopState)
    (h : (s.codec.reader_.readFrame s.receiveBuffer).wantReadSize = .ok 0) :
    readLoopBody s
      = ({ codec :=
            ⟨(s.codec.reader_.readFrame s.receiveBuffer).reader.reset,
              ⟨(s.codec.reader_.readFrame s.receiveBuffer).reader.opcode,
                (s.codec.reader_.readFrame s.receiveBuffer).buffer.data.take
                  (s.codec.reader_.readFrame s.receiveBuffer).reader.getConetentLength⟩⟩
           receiveBuffer :=
            ⟨(s.codec.reader_.readFrame s.receiveBuffer).buffer.data.drop
                (s.codec.reader_.readFrame s.receiveBuffer).reader.getConetentLength⟩
           bytesToRead := 0
           dispatched := s.dispatched ++
            [⟨(s.codec.reader_.readFrame s.receiveBuffer).reader.opcode,
              (s.codec.reader_.readFrame s.receiveBuffer).buffer.data.take
                (s.codec.reader_.readFrame s.receiveBuffer).reader.getConetentLength⟩] },
          none) := by
  unfold readLoopBody
  simp only [h, IoBuffer.read, if_true]

/-- The loop body when `readFrame` stored a shortfall: nothing is dispatched. -/
theorem readLoopBody_of_shortfall (s : ReadLoopState) (n : Nat) (hn : n ≠ 0)
    (h : (s.codec.reader_.readFrame s.receiveBuffer).wantReadSize = .ok n) :
    readLoopBody s
      = ({ s with
           codec := { s.codec with reader_ := (s.codec.reader_.readFrame s.receiveBuffer).reader }
           receiveBuffer := (s.codec.reader_.readFrame s.receiveBuffer).buffer
           bytesToRead := n }, none) := by
  unfold readLoopBody
  simp only [h, hn, if_false]

/-- The loop body when `readFrame` threw: nothing is dispatched, the error leaves the loop. -/
theorem readLoopBody_of_error (s : ReadLoopState) (e : CodecError)
    (h : (s.codec.reader_.readFrame s.receiveBuffer).wantReadSize = .error e) :
    readLoopBody s
      = ({ s with
           codec := { s.codec with reader_ := (s.codec.reader_.readFrame s.receiveBuffer).reader }
           receiveBuffer := (s.codec.reader_.readFrame s.receiveBuffer).buffer
           bytesToRead :=
            (s.codec.reader_.readFrame s.receiveBuffer).stored.getD s.bytesToRead },
          some e) := by
  unfold readLoopBody
  simp only [h]

/-- An iteration after which the loop goes on has reset the reader and has not added bytes; if
it started in stage `WS_PARSE_FIN` it has retired at least 6 bytes. -/
theorem readLoopBody_decrease (s s1 : ReadLoopState) (h : readLoopBody s = (s1, none))
    (h0 : s1.bytesToRead = 0) :
    s1.codec.reader_.state_ = .WS_PARSE_FIN ∧
    s1.receiveBuffer.readable ≤ s.receiveBuffer.readable ∧
    (s.codec.reader_.state_ = .WS_PARSE_FIN →
      s1.receiveBuffer.readable + 6 ≤ s.receiveBuffer.readable) := by
  obtain ⟨hle, hfin⟩ := readFrame_readable s.codec.reader_ s.receiveBuffer
  cases hw : (s.codec.reader_.readFrame s.receiveBuffer).wantReadSize with
  | error e =>
    rw [readLoopBody_of_error s e hw] at h
    simp at h
  | ok n =>
    by_cases hn : n = 0
    · subst hn
      rw [readLoopBody_of_zero s hw] at h
      simp only [Prod.mk.injEq, and_true] at h
      subst h
      simp only [IoBuffer.readable, List.length_drop] at hle hfin ⊢
      refine ⟨rfl, by omega, fun hs => ?_⟩
      have := hfin hs hw
      omega
    · rw [readLoopBody_of_shortfall s n hn hw] at h
      simp only [Prod.mk.injEq, and_true] at h
      subst h
      exact absurd h0 hn

/-- The loop ends before the bound on its iterations is reached. -/
theorem readLoopFuel_returns :
    ∀ (fuel : Nat) (s : ReadLoopState),
      s.receiveBuffer.readable + (if s.codec.reader_.state_ = .WS_PARSE_FIN then 0 else 1) < fuel →
      ∃ res, readLoopFuel fuel s = some res := by
  intro fuel
  induction fuel with
  | zero => intro s h; omega
  | succ fuel ih =>
    intro s h
    unfold readLoopFuel
    rcases hb : readLoopBody s with ⟨s1, _ | e⟩
    · simp only
      by_cases hc : s1.bytesToRead = 0 ∧ s1.receiveBuffer.isEmpty = false
      · rw [if_pos hc]
        obtain ⟨h1, h2, h3⟩ := readLoopBody_decrease s s1 hb hc.1
        apply ih
        rw [h1, if_pos rfl]
        by_cases hs : s.codec.reader_.state_ = .WS_PARSE_FIN
        · have := h3 hs
          rw [if_pos hs] at h
          omega
        · rw [if_neg hs] at h
          omega
      · rw [if_neg hc]
        exact ⟨_, rfl⟩
    · exact ⟨_, rfl⟩

/-- The method `readLoop` ends, by a return or by an error, for every codec and every buffer. -/
theorem readLoop_returns (codec : WebSocketCodec) (receiveBuffer : IoBuffer)
    (bytesToRead : Nat) : ∃ res, readLoop codec receiveBuffer bytesToRead = some res := by
  unfold readLoop
  apply readLoopFuel_returns
  simp only
  split <;> omega

/-- When the loop returns, `bytesToRead` is positive or the receive buffer is empty. -/
theorem readLoopFuel_stop :
    ∀ (fuel : Nat) (s s1 : ReadLoopState), readLoopFuel fuel s = some (s1, none) →
      0 < s1.bytesToRead ∨ s1.receiveBuffer.isEmpty = true := by
  intro fuel
  induction fuel with
  | zero => intro s s1 h; simp [readLoopFuel] at h
  | succ fuel ih =>
    intro s s1 h
    unfold readLoopFuel at h
    rcases hb : readLoopBody s with ⟨s2, _ | e⟩
    · rw [hb] at h
      simp only at h
      by_cases hc : s2.bytesToRead = 0 ∧ s2.receiveBuffer.isEmpty = false
      · rw [if_pos hc] at h
        exact ih s2 s1 h
      · rw [if_neg hc] at h
        simp only [Option.some.injEq, Prod.mk.injEq, and_true] at h
        subst h
        by_cases h0 : s2.bytesToRead = 0
        · right
          cases hE : s2.receiveBuffer.isEmpty with
          | true => rfl
          | false => exact absurd ⟨h0, hE⟩ hc
        · left
          omega
    · rw [hb] at h
      simp at h

theorem wire_length_pos (f : MaskedFrame) : 0 < f.wire.length := by
  simp [MaskedFrame.wire]

theorem wireAll_length (frames : List MaskedFrame) :
    frames.length ≤ (MaskedFrame.wireAll frames).length := by
  induction frames with
  | nil => simp [MaskedFrame.wireAll]
  | cons f more ih =>
    have := wire_length_pos f
    simp only [MaskedFrame.wireAll, List.length_cons, List.length_append]
    omega

theorem wire_payload_length (f : MaskedFrame) : f.payload.length ≤ f.wire.length := by
  simp only [MaskedFrame.wire, List.length_append, List.length_cons, cyclicXor_length]
  omega

/-- The loop on a buffer holding one or more whole valid frames dispatches one message per
frame, in order, and empties the buffer. -/
theorem readLoopFuel_frames (more : List MaskedFrame) :
    ∀ (f : MaskedFrame) (fuel : Nat) (s : ReadLoopState),
      s.codec.reader_.state_ = .WS_PARSE_FIN →
      s.receiveBuffer = ⟨MaskedFrame.wireAll (f :: more)⟩ →
      (∀ g ∈ f :: more, g.Valid) →
      (MaskedFrame.wireAll (f :: more)).length < 2 ^ 64 →
      (f :: more).length ≤ fuel →
      ∃ codec1 : WebSocketCodec,
        readLoopFuel fuel s
          = some (⟨codec1, ⟨[]⟩, 0, s.dispatched ++ (f :: more).map MaskedFrame.message⟩, none) ∧
        codec1.reader_.state_ = .WS_PARSE_FIN := by
  induction more with
  | nil =>
    intro f fuel s hs hbuf hv hsize hfuel
    obtain ⟨fuel, rfl⟩ : ∃ k, fuel = k + 1 := ⟨fuel - 1, by simp at hfuel; omega⟩
    have hpl := wire_payload_length f
    simp only [MaskedFrame.wireAll, List.append_nil] at hbuf hsize
    obtain ⟨r1, hread, hop, hlen⟩ := readFrame_whole_frame s.codec.reader_ hs f
      (hv f (by simp)) [] (by simp only [List.append_nil]; omega)
    simp only [List.append_nil] at hread
    have hbody := readLoopBody_of_zero s (by rw [hbuf, hread])
    rw [hbuf, hread] at hbody
    simp only [hop, hlen, List.take_length, List.drop_length] at hbody
    unfold readLoopFuel
    rw [hbody]
    simp only [IoBuffer.isEmpty, IoBuffer.readable, List.length_nil, beq_self_eq_true,
      Bool.true_eq_false, and_false, if_false, List.map_cons, List.map_nil]
    exact ⟨_, rfl, rfl⟩
  | cons g more ih =>
    intro f fuel s hs hbuf hv hsize hfuel
    obtain ⟨fuel, rfl⟩ : ∃ k, fuel = k + 1 := ⟨fuel - 1, by simp at hfuel; omega⟩
    have hpl := wire_payload_length f
    have hw : MaskedFrame.wireAll (f :: g :: more)
        = f.wire ++ MaskedFrame.wireAll (g :: more) := rfl
    rw [hw] at hbuf hsize
    simp only [List.length_append] at hsize
    obtain ⟨r1, hread, hop, hlen⟩ := readFrame_whole_frame s.codec.reader_ hs f
      (hv f (by simp)) (MaskedFrame.wireAll (g :: more))
      (by simp only [List.length_append]; omega)
    have hbody := readLoopBody_of_zero s (by rw [hbuf, hread])
    rw [hbuf, hread] at hbody
    simp only [hop, hlen, List.take_left', List.drop_left'] at hbody
    have hne : (MaskedFrame.wireAll (g :: more)).length ≠ 0 := by
      have := wire_length_pos g
      simp only [MaskedFrame.wireAll, List.length_append]
      omega
    unfold readLoopFuel
    rw [hbody]
    simp only [IoBuffer.isEmpty, IoBuffer.readable, beq_eq_false_iff_ne, ne_eq, hne,
      not_false_eq_true, and_self, if_true]
    obtain ⟨codec1, hloop, hstate⟩ := ih g fuel
      ⟨⟨r1.reset, ⟨f.firstByte &&& 0x0F, f.payload⟩⟩, ⟨MaskedFrame.wireAll (g :: more)⟩, 0,
        s.dispatched ++ [⟨f.firstByte &&& 0x0F, f.payload⟩]⟩ rfl rfl
      (fun x hx => hv x (List.mem_cons_of_mem _ hx)) (by omega)
      (by simp only [List.length_cons] at hfuel ⊢; omega)
    refine ⟨codec1, ?_, hstate⟩
    rw [hloop]
    simp [MaskedFrame.message]

/-- After a call that reported 0 the message carries the opcode of the reader and the bytes read
off the buffer. -/
theorem dispatchedBy_of_zero (call : ReadResult) (h : call.wantReadSize = .ok 0) :
    dispatchedBy call
      = some ⟨call.reader.opcode, (call.buffer.read call.reader.getConetentLength).1⟩ := by
  unfold dispatchedBy
  rw [h]

/-- After a call that did not report 0 there is no message. -/
theorem dispatchedBy_of_other (call : ReadResult) (h : call.wantReadSize ≠ .ok 0) :
    dispatchedBy call = none := by
  unfold dispatchedBy
  rcases hw : call.wantReadSize with e | n
  · rfl
  · cases n with
    | zero => exact absurd hw h
    | succ n => rfl

/-- The calls of a run are determined by the reader and the buffer it starts with. -/
theorem readFrameCalls_unique (r : WebSocketFrameReader) (b : IoBuffer)
    (calls calls' : List ReadResult) (h : ReadFrameCalls r b calls)
    (h' : ReadFrameCalls r b calls') : calls' = calls := by
  induction h generalizing calls' with
  | last r b hstop =>
    cases h' with
    | last _ _ _ => rfl
    | next _ _ _ h1 h2 _ => exact absurd ⟨h1, h2⟩ hstop
  | next r b calls h1 h2 _ ih =>
    cases h' with
    | last _ _ hstop => exact absurd ⟨h1, h2⟩ hstop
    | next _ _ calls2 _ _ h3 => rw [ih calls2 h3]

/-- The bounded loop and its `readFrame` calls: with enough iterations allowed the loop ends; the
messages it has added are those of its calls that reported 0, in order; it leaves the reset
reader and the bytes behind the payload when the last call reported 0, reader and buffer of
the last call otherwise; it ends with an error exactly when the last call did. -/
theorem readLoopFuel_calls :
    ∀ (fuel : Nat) (s : ReadLoopState),
      s.receiveBuffer.readable + (if s.codec.reader_.state_ = .WS_PARSE_FIN then 0 else 1) < fuel →
      ∃ (res : ReadLoopState × Option CodecError) (calls : List ReadResult) (last : ReadResult),
        readLoopFuel fuel s = some res ∧
        ReadFrameCalls s.codec.reader_ s.receiveBuffer calls ∧
        calls.getLast? = some last ∧
        res.1.dispatched = s.dispatched ++ calls.filterMap dispatchedBy ∧
        (last.wantReadSize = .ok 0 →
          res.1.codec.reader_ = last.reader.reset ∧
          res.1.receiveBuffer = (last.buffer.read last.reader.getConetentLength).2) ∧
        (last.wantReadSize ≠ .ok 0 →
          res.1.codec.reader_ = last.reader ∧ res.1.receiveBuffer = last.buffer) ∧
        (∀ e, res.2 = some e ↔ last.wantReadSize = .error e) := by
  intro fuel
  induction fuel with
  | zero => intro s h; omega
  | succ fuel ih =>
    intro s hfuel
    unfold readLoopFuel
    cases hw : (s.codec.reader_.readFrame s.receiveBuffer).wantReadSize with
    | error e =>
      have hne : (s.codec.reader_.readFrame s.receiveBuffer).wantReadSize ≠ .ok 0 := by
        rw [hw]; simp
      rw [readLoopBody_of_error s e hw]
      refine ⟨_, [s.codec.reader_.readFrame s.receiveBuffer],
        s.codec.reader_.readFrame s.receiveBuffer, rfl,
        .last _ _ (fun h => hne h.1), rfl, ?_, fun h => absurd h hne, fun _ => ⟨rfl, rfl⟩, ?_⟩
      · simp [dispatchedBy_of_other _ hne]
      · intro e'
        rw [hw]
        simp
    | ok n =>
      by_cases hn : n = 0
      · subst hn
        have hbody := readLoopBody_of_zero s hw
        obtain ⟨h1, h2, h3⟩ := readLoopBody_decrease s _ hbody rfl
        rw [hbody]
        simp only
        by_cases hc : ((s.codec.reader_.readFrame s.receiveBuffer).buffer.read
            (s.codec.reader_.readFrame s.receiveBuffer).reader.getConetentLength).2.isEmpty = false
        · have hc' : (IoBuffer.mk ((s.codec.reader_.readFrame s.receiveBuffer).buffer.data.drop
              (s.codec.reader_.readFrame s.receiveBuffer).reader.getConetentLength)).isEmpty
                = false := hc
          rw [if_pos ⟨trivial, hc'⟩]
          obtain ⟨res, calls, last, e1, e2, e3, e4, e5, e6, e7⟩ := ih
            { codec :=
                ⟨(s.codec.reader_.readFrame s.receiveBuffer).reader.reset,
                  ⟨(s.codec.reader_.readFrame s.receiveBuffer).reader.opcode,
                    (s.codec.reader_.readFrame s.receiveBuffer).buffer.data.take
                      (s.codec.reader_.readFrame s.receiveBuffer).reader.getConetentLength⟩⟩
              receiveBuffer :=
                ⟨(s.codec.reader_.readFrame s.receiveBuffer).buffer.data.drop
                  (s.codec.reader_.readFrame s.receiveBuffer).reader.getConetentLength⟩
              bytesToRead := 0
              dispatched := s.dispatched ++
                [⟨(s.codec.reader_.readFrame s.receiveBuffer).reader.opcode,
                  (s.codec.reader_.readFrame s.receiveBuffer).buffer.data.take
                    (s.codec.reader_.readFrame s.receiveBuffer).reader.getConetentLength⟩] }
            (by
              simp only at h1 h2 h3 ⊢
              rw [h1, if_pos rfl]
              by_cases hs : s.codec.reader_.state_ = .WS_PARSE_FIN
              · have := h3 hs
                rw [if_pos hs] at hfuel
                omega
              · rw [if_neg hs] at hfuel
                omega)
          refine ⟨res, s.codec.reader_.readFrame s.receiveBuffer :: calls, last, e1,
            .next _ _ _ hw hc e2, ?_, ?_, e5, e6, e7⟩
          · cases calls with
            | nil => simp at e3
            | cons c0 more => rw [List.getLast?_cons_cons]; exact e3
          · rw [e4]
            simp [dispatchedBy_of_zero _ hw, IoBuffer.read]
        · rw [if_neg (fun h => hc h.2)]
          refine ⟨_, [s.codec.reader_.readFrame s.receiveBuffer],
            s.codec.reader_.readFrame s.receiveBuffer, rfl,
            .last _ _ (fun h => hc h.2), rfl, ?_, fun _ => ⟨rfl, rfl⟩,
            fun h => absurd hw h, ?_⟩
          · simp [dispatchedBy_of_zero _ hw, IoBuffer.read]
          · intro e'
            rw [hw]
            simp
      · have hne : (s.codec.reader_.readFrame s.receiveBuffer).wantReadSize ≠ .ok 0 := by
          rw [hw]
          simpa using hn
        rw [readLoopBody_of_shortfall s n hn hw]
        simp only
        rw [if_neg (fun h => hn h.1)]
        refine ⟨_, [s.codec.reader_.readFrame s.receiveBuffer],
          s.codec.reader_.readFrame s.receiveBuffer, rfl,
          .last _ _ (fun h => hne h.1), rfl, ?_, fun h => absurd h hne, fun _ => ⟨rfl, rfl⟩, ?_⟩
        · simp [dispatchedBy_of_other _ hne]
        · intro e'
          rw [hw]
          simp

end WebSocketCodec

namespace WebSocketFrameReader

/-- In a reachable reader state a stage past `WS_PARSE_FIN` has the masked flag set. -/
theorem reachable_isMasked (r : WebSocketFrameReader) (h : Reachable r) :
    r.state_ ≠ .WS_PARSE_FIN → r.isMasked_ = true := by
  induction h with
  | construct mask0 => intro h; exact absurd rfl h
  | readFrame r buffer _ ih => exact (readFrame_isMasked r buffer ih).1
  | reset r _ _ => intro h; exact absurd rfl h

/-! ## Claims C11 to C20 -/

/-- C11: masking is an involution: for every key, every length `n = contentLength_` and every
buffer of at least `n` bytes, `maskData` of a masked reader succeeds, keeps the readable
count, and applied a second time with the same key and length gives back the original
buffer byte for byte. -/
theorem maskData_involution (r : WebSocketFrameReader) (buffer : IoBuffer)
    (hm : r.isMasked_ = true) (hn : r.contentLength_ ≤ buffer.readable) :
    ∃ masked : IoBuffer,
      r.maskData buffer = (masked, .ok ()) ∧ masked.readable = buffer.readable ∧
      r.maskData masked = (buffer, .ok ()) := by
  obtain ⟨out, hout⟩ := maskLoop_isSome r.mask_ r.contentLength_ buffer.data 0
    (by simpa [IoBuffer.readable] using hn)
  refine ⟨⟨out⟩, ?_, ?_, ?_⟩
  · simp [maskData, hm, hout]
  · exact (maskLoop_getElem _ _ _ _ _ _ hout).1
  · simp [maskData, hm, maskLoop_twice _ _ _ _ _ hout]

/-- C14: for every reader `r` (in particular one that completed a first frame) and every
subsequent input, delivered in any chunks on top of any buffer, the reader after `reset()`
and a freshly constructed reader give the same sequence of observations: the same
`wantReadSize` values and errors, the same buffers after each call (hence the same
consumed byte counts and the same unmasked payload), and, once a header is parsed, the
same opcode and payload length. -/
theorem reset_reader_like_fresh (r : WebSocketFrameReader) (mask0 : List Nat)
    (buffer : IoBuffer) (chunks : List (List Nat)) :
    observeChunks r.reset buffer chunks = observeChunks (new mask0) buffer chunks := by
  refine observeChunks_agree chunks (new mask0) r.reset buffer ?_
  exact Or.inr (Or.inl ⟨rfl, WS_OP_CONTINUATION, r.mask_, rfl⟩)

/-- C15: in a reachable reader state with stage `WS_PARSE_EXPECTED_SIZE`, raw length field `u` and
`ext = extendedLengthSize u`, for every buffer holding fewer than `2 + 4 + ext` bytes
`readFrame` reports `wantReadSize = (2 + 4 + ext) - n` exactly, leaves the buffer as it
is, and stays in `WS_PARSE_EXPECTED_SIZE` with FIN flag, opcode and raw length unchanged:
only `bytesReceiveLengthAndMask_` is written. -/
theorem readFrame_awaits_extended_header (r : WebSocketFrameReader) (buffer : IoBuffer)
    (hr : Reachable r) (hs : r.state_ = .WS_PARSE_EXPECTED_SIZE)
    (hn : buffer.readable < 2 + 4 + extendedLengthSize r.unparsedContentLength_) :
    (r.readFrame buffer).wantReadSize
      = .ok (2 + 4 + extendedLengthSize r.unparsedContentLength_ - buffer.readable) ∧
    (r.readFrame buffer).buffer = buffer ∧
    (r.readFrame buffer).reader.state_ = .WS_PARSE_EXPECTED_SIZE ∧
    (r.readFrame buffer).reader.lastFrame_ = r.lastFrame_ ∧
    (r.readFrame buffer).reader.opcode_ = r.opcode_ ∧
    (r.readFrame buffer).reader.unparsedContentLength_ = r.unparsedContentLength_ ∧
    (r.readFrame buffer).reader
      = { r with bytesReceiveLengthAndMask_ :=
            2 + 4 + extendedLengthSize r.unparsedContentLength_ - buffer.readable } := by
  have hm : r.isMasked_ = true := reachable_isMasked r hr (by rw [hs]; decide)
  have h : r.readFrame buffer = r.readFrameExpectedSize buffer := by
    simp only [readFrame, hs]
  rw [h, readFrameExpectedSize_short r buffer hm hn]
  exact ⟨rfl, rfl, hs, rfl, rfl, rfl, rfl⟩

/-- C16: in a reachable reader state with stage `WS_PARSE_EXPECTED_SIZE`, raw length field `u`,
`ext = extendedLengthSize u` and a buffer of bytes holding at least `2 + ext + 4` of them,
`readFrame` sets the payload length to `u`, to the big-endian value of bytes 2..3, or to
the big-endian value of bytes 2..9; captures as key the 4 bytes at offset `2 + ext`;
retires exactly `2 + ext + 4` bytes, and goes on with stage `WS_PARSE_READ_DATA` on the
buffer that starts with the first payload byte. -/
theorem readFrame_resolves_header (r : WebSocketFrameReader) (data : List Nat)
    (hr : Reachable r) (hs : r.state_ = .WS_PARSE_EXPECTED_SIZE)
    (hbytes : ∀ b ∈ data, b < 256)
    (hn : 2 + extendedLengthSize r.unparsedContentLength_ + 4 ≤ data.length) :
    r.readFrame ⟨data⟩
      = readFrameReadData
          { r with
            indexOfFirstMask_ := 2 + extendedLengthSize r.unparsedContentLength_
            bytesReceiveLengthAndMask_ := 4 + extendedLengthSize r.unparsedContentLength_
            contentLength_ :=
              if r.unparsedContentLength_ = 126 then bigEndianValue ((data.drop 2).take 2)
              else if r.unparsedContentLength_ = 127 then bigEndianValue ((data.drop 2).take 8)
              else r.unparsedContentLength_
            mask_ := (data.drop (2 + extendedLengthSize r.unparsedContentLength_)).take 4
            state_ := .WS_PARSE_READ_DATA }
          ⟨data.drop (2 + extendedLengthSize r.unparsedContentLength_ + 4)⟩ ∧
    (r.readFrame ⟨data⟩).reader.getConetentLength
      = (if r.unparsedContentLength_ = 126 then bigEndianValue ((data.drop 2).take 2)
         else if r.unparsedContentLength_ = 127 then bigEndianValue ((data.drop 2).take 8)
         else r.unparsedContentLength_) ∧
    (r.readFrame ⟨data⟩).reader.mask_
      = (data.drop (2 + extendedLengthSize r.unparsedContentLength_)).take 4 ∧
    (r.readFrame ⟨data⟩).reader.mask_.length = 4 ∧
    (r.readFrame ⟨data⟩).buffer.readable + (2 + extendedLengthSize r.unparsedContentLength_ + 4)
      = data.length ∧
    ((r.readFrame ⟨data⟩).reader.state_ = .WS_PARSE_READ_DATA →
      (r.readFrame ⟨data⟩).buffer
        = ⟨data.drop (2 + extendedLengthSize r.unparsedContentLength_ + 4)⟩) := by
  have hm : r.isMasked_ = true := reachable_isMasked r hr (by rw [hs]; decide)
  have h : r.readFrame ⟨data⟩ = r.readFrameExpectedSize ⟨data⟩ := by
    simp only [readFrame, hs]
  have hdrop : ∀ b ∈ data.drop 2, b < 256 := fun b hb => hbytes b (List.mem_of_mem_drop hb)
  have hlen : ∀ k, 2 + k ≤ data.length → ((data.drop 2).take k).length = k := by
    intro k hk
    simp only [List.length_take, List.length_drop]
    omega
  have hc : (if r.unparsedContentLength_ = 126 then
                ntohs (memcpyUInt16 r.contentLength_ ((data.drop 2).take 2))
              else if r.unparsedContentLength_ = 127 then
                htonll (memcpyUInt64 ((data.drop 2).take 8))
              else r.unparsedContentLength_)
      = (if r.unparsedContentLength_ = 126 then bigEndianValue ((data.drop 2).take 2)
         else if r.unparsedContentLength_ = 127 then bigEndianValue ((data.drop 2).take 8)
         else r.unparsedContentLength_) := by
    rcases extendedLengthSize_cases r.unparsedContentLength_ with
      ⟨hu, he⟩ | ⟨hu, he⟩ | ⟨h126, h127, he⟩
    · rw [he] at hn
      simp only [hu, if_true]
      exact ntohs_memcpyUInt16_bigEndian _ _ (hlen 2 (by omega))
        (fun b hb => hdrop b (List.mem_of_mem_take hb))
    · rw [he] at hn
      simp only [hu]
      norm_num
      exact htonll_memcpyUInt64_bigEndian _ (hlen 8 (by omega))
        (fun b hb => hdrop b (List.mem_of_mem_take hb))
    · simp only [h126, h127, if_false]
  have hstep := readFrameExpectedSize_ready r ⟨data⟩ hm (by simpa [IoBuffer.readable] using hn)
  simp only [hc, IoBuffer.retrieve] at hstep
  rw [h, hstep]
  have hframe := readFrameReadData_frame
    { r with
      indexOfFirstMask_ := 2 + extendedLengthSize r.unparsedContentLength_
      bytesReceiveLengthAndMask_ := 4 + extendedLengthSize r.unparsedContentLength_
      contentLength_ :=
        if r.unparsedContentLength_ = 126 then bigEndianValue ((data.drop 2).take 2)
        else if r.unparsedContentLength_ = 127 then bigEndianValue ((data.drop 2).take 8)
        else r.unparsedContentLength_
      mask_ := (data.drop (2 + extendedLengthSize r.unparsedContentLength_)).take 4
      state_ := .WS_PARSE_READ_DATA }
    ⟨data.drop (2 + extendedLengthSize r.unparsedContentLength_ + 4)⟩
  obtain ⟨hreader, hreadable⟩ := hframe
  have hmasklen : ((data.drop (2 + extendedLengthSize r.unparsedContentLength_)).take 4).length
      = 4 := by
    simp only [List.length_take, List.length_drop]
    omega
  refine ⟨rfl, ?_, ?_, ?_, ?_, ?_⟩
  · rcases hreader with ⟨h1, -⟩ | h1 <;> rw [h1] <;> rfl
  · rcases hreader with ⟨h1, -⟩ | h1 <;> rw [h1]
  · rcases hreader with ⟨h1, -⟩ | h1 <;> rw [h1] <;> exact hmasklen
  · rw [hreadable]
    simp only [IoBuffer.readable, List.length_drop]
    omega
  · intro hstate
    rcases hreader with ⟨-, h1⟩ | h1
    · exact h1
    · rw [h1] at hstate
      cases hstate

/-- C17: for a reader in stage `WS_PARSE_FIN` and an empty buffer `readFrame` reports
`wantReadSize = 2`, raises no error, and leaves reader and buffer unchanged. -/
theorem readFrame_empty_buffer (r : WebSocketFrameReader) (hs : r.state_ = .WS_PARSE_FIN) :
    r.readFrame ⟨[]⟩ = ⟨r, ⟨[]⟩, .ok 2, some 2⟩ := by
  simp [readFrame, hs, IoBuffer.isEmpty, IoBuffer.readable]

/-- C19: for two buffers that differ only in bits 4 to 6 of the first byte (`b0` and `b0'`
agree under the mask `0x8F`), `readFrame` from the same reader state gives the same
error or `wantReadSize`, the same reader (stage, FIN flag, opcode, payload length, key),
the same readable count, and the same bytes after the first. -/
theorem readFrame_ignores_reserved_bits (r : WebSocketFrameReader) (b0 b0' : Nat)
    (rest : List Nat) (h : b0 &&& 0x8F = b0' &&& 0x8F) :
    (r.readFrame ⟨b0 :: rest⟩).wantReadSize = (r.readFrame ⟨b0' :: rest⟩).wantReadSize ∧
    (r.readFrame ⟨b0 :: rest⟩).reader = (r.readFrame ⟨b0' :: rest⟩).reader ∧
    (r.readFrame ⟨b0 :: rest⟩).buffer.readable = (r.readFrame ⟨b0' :: rest⟩).buffer.readable ∧
    (r.readFrame ⟨b0 :: rest⟩).buffer.data.drop 1
      = (r.readFrame ⟨b0' :: rest⟩).buffer.data.drop 1 := by
  have key : SameOutcome (r.readFrame ⟨b0 :: rest⟩) (r.readFrame ⟨b0' :: rest⟩) := by
    unfold readFrame
    cases r.state_ with
    | WS_PARSE_FIN =>
      simp only [IoBuffer.isEmpty, IoBuffer.readable, List.length_cons, Nat.add_one_ne_zero,
        beq_iff_eq, if_false]
      rw [parseFinAndContentLength_cons r b0 b0' rest h]
      rcases r.parseFinAndContentLength ⟨b0' :: rest⟩ with ⟨r1, e | u⟩
      · exact ⟨rfl, rfl, rfl, rfl⟩
      · exact readFrameExpectedSize_cons _ b0 b0' rest
    | WS_PARSE_EXPECTED_SIZE => exact readFrameExpectedSize_cons r b0 b0' rest
    | WS_PARSE_READ_DATA => exact readFrameReadData_cons r b0 b0' rest
    | WS_PARSE_DONE => exact readFrameDone_cons r b0 b0' rest _
  exact key

/-- C20: in every reader state reachable from construction through `readFrame` calls and
`reset()`, a stage later than `WS_PARSE_FIN` has the masked flag set, so `getMaskSize()`
is 4, and `readFrame` called in such a stage does not raise the protocol violation of
`RAPID_ENSURE`. -/
theorem reachable_stage_masked (r : WebSocketFrameReader) (h : Reachable r) :
    (r.state_ ≠ .WS_PARSE_FIN → r.isMasked_ = true ∧ r.getMaskSize = 4) ∧
    (∀ buffer : IoBuffer, r.state_ ≠ .WS_PARSE_FIN →
      (r.readFrame buffer).wantReadSize ≠ .error .protocolViolation) := by
  have hinv := reachable_isMasked r h
  refine ⟨fun hs => ⟨hinv hs, ?_⟩, fun buffer => (readFrame_isMasked r buffer hinv).2⟩
  simp [getMaskSize, hinv hs]

/-- Witness of C11: key `1 2 3 4`, length 3, a buffer of 4 bytes. -/
theorem maskData_involution_witness :
    ∃ masked : IoBuffer,
      maskData { new [1, 2, 3, 4] with contentLength_ := 3 } ⟨[0x49, 0x4B, 0x4D, 0x81]⟩
        = (masked, .ok ()) ∧
      masked.readable = IoBuffer.readable ⟨[0x49, 0x4B, 0x4D, 0x81]⟩ ∧
      maskData { new [1, 2, 3, 4] with contentLength_ := 3 } masked
        = (⟨[0x49, 0x4B, 0x4D, 0x81]⟩, .ok ()) :=
  maskData_involution { new [1, 2, 3, 4] with contentLength_ := 3 }
    ⟨[0x49, 0x4B, 0x4D, 0x81]⟩ rfl (by decide)

/-- C13, counterexample: a reader after `reset()` is not the constructed reader.  `reset()`
stores opcode Continuation where the constructor stores Closed, and after a frame with
key `1 2 3 4` the key bytes are still `1 2 3 4` after `reset()`. -/
theorem reset_not_constructed_counterexample :
    (new [0, 0, 0, 0]).reset.opcode = WS_OP_CONTINUATION ∧
    (new [0, 0, 0, 0]).opcode = WS_OP_CLOSED ∧
    (new [0, 0, 0, 0]).reset ≠ new [0, 0, 0, 0] ∧
    ((new [0, 0, 0, 0]).readFrame ⟨[0x81, 0x80, 1, 2, 3, 4]⟩).reader.reset.mask_
      = [1, 2, 3, 4] ∧
    ((new [0, 0, 0, 0]).readFrame ⟨[0x81, 0x80, 1, 2, 3, 4]⟩).reader.reset
      ≠ new [0, 0, 0, 0] := by
  refine ⟨rfl, rfl, by decide, rfl, by decide⟩

/-- C13, amended: `reset()` returns the stage (`WS_PARSE_FIN`), the FIN and masked flags,
the raw and the resolved length, the mask offset and the byte counters to the values a
freshly constructed reader has, and leaves the key bytes as they are. -/
theorem reset_restores_parse_fields (r : WebSocketFrameReader) (mask0 : List Nat) :
    r.reset.state_ = (new mask0).state_ ∧ r.reset.state_ = .WS_PARSE_FIN ∧
    r.reset.lastFrame_ = (new mask0).lastFrame_ ∧
    r.reset.isMasked_ = (new mask0).isMasked_ ∧
    r.reset.unparsedContentLength_ = (new mask0).unparsedContentLength_ ∧
    r.reset.contentLength_ = (new mask0).contentLength_ ∧
    r.reset.indexOfFirstMask_ = (new mask0).indexOfFirstMask_ ∧
    r.reset.bytesReceiveLengthAndMask_ = (new mask0).bytesReceiveLengthAndMask_ ∧
    r.reset.totalReadBytes_ = (new mask0).totalReadBytes_ ∧
    r.reset.mask_ = r.mask_ :=
  ⟨rfl, rfl, rfl, rfl, rfl, rfl, rfl, rfl, rfl, rfl⟩

/-- Witness of C15: raw length 126, three bytes buffered, five more wanted. -/
theorem readFrame_awaits_extended_header_witness :
    Reachable exampleAwaitingLength ∧
    exampleAwaitingLength.state_ = .WS_PARSE_EXPECTED_SIZE ∧
    IoBuffer.readable ⟨[0x81, 0xFE, 0x01]⟩
      < 2 + 4 + extendedLengthSize exampleAwaitingLength.unparsedContentLength_ ∧
    (exampleAwaitingLength.readFrame ⟨[0x81, 0xFE, 0x01]⟩).wantReadSize
      = .ok (2 + 4 + extendedLengthSize exampleAwaitingLength.unparsedContentLength_
          - IoBuffer.readable ⟨[0x81, 0xFE, 0x01]⟩) ∧
    (exampleAwaitingLength.readFrame ⟨[0x81, 0xFE, 0x01]⟩).buffer = ⟨[0x81, 0xFE, 0x01]⟩ ∧
    (exampleAwaitingLength.readFrame ⟨[0x81, 0xFE, 0x01]⟩).reader.state_
      = .WS_PARSE_EXPECTED_SIZE ∧
    (exampleAwaitingLength.readFrame ⟨[0x81, 0xFE, 0x01]⟩).reader.lastFrame_
      = exampleAwaitingLength.lastFrame_ ∧
    (exampleAwaitingLength.readFrame ⟨[0x81, 0xFE, 0x01]⟩).reader.opcode_
      = exampleAwaitingLength.opcode_ ∧
    (exampleAwaitingLength.readFrame ⟨[0x81, 0xFE, 0x01]⟩).reader.unparsedContentLength_
      = exampleAwaitingLength.unparsedContentLength_ ∧
    (exampleAwaitingLength.readFrame ⟨[0x81, 0xFE, 0x01]⟩).reader
      = { exampleAwaitingLength with bytesReceiveLengthAndMask_ :=
            (2 + 4 + extendedLengthSize exampleAwaitingLength.unparsedContentLength_
              - IoBuffer.readable ⟨[0x81, 0xFE, 0x01]⟩) } :=
  ⟨.readFrame _ _ (.construct _), rfl, by decide,
    readFrame_awaits_extended_header exampleAwaitingLength ⟨[0x81, 0xFE, 0x01]⟩
      (.readFrame _ _ (.construct _)) rfl (by decide)⟩

/-- Witness of C16: raw length 126, extended length bytes `01 00`, key `1 2 3 4`, one payload
byte buffered. -/
theorem readFrame_resolves_header_witness :
    (exampleAwaitingLength.readFrame ⟨[0x81, 0xFE, 0x01, 0x00, 1, 2, 3, 4, 0x49]⟩).reader.getConetentLength
      = 256 ∧
    (exampleAwaitingLength.readFrame ⟨[0x81, 0xFE, 0x01, 0x00, 1, 2, 3, 4, 0x49]⟩).reader.mask_
      = [1, 2, 3, 4] ∧
    (exampleAwaitingLength.readFrame ⟨[0x81, 0xFE, 0x01, 0x00, 1, 2, 3, 4, 0x49]⟩).buffer
      = ⟨[0x49]⟩ :=
  have h := readFrame_resolves_header exampleAwaitingLength
    [0x81, 0xFE, 0x01, 0x00, 1, 2, 3, 4, 0x49] (.readFrame _ _ (.construct _)) rfl
    (by decide) (by decide)
  ⟨h.2.1, h.2.2.1, rfl⟩

/-- Witness of C17 on a reader after `reset()`. -/
theorem readFrame_empty_buffer_witness :
    (new [0, 0, 0, 0]).reset.readFrame ⟨[]⟩ = ⟨(new [0, 0, 0, 0]).reset, ⟨[]⟩, .ok 2, some 2⟩ :=
  readFrame_empty_buffer (new [0, 0, 0, 0]).reset rfl

/-- Witness of C19: first bytes `F1` and `81` of a masked Text frame of length 1. -/
theorem readFrame_ignores_reserved_bits_witness :
    ((new [0, 0, 0, 0]).readFrame ⟨0xF1 :: [0x81, 1, 2, 3, 4, 0x49]⟩).reader
      = ((new [0, 0, 0, 0]).readFrame ⟨0x81 :: [0x81, 1, 2, 3, 4, 0x49]⟩).reader :=
  (readFrame_ignores_reserved_bits (new [0, 0, 0, 0]) 0xF1 0x81 [0x81, 1, 2, 3, 4, 0x49]
    (by decide)).2.1

/-- Witness of C20: the reader reached from construction by reading `81 FE`. -/
theorem reachable_stage_masked_witness :
    Reachable ((new [0, 0, 0, 0]).readFrame ⟨[0x81, 0xFE]⟩).reader ∧
    ((new [0, 0, 0, 0]).readFrame ⟨[0x81, 0xFE]⟩).reader.state_ ≠ .WS_PARSE_FIN ∧
    ((new [0, 0, 0, 0]).readFrame ⟨[0x81, 0xFE]⟩).reader.isMasked_ = true :=
  ⟨.readFrame _ _ (.construct _), by decide,
    ((reachable_stage_masked _ (.readFrame _ _ (.construct [0, 0, 0, 0]))).1 (by decide)).1⟩

end WebSocketFrameReader

namespace WebSocketCodec

open WebSocketFrameReader

/-- C12: for every buffer pre-loaded with the wire bytes of `n ≥ 1` complete valid masked
frames and a codec whose reader is in stage `WS_PARSE_FIN`, one `readLoop` invocation
returns without error, has dispatched exactly the `n` messages of the frames in wire
order (opcode and unmasked payload of each), leaves the receive buffer empty,
`bytesToRead = 0`, and the reader back in stage `WS_PARSE_FIN`. -/
theorem readLoop_drains_frames (codec : WebSocketCodec)
    (hs : codec.reader_.state_ = .WS_PARSE_FIN) (frames : List MaskedFrame)
    (hne : frames ≠ []) (hv : ∀ f ∈ frames, f.Valid)
    (hsize : (MaskedFrame.wireAll frames).length < 2 ^ 64) (bytesToRead : Nat) :
    ∃ codec1 : WebSocketCodec,
      readLoop codec ⟨MaskedFrame.wireAll frames⟩ bytesToRead
        = some (⟨codec1, ⟨[]⟩, 0, frames.map MaskedFrame.message⟩, none) ∧
      codec1.reader_.state_ = .WS_PARSE_FIN := by
  match frames, hne with
  | f :: more, _ =>
    have hfuel := wireAll_length (f :: more)
    obtain ⟨codec1, hloop, hstate⟩ := readLoopFuel_frames more f
      (IoBuffer.readable ⟨MaskedFrame.wireAll (f :: more)⟩ + 2)
      ⟨codec, ⟨MaskedFrame.wireAll (f :: more)⟩, bytesToRead, []⟩ hs rfl hv hsize
      (by simp only [IoBuffer.readable]; omega)
    exact ⟨codec1, by simpa [readLoop] using hloop, hstate⟩

/-- Witness of C12: two small Text frames. -/
theorem readLoop_drains_frames_witness :
    ∃ codec1 : WebSocketCodec,
      readLoop (WebSocketCodec.new [0, 0, 0, 0])
          ⟨MaskedFrame.wireAll
            [⟨0x81, [1, 2, 3, 4], [0x48, 0x49]⟩, ⟨0x81, [9, 8, 7, 6], [0x4A]⟩]⟩ 0
        = some (⟨codec1, ⟨[]⟩, 0,
            [⟨0x81, [1, 2, 3, 4], [0x48, 0x49]⟩, ⟨0x81, [9, 8, 7, 6], [0x4A]⟩].map
              MaskedFrame.message⟩, none) ∧
      codec1.reader_.state_ = .WS_PARSE_FIN :=
  readLoop_drains_frames (WebSocketCodec.new [0, 0, 0, 0]) rfl
    [⟨0x81, [1, 2, 3, 4], [0x48, 0x49]⟩, ⟨0x81, [9, 8, 7, 6], [0x4A]⟩] (by simp)
    (by
      intro f hf
      simp only [List.mem_cons, List.mem_singleton, List.not_mem_nil, or_false] at hf
      rcases hf with rfl | rfl <;> exact ⟨by decide, by decide, rfl, by decide⟩)
    (by decide) 0

/-- C18: for every codec (every reader state) and every receive buffer `readLoop` ends, and
when it returns, `bytesToRead > 0` or the receive buffer is empty.  The run makes the
`readFrame` calls `calls` (at least one, and no other sequence of calls): each call after
the first is made on the reader reset after a call that reported 0.  The messages
dispatched by the run are, in order, one message for each call that reported 0 (opcode of
the reader, the bytes read off the buffer) and none for any other call.  After the last
call the reader is the reset one when the call reported 0 and the one `readFrame` left
otherwise; the run ends with an error exactly when its last call did. -/
theorem readLoop_stop_condition (codec : WebSocketCodec) (receiveBuffer : IoBuffer)
    (bytesToRead : Nat) :
    ∃ (res : ReadLoopState × Option CodecError) (calls : List ReadResult) (last : ReadResult),
      readLoop codec receiveBuffer bytesToRead = some res ∧
      (res.2 = none → 0 < res.1.bytesToRead ∨ res.1.receiveBuffer.isEmpty = true) ∧
      ReadFrameCalls codec.reader_ receiveBuffer calls ∧
      (∀ calls', ReadFrameCalls codec.reader_ receiveBuffer calls' → calls' = calls) ∧
      calls.getLast? = some last ∧
      res.1.dispatched = calls.filterMap dispatchedBy ∧
      (last.wantReadSize = .ok 0 →
        res.1.codec.reader_ = last.reader.reset ∧
        res.1.receiveBuffer = (last.buffer.read last.reader.getConetentLength).2) ∧
      (last.wantReadSize ≠ .ok 0 →
        res.1.codec.reader_ = last.reader ∧ res.1.receiveBuffer = last.buffer) ∧
      (∀ e, res.2 = some e ↔ last.wantReadSize = .error e) := by
  obtain ⟨res, calls, last, h1, h2, h3, h4, h5, h6, h7⟩ := readLoopFuel_calls
    (receiveBuffer.readable + 2) ⟨codec, receiveBuffer, bytesToRead, []⟩
    (by simp only; split <;> omega)
  refine ⟨res, calls, last, h1, ?_, h2, fun calls' h' => readFrameCalls_unique _ _ _ _ h2 h',
    h3, by simpa using h4, h5, h6, h7⟩
  intro hnone
  obtain ⟨s1, e⟩ := res
  simp only at hnone
  subst hnone
  exact readLoopFuel_stop _ _ s1 h1

end WebSocketCodec

namespace WebSocketFrameReader

/-! ## The effect of a call on the buffer -/

/-- The two outcomes of stage `WS_PARSE_DONE` for a masked reader: the XOR loop leaves the
readable bytes after it has XORed all of them, or the first `contentLength_` bytes are
XORed with the key and 0 is stored and reported. -/
theorem readFrameDone_outcome (r : WebSocketFrameReader) (buffer : IoBuffer)
    (stored : Option Nat) (hm : r.isMasked_ = true) :
    (buffer.readable < r.contentLength_ ∧
      r.readFrameDone buffer stored
        = ⟨r, ⟨cyclicXor r.mask_ 0 (buffer.data.take r.contentLength_)
                ++ buffer.data.drop r.contentLength_⟩, .error .outsideReadable, stored⟩) ∨
    (r.contentLength_ ≤ buffer.readable ∧
      r.readFrameDone buffer stored
        = ⟨r, ⟨cyclicXor r.mask_ 0 (buffer.data.take r.contentLength_)
                ++ buffer.data.drop r.contentLength_⟩, .ok 0, some 0⟩) := by
  rw [readFrameDone_masked r buffer stored hm]
  by_cases h : buffer.readable < r.contentLength_
  · exact Or.inl ⟨h, by rw [if_pos h, if_pos h]⟩
  · exact Or.inr ⟨by omega, by rw [if_neg h, if_neg h]⟩

/-- The three outcomes of stage `WS_PARSE_READ_DATA` for a masked reader: a shortfall report
(the payload is then not empty), the XOR loop leaving the readable bytes with 0 stored in
`wantReadSize`, or completion. -/
theorem readFrameReadData_outcome (r : WebSocketFrameReader) (buffer : IoBuffer)
    (hm : r.isMasked_ = true) :
    (∃ k, 0 < k ∧ 0 < r.contentLength_ ∧
      r.readFrameReadData buffer = ⟨r, buffer, .ok k, some k⟩) ∨
    (buffer.readable < r.contentLength_ ∧
      r.readFrameReadData buffer
        = ⟨{ r with state_ := .WS_PARSE_DONE },
            ⟨cyclicXor r.mask_ 0 (buffer.data.take r.contentLength_)
                ++ buffer.data.drop r.contentLength_⟩, .error .outsideReadable, some 0⟩) ∨
    (r.contentLength_ ≤ buffer.readable ∧
      r.readFrameReadData buffer
        = ⟨{ r with state_ := .WS_PARSE_DONE },
            ⟨cyclicXor r.mask_ 0 (buffer.data.take r.contentLength_)
                ++ buffer.data.drop r.contentLength_⟩, .ok 0, some 0⟩) := by
  by_cases hw : toUInt32 (r.contentLength_ - min r.contentLength_ (toUInt64 buffer.readable)) = 0
  · rw [readFrameReadData_full r buffer hw]
    rcases readFrameDone_outcome { r with state_ := .WS_PARSE_DONE } buffer (some 0) hm with h | h
    · exact Or.inr (Or.inl h)
    · exact Or.inr (Or.inr h)
  · left
    refine ⟨_, Nat.pos_of_ne_zero hw, ?_, readFrameReadData_short r buffer hw⟩
    by_contra hc
    have : r.contentLength_ = 0 := by omega
    rw [this] at hw
    exact hw (by simp [toUInt32])

/-- The two outcomes of stage `WS_PARSE_EXPECTED_SIZE` for a masked reader: a shortfall
report that keeps stage and buffer, or the fall through to `WS_PARSE_READ_DATA` on the
buffer without its first `2 + ext + 4` bytes. -/
theorem readFrameExpectedSize_outcome (r : WebSocketFrameReader) (buffer : IoBuffer)
    (hm : r.isMasked_ = true) :
    (∃ k r1, 0 < k ∧ r1.state_ = r.state_ ∧
      r.readFrameExpectedSize buffer = ⟨r1, buffer, .ok k, some k⟩) ∨
    (∃ r1 : WebSocketFrameReader, r1.isMasked_ = true ∧ r1.state_ = .WS_PARSE_READ_DATA ∧
      r1.unparsedContentLength_ = r.unparsedContentLength_ ∧
      2 + extendedLengthSize r.unparsedContentLength_ + 4 ≤ buffer.readable ∧
      r.readFrameExpectedSize buffer
        = readFrameReadData r1
            (buffer.retrieve (2 + extendedLengthSize r.unparsedContentLength_ + 4))) := by
  by_cases hn : buffer.readable < 2 + 4 + extendedLengthSize r.unparsedContentLength_
  · left
    exact ⟨2 + 4 + extendedLengthSize r.unparsedContentLength_ - buffer.readable,
      { r with bytesReceiveLengthAndMask_ :=
          2 + 4 + extendedLengthSize r.unparsedContentLength_ - buffer.readable },
      by omega, rfl, readFrameExpectedSize_short r buffer hm hn⟩
  · right
    exact ⟨{ r with
            indexOfFirstMask_ := 2 + extendedLengthSize r.unparsedContentLength_
            bytesReceiveLengthAndMask_ := 4 + extendedLengthSize r.unparsedContentLength_
            contentLength_ :=
              if r.unparsedContentLength_ = 126 then
                ntohs (memcpyUInt16 r.contentLength_ ((buffer.data.drop 2).take 2))
              else if r.unparsedContentLength_ = 127 then
                htonll (memcpyUInt64 ((buffer.data.drop 2).take 8))
              else r.unparsedContentLength_
            mask_ := (buffer.data.drop (2 + extendedLengthSize r.unparsedContentLength_)).take 4
            state_ := .WS_PARSE_READ_DATA },
      hm, rfl, rfl, by omega, readFrameExpectedSize_ready r buffer hm (by omega)⟩

/-- The four ways a `readFrame` call runs when the masked flag is set past `WS_PARSE_FIN`: it
ends in one of the first two stages with the buffer untouched; it crosses from the first two
stages into the payload stage, retiring `2 + ext + 4` bytes; it starts in
`WS_PARSE_READ_DATA`; it starts in `WS_PARSE_DONE`. -/
theorem readFrame_outcome (r : WebSocketFrameReader) (buffer : IoBuffer)
    (hinv : r.state_ ≠ .WS_PARSE_FIN → r.isMasked_ = true) :
    ((r.state_ = .WS_PARSE_FIN ∨ r.state_ = .WS_PARSE_EXPECTED_SIZE) ∧
      ((r.readFrame buffer).reader.state_ = .WS_PARSE_FIN ∨
        (r.readFrame buffer).reader.state_ = .WS_PARSE_EXPECTED_SIZE) ∧
      (r.readFrame buffer).buffer = buffer ∧ (r.readFrame buffer).wantReadSize ≠ .ok 0) ∨
    ((r.state_ = .WS_PARSE_FIN ∨ r.state_ = .WS_PARSE_EXPECTED_SIZE) ∧
      ∃ r1 : WebSocketFrameReader, r1.isMasked_ = true ∧ r1.state_ = .WS_PARSE_READ_DATA ∧
        2 + extendedLengthSize r1.unparsedContentLength_ + 4 ≤ buffer.readable ∧
        r.readFrame buffer
          = readFrameReadData r1
              (buffer.retrieve (2 + extendedLengthSize r1.unparsedContentLength_ + 4))) ∨
    (r.state_ = .WS_PARSE_READ_DATA ∧ r.isMasked_ = true ∧
      r.readFrame buffer = r.readFrameReadData buffer) ∨
    (r.state_ = .WS_PARSE_DONE ∧ r.isMasked_ = true ∧
      r.readFrame buffer = r.readFrameDone buffer none) := by
  have hexp : ∀ r0 : WebSocketFrameReader, r0.isMasked_ = true →
      r0.state_ = .WS_PARSE_EXPECTED_SIZE →
      (((r0.readFrameExpectedSize buffer).reader.state_ = .WS_PARSE_FIN ∨
        (r0.readFrameExpectedSize buffer).reader.state_ = .WS_PARSE_EXPECTED_SIZE) ∧
      (r0.readFrameExpectedSize buffer).buffer = buffer ∧
        (r0.readFrameExpectedSize buffer).wantReadSize ≠ .ok 0) ∨
      (∃ r1 : WebSocketFrameReader, r1.isMasked_ = true ∧ r1.state_ = .WS_PARSE_READ_DATA ∧
        2 + extendedLengthSize r1.unparsedContentLength_ + 4 ≤ buffer.readable ∧
        r0.readFrameExpectedSize buffer
          = readFrameReadData r1
              (buffer.retrieve (2 + extendedLengthSize r1.unparsedContentLength_ + 4))) := by
    intro r0 hm0 hs0
    rcases readFrameExpectedSize_outcome r0 buffer hm0 with
      ⟨k, r1, hk, h1, h2⟩ | ⟨r1, h1, h2, h3, h4, h5⟩
    · left
      rw [h2]
      refine ⟨Or.inr (h1.trans hs0), rfl, ?_⟩
      simp only [ne_eq, Except.ok.injEq]
      omega
    · right
      refine ⟨r1, h1, h2, by rw [h3]; exact h4, ?_⟩
      rw [h3]
      exact h5
  cases hs : r.state_ with
  | WS_PARSE_FIN =>
    rw [readFrame_of_fin r hs]
    by_cases he : buffer.isEmpty = true
    · rw [if_pos he]
      left
      exact ⟨Or.inl rfl, Or.inl hs, rfl, by simp [WS_MIN_SIZE]⟩
    · rw [if_neg he]
      obtain ⟨h1, h2⟩ := parseFinAndContentLength_isMasked r buffer
      rcases hp : r.parseFinAndContentLength buffer with ⟨r1, e | u⟩
      · rw [hp] at h1
        simp only at h1 ⊢
        left
        exact ⟨Or.inl trivial, Or.inl (h1.trans hs), trivial, by simp⟩
      · rw [hp] at h2
        simp only at h2 ⊢
        rcases hexp { r1 with state_ := .WS_PARSE_EXPECTED_SIZE } (h2 trivial) rfl with h | h
        · exact Or.inl ⟨Or.inl trivial, h⟩
        · exact Or.inr (Or.inl ⟨Or.inl trivial, h⟩)
  | WS_PARSE_EXPECTED_SIZE =>
    rw [readFrame_of_expected r hs]
    rcases hexp r (hinv (by simp [hs])) hs with h | h
    · exact Or.inl ⟨Or.inr rfl, h⟩
    · exact Or.inr (Or.inl ⟨Or.inr rfl, h⟩)
  | WS_PARSE_READ_DATA =>
    refine Or.inr (Or.inr (Or.inl ⟨rfl, hinv (by simp [hs]), ?_⟩))
    unfold readFrame
    rw [hs]
  | WS_PARSE_DONE =>
    refine Or.inr (Or.inr (Or.inr ⟨rfl, hinv (by simp [hs]), ?_⟩))
    unfold readFrame
    rw [hs]

/-- What stage `WS_PARSE_DONE` does to the buffer of a masked reader. -/
theorem readFrameDone_effect (r : WebSocketFrameReader) (buffer : IoBuffer)
    (stored : Option Nat) (hm : r.isMasked_ = true) (hs : r.state_ = .WS_PARSE_DONE) :
    BufferEffect 0 buffer (r.readFrameDone buffer stored) := by
  have hlen : (cyclicXor r.mask_ 0 (buffer.data.take r.contentLength_)
      ++ buffer.data.drop r.contentLength_).length = buffer.readable := by
    simp only [IoBuffer.readable, List.length_append, cyclicXor_length, List.length_take,
      List.length_drop]
    omega
  rcases readFrameDone_outcome r buffer stored hm with ⟨h1, h2⟩ | ⟨h1, h2⟩
  · rw [h2]
    refine ⟨Nat.zero_le _, hlen, fun h => absurd hs h, fun _ => rfl, ?_, ?_⟩
    · constructor
      · intro h; cases h
      · rintro ⟨-, h⟩
        have : r.contentLength_ ≤ buffer.readable := by
          simpa only [IoBuffer.readable, hlen] using h
        omega
    · constructor
      · rintro ⟨-, h⟩
        exact ⟨h, by simpa only [IoBuffer.readable, hlen] using h1⟩
      · rintro ⟨h, -⟩
        exact ⟨rfl, h⟩
  · rw [h2]
    refine ⟨Nat.zero_le _, hlen, fun h => absurd hs h, fun _ => rfl, ?_, ?_⟩
    · constructor
      · intro _
        exact ⟨hs, by simpa only [IoBuffer.readable, hlen] using h1⟩
      · intro _; rfl
    · constructor
      · rintro ⟨h, -⟩; cases h
      · rintro ⟨-, h⟩
        have : buffer.readable < r.contentLength_ := by
          simpa only [IoBuffer.readable, hlen] using h
        omega

/-- What stage `WS_PARSE_READ_DATA` does to the buffer of a masked reader; the reader changes
at most its stage, and a payload that is not completed is not empty. -/
theorem readFrameReadData_effect (r : WebSocketFrameReader) (buffer : IoBuffer)
    (hm : r.isMasked_ = true) (hs : r.state_ = .WS_PARSE_READ_DATA) :
    BufferEffect 0 buffer (r.readFrameReadData buffer) ∧
    ((r.readFrameReadData buffer).reader = r ∨
      (r.readFrameReadData buffer).reader = { r with state_ := .WS_PARSE_DONE }) ∧
    ((r.readFrameReadData buffer).wantReadSize ≠ .ok 0 → 0 < r.contentLength_) := by
  by_cases hw : toUInt32 (r.contentLength_ - min r.contentLength_ (toUInt64 buffer.readable)) = 0
  · rw [readFrameReadData_full r buffer hw]
    refine ⟨readFrameDone_effect _ buffer _ hm rfl, Or.inr (readFrameDone_frame _ _ _).1, ?_⟩
    rcases readFrameDone_outcome { r with state_ := .WS_PARSE_DONE } buffer (some 0) hm with
      ⟨h1, h2⟩ | ⟨h1, h2⟩
    · intro _
      have : buffer.readable < r.contentLength_ := h1
      omega
    · rw [h2]
      intro h
      exact absurd rfl h
  · have hpos : 0 < r.contentLength_ := by
      by_contra hc
      have : r.contentLength_ = 0 := by omega
      rw [this] at hw
      exact hw (by simp [toUInt32])
    rw [readFrameReadData_short r buffer hw]
    refine ⟨⟨Nat.zero_le _, rfl, fun _ => rfl, ?_, ?_, ?_⟩, Or.inl rfl, fun _ => hpos⟩
    · intro h
      rw [hs] at h
      cases h
    · constructor
      · intro h
        simp only [Except.ok.injEq] at h
        exact absurd h hw
      · rintro ⟨h, -⟩
        rw [hs] at h
        cases h
    · constructor
      · rintro ⟨h, -⟩; cases h
      · rintro ⟨h, -⟩
        rw [hs] at h
        cases h

/-- A call that ends in one of the first two stages retires nothing. -/
theorem retiredBytes_of_early (r : WebSocketFrameReader) (res : ReadResult)
    (h : res.reader.state_ = .WS_PARSE_FIN ∨ res.reader.state_ = .WS_PARSE_EXPECTED_SIZE) :
    retiredBytes r res = 0 := by
  unfold retiredBytes
  rw [if_neg]
  rintro ⟨-, h1 | h1⟩ <;> rcases h with h | h <;> rw [h] at h1 <;> cases h1

/-- A call that starts in one of the last two stages retires nothing. -/
theorem retiredBytes_of_late (r : WebSocketFrameReader) (res : ReadResult)
    (h : r.state_ = .WS_PARSE_READ_DATA ∨ r.state_ = .WS_PARSE_DONE) :
    retiredBytes r res = 0 := by
  unfold retiredBytes
  rw [if_neg]
  rintro ⟨h1 | h1, -⟩ <;> rcases h with h | h <;> rw [h] at h1 <;> cases h1

/-- A call that moves from one of the first two stages to one of the last two retires header
and key. -/
theorem retiredBytes_of_cross (r : WebSocketFrameReader) (res : ReadResult)
    (h : r.state_ = .WS_PARSE_FIN ∨ r.state_ = .WS_PARSE_EXPECTED_SIZE)
    (h1 : res.reader.state_ = .WS_PARSE_READ_DATA ∨ res.reader.state_ = .WS_PARSE_DONE) :
    retiredBytes r res = 2 + extendedLengthSize res.reader.unparsedContentLength_ + 4 := by
  unfold retiredBytes
  rw [if_pos ⟨h, h1⟩]

/-- The effect of a call on the buffer without its first `n` bytes is the effect of a call
that retires `n` bytes. -/
theorem bufferEffect_retrieve (n : Nat) (buffer : IoBuffer) (res : ReadResult)
    (hn : n ≤ buffer.readable) (h : BufferEffect 0 (buffer.retrieve n) res) :
    BufferEffect n buffer res := by
  obtain ⟨-, h2, h3, h4, h5, h6⟩ := h
  have hlen : (buffer.retrieve n).readable = buffer.readable - n := by
    simp [IoBuffer.retrieve, IoBuffer.readable]
  refine ⟨hn, by omega, h3, h4, h5, h6⟩

/-- The effect of one `readFrame` call on the buffer, for a reader whose masked flag is set
past `WS_PARSE_FIN`. -/
theorem readFrame_effect (r : WebSocketFrameReader) (buffer : IoBuffer)
    (hinv : r.state_ ≠ .WS_PARSE_FIN → r.isMasked_ = true) :
    BufferEffect (retiredBytes r (r.readFrame buffer)) buffer (r.readFrame buffer) := by
  rcases readFrame_outcome r buffer hinv with
    ⟨-, hst, hbuf, hw⟩ | ⟨hs, r1, hm1, hs1, hn, hres⟩ | ⟨hs, hm, hres⟩ | ⟨hs, hm, hres⟩
  · have hnd : (r.readFrame buffer).reader.state_ ≠ .WS_PARSE_DONE := by
      rcases hst with h | h <;> rw [h] <;> simp
    rw [retiredBytes_of_early r _ hst]
    refine ⟨Nat.zero_le _, by rw [hbuf]; rfl, fun _ => by rw [hbuf]; rfl,
      fun h => absurd h hnd, ?_, ?_⟩
    · exact ⟨fun h => absurd h hw, fun h => absurd h.1 hnd⟩
    · exact ⟨fun h => absurd h.2 hnd, fun h => absurd h.1 hnd⟩
  · obtain ⟨e1, e2, -⟩ := readFrameReadData_effect r1
      (buffer.retrieve (2 + extendedLengthSize r1.unparsedContentLength_ + 4)) hm1 hs1
    have hst : (r.readFrame buffer).reader.state_ = .WS_PARSE_READ_DATA ∨
        (r.readFrame buffer).reader.state_ = .WS_PARSE_DONE := by
      rw [hres]
      rcases e2 with h | h <;> rw [h]
      · exact Or.inl hs1
      · exact Or.inr rfl
    have hu : (r.readFrame buffer).reader.unparsedContentLength_ = r1.unparsedContentLength_ := by
      rw [hres]
      rcases e2 with h | h <;> rw [h]
    rw [retiredBytes_of_cross r _ hs hst, hu, hres]
    exact bufferEffect_retrieve _ buffer _ hn e1
  · rw [retiredBytes_of_late r _ (Or.inl hs), hres]
    exact (readFrameReadData_effect r buffer hm hs).1
  · rw [retiredBytes_of_late r _ (Or.inr hs), hres]
    exact readFrameDone_effect r buffer none hm hs

/-- A payload that is still awaited, or whose XOR loop was cut short, is not empty; a call that
starts in one of the last two stages keeps the resolved length. -/
theorem readFrame_pending_payload (r : WebSocketFrameReader) (buffer : IoBuffer)
    (hinv : r.state_ ≠ .WS_PARSE_FIN → r.isMasked_ = true)
    (hpos : r.state_ = .WS_PARSE_READ_DATA ∨ r.state_ = .WS_PARSE_DONE → 0 < r.contentLength_) :
    ((r.readFrame buffer).wantReadSize ≠ .ok 0 →
      (r.readFrame buffer).reader.state_ = .WS_PARSE_READ_DATA ∨
        (r.readFrame buffer).reader.state_ = .WS_PARSE_DONE →
      0 < (r.readFrame buffer).reader.contentLength_) ∧
    (r.state_ = .WS_PARSE_READ_DATA ∨ r.state_ = .WS_PARSE_DONE →
      0 < (r.readFrame buffer).reader.contentLength_) := by
  rcases readFrame_outcome r buffer hinv with
    ⟨hs, hst, hbuf, hw⟩ | ⟨hs, r1, hm1, hs1, hn, hres⟩ | ⟨hs, hm, hres⟩ | ⟨hs, hm, hres⟩
  · refine ⟨fun _ h => ?_, fun h => ?_⟩
    · rcases h with h | h <;> rcases hst with h1 | h1 <;> rw [h1] at h <;> cases h
    · rcases h with h | h <;> rcases hs with h1 | h1 <;> rw [h1] at h <;> cases h
  · obtain ⟨-, e2, e3⟩ := readFrameReadData_effect r1
      (buffer.retrieve (2 + extendedLengthSize r1.unparsedContentLength_ + 4)) hm1 hs1
    have hc : (r.readFrame buffer).reader.contentLength_ = r1.contentLength_ := by
      rw [hres]
      rcases e2 with h | h <;> rw [h]
    refine ⟨fun hw _ => ?_, fun h => ?_⟩
    · rw [hc]
      rw [hres] at hw
      exact e3 hw
    · rcases h with h | h <;> rcases hs with h1 | h1 <;> rw [h1] at h <;> cases h
  · obtain ⟨-, e2, -⟩ := readFrameReadData_effect r buffer hm hs
    have hc : (r.readFrame buffer).reader.contentLength_ = r.contentLength_ := by
      rw [hres]
      rcases e2 with h | h <;> rw [h]
    rw [hc]
    exact ⟨fun _ _ => hpos (Or.inl hs), fun _ => hpos (Or.inl hs)⟩
  · have hc : (r.readFrame buffer).reader.contentLength_ = r.contentLength_ := by
      rw [hres, (readFrameDone_frame r buffer _).1]
    rw [hc]
    exact ⟨fun _ _ => hpos (Or.inr hs), fun _ => hpos (Or.inr hs)⟩

/-- When a call returns, what it reports is what it has stored into `wantReadSize`. -/
theorem readFrame_stored (r : WebSocketFrameReader) (buffer : IoBuffer) (k : Nat)
    (h : (r.readFrame buffer).wantReadSize = .ok k) : (r.readFrame buffer).stored = some k := by
  have hdone : ∀ (r0 : WebSocketFrameReader) (b : IoBuffer) (st : Option Nat),
      (r0.readFrameDone b st).wantReadSize = .ok k → (r0.readFrameDone b st).stored = some k := by
    intro r0 b st
    unfold readFrameDone
    rcases r0.maskData b with ⟨b1, e | u⟩
    · intro h; cases h
    · intro h
      simp only [Except.ok.injEq] at h
      subst h
      rfl
  have hdata : ∀ (r0 : WebSocketFrameReader) (b : IoBuffer),
      (r0.readFrameReadData b).wantReadSize = .ok k → (r0.readFrameReadData b).stored = some k := by
    intro r0 b
    unfold readFrameReadData
    simp only
    split
    · intro h
      simp only [Except.ok.injEq] at h
      rw [h]
    · exact hdone _ _ _
  have hexp : ∀ (r0 : WebSocketFrameReader) (b : IoBuffer),
      (r0.readFrameExpectedSize b).wantReadSize = .ok k →
        (r0.readFrameExpectedSize b).stored = some k := by
    intro r0 b
    unfold readFrameExpectedSize
    rcases r0.isReadyRead b with ⟨r1, _ | _⟩
    · intro h
      simp only [Except.ok.injEq] at h
      simp only [h]
    · simp only
      rcases r1.parseContentLength b with ⟨r2, e | u⟩
      · intro h; cases h
      · exact hdata _ _
  revert h
  unfold readFrame
  cases r.state_ with
  | WS_PARSE_FIN =>
    simp only
    split
    · intro h
      simp only [Except.ok.injEq] at h
      simp only [h]
    · rcases r.parseFinAndContentLength buffer with ⟨r1, e | u⟩
      · intro h; cases h
      · exact hexp _ _
  | WS_PARSE_EXPECTED_SIZE => exact hexp _ _
  | WS_PARSE_READ_DATA => exact hdata _ _
  | WS_PARSE_DONE => exact hdone _ _ _

/-- The state in which the XOR loop leaves a call that runs past the readable bytes.  A fresh
reader is given the header of a masked frame that announces `2 ^ 32 + 2` payload bytes,
the key `1 2 3 4` and the two payload bytes `49 4B`: the shortfall `2 ^ 32` is stored as 0,
the stage becomes `WS_PARSE_DONE`, the two readable bytes are XORed to `48 49`, and the
loop comes to index 2, which is not readable. -/
theorem readFrame_fault_state :
    (new [0, 0, 0, 0]).readFrame
        ⟨[0x81, 0xFF, 0, 0, 0, 1, 0, 0, 0, 2, 1, 2, 3, 4, 0x49, 0x4B]⟩
      = ⟨{ new [1, 2, 3, 4] with
            unparsedContentLength_ := 127
            opcode_ := WS_OP_TEXT
            state_ := .WS_PARSE_DONE
            indexOfFirstMask_ := 10
            bytesReceiveLengthAndMask_ := 12
            contentLength_ := 4294967298 },
          ⟨[0x48, 0x49]⟩, .error .outsideReadable, some 0⟩ := by
  rfl

/-- A protocol violation of `parseFinAndContentLength` comes from the two bytes at `peek()`
(mask bit clear, or an opcode outside the legal set), and parsing the same buffer again gives
the same reader and the same violation. -/
theorem parseFinAndContentLength_violation (r : WebSocketFrameReader) (buffer : IoBuffer)
    (h : (r.parseFinAndContentLength buffer).2 = .error .protocolViolation) :
    (∃ b0 b1, buffer.peekAt 0 = some b0 ∧ buffer.peekAt 1 = some b1 ∧
      ((b1 &&& 0x80) >>> 7 = 0 ∨ isLegalOpcode (b0 &&& WS_MASK_OPCODE) = false)) ∧
    (r.parseFinAndContentLength buffer).1.parseFinAndContentLength buffer
      = r.parseFinAndContentLength buffer := by
  unfold parseFinAndContentLength at h ⊢
  cases h0 : buffer.peekAt 0 with
  | none => simp [h0] at h
  | some firstByte =>
    cases h1 : buffer.peekAt 1 with
    | none => simp [h0, h1] at h
    | some sencondByte =>
      simp only [h0, h1] at h ⊢
      by_cases hm : ((sencondByte &&& 0x80) >>> 7 != 0) = true
      · by_cases hop : isLegalOpcode (firstByte &&& WS_MASK_OPCODE) = true
        · simp [hm, hop] at h
        · refine ⟨⟨_, _, rfl, rfl, Or.inr (by simpa using hop)⟩, ?_⟩
          simp [hm, hop]
      · refine ⟨⟨_, _, rfl, rfl, Or.inl (by simpa using hm)⟩, ?_⟩
        simp [hm]

/-- Stage 1 accepts every masked header: the first byte carries the Text opcode, the second
the mask bit. -/
theorem parseFinAndContentLength_maskedHeader (r : WebSocketFrameReader) (L : Nat)
    (tail : List Nat) :
    (r.parseFinAndContentLength ⟨maskedHeader L ++ tail⟩).2 = .ok () := by
  have key : ∀ b1 rest, b1 &&& 0x80 = 0x80 →
      (r.parseFinAndContentLength ⟨0x81 :: b1 :: rest⟩).2 = .ok () := by
    intro b1 rest hb
    have hop : isLegalOpcode (0x81 &&& 0x0F) = true := by decide
    simp [parseFinAndContentLength, IoBuffer.peekAt, hb, hop]
  rw [maskedHeader_eq]
  by_cases h1 : L ≤ 125
  · have hmod : L % 256 = L := Nat.mod_eq_of_lt (by omega)
    simp only [if_pos h1, hmod, List.cons_append, List.nil_append]
    exact key _ _ (lor_128_land_128 L (by omega))
  · by_cases h2 : L ≤ 65535
    · simp only [if_neg h1, if_pos h2, List.cons_append, List.nil_append]
      exact key _ _ (by decide)
    · simp only [if_neg h1, if_neg h2, List.cons_append, List.nil_append]
      exact key _ _ (by decide)

/-- The masked header has the length of the header `writeWebSocketHeader` writes: 2, 4 or
10 bytes. -/
theorem maskedHeader_length (L : Nat) :
    (maskedHeader L).length = if L ≤ 125 then 2 else if L ≤ 65535 then 4 else 10 := by
  rw [maskedHeader_eq]
  by_cases h1 : L ≤ 125
  · simp [h1]
  · by_cases h2 : L ≤ 65535
    · simp [h1, h2]
    · simp [h1, h2]

end WebSocketFrameReader

namespace WebSocketCodec

open WebSocketFrameReader

/-! ## Progress of the read loop -/

/-- The reader the loop body leaves: the reset one when `readFrame` reported 0, the one
`readFrame` left otherwise. -/
theorem readLoopBody_reader (s : ReadLoopState) :
    ((s.codec.reader_.readFrame s.receiveBuffer).wantReadSize = .ok 0 ∧
      (readLoopBody s).1.codec.reader_
        = (s.codec.reader_.readFrame s.receiveBuffer).reader.reset) ∨
    ((s.codec.reader_.readFrame s.receiveBuffer).wantReadSize ≠ .ok 0 ∧
      (readLoopBody s).1.codec.reader_ = (s.codec.reader_.readFrame s.receiveBuffer).reader) := by
  cases hw : (s.codec.reader_.readFrame s.receiveBuffer).wantReadSize with
  | error e =>
    right
    rw [readLoopBody_of_error s e hw]
    exact ⟨by simp, rfl⟩
  | ok n =>
    by_cases hn : n = 0
    · subst hn
      left
      rw [readLoopBody_of_zero s hw]
      exact ⟨rfl, rfl⟩
    · right
      rw [readLoopBody_of_shortfall s n hn hw]
      exact ⟨by simpa using hn, rfl⟩

/-- At the start of every loop iteration the reader of a codec is masked once past
`WS_PARSE_FIN`, and if it waits for a payload or was stopped in the XOR loop, that payload
is not empty. -/
theorem reachableReader_invariant (r : WebSocketFrameReader) (h : ReachableReader r) :
    (r.state_ ≠ .WS_PARSE_FIN → r.isMasked_ = true) ∧
    (r.state_ = .WS_PARSE_READ_DATA ∨ r.state_ = .WS_PARSE_DONE → 0 < r.contentLength_) := by
  induction h with
  | construct mask0 =>
    refine ⟨fun h => absurd rfl h, fun h => ?_⟩
    rcases h with h | h <;> cases h
  | readLoopBody s _ ih =>
    obtain ⟨ih1, ih2⟩ := ih
    rcases readLoopBody_reader s with ⟨-, h⟩ | ⟨hw, h⟩
    · rw [h]
      refine ⟨fun h => absurd rfl h, fun h => ?_⟩
      rcases h with h | h <;> cases h
    · rw [h]
      exact ⟨(readFrame_isMasked _ _ ih1).1, (readFrame_pending_payload _ _ ih1 ih2).1 hw⟩

/-- An iteration that dispatched a message has taken bytes off the buffer: header and key (at
least 6 bytes) when it started in one of the first two stages, the non-empty payload
otherwise. -/
theorem readLoopBody_progress (s s1 : ReadLoopState)
    (hinv : s.codec.reader_.state_ ≠ .WS_PARSE_FIN → s.codec.reader_.isMasked_ = true)
    (hpos : s.codec.reader_.state_ = .WS_PARSE_READ_DATA ∨
      s.codec.reader_.state_ = .WS_PARSE_DONE → 0 < s.codec.reader_.contentLength_)
    (h : readLoopBody s = (s1, none)) (h0 : s1.bytesToRead = 0) :
    s1.receiveBuffer.readable < s.receiveBuffer.readable ∧
    (s1.receiveBuffer.readable + 6 ≤ s.receiveBuffer.readable ∨
      (s1.codec.pWebSocketRequest_.content_ ≠ [] ∧
        s1.receiveBuffer.readable + s1.codec.pWebSocketRequest_.content_.length
          = s.receiveBuffer.readable)) := by
  cases hw : (s.codec.reader_.readFrame s.receiveBuffer).wantReadSize with
  | error e =>
    rw [readLoopBody_of_error s e hw] at h
    simp at h
  | ok n =>
    by_cases hn : n = 0
    · subst hn
      obtain ⟨e1, e2, -, -, e5, -⟩ := readFrame_effect s.codec.reader_ s.receiveBuffer hinv
      obtain ⟨hdone, hlen⟩ := e5.1 hw
      rw [readLoopBody_of_zero s hw] at h
      simp only [Prod.mk.injEq, and_true] at h
      subst h
      simp only [IoBuffer.readable, List.length_drop, List.length_take, getConetentLength,
        ne_eq] at e1 e2 hlen ⊢
      by_cases hs : s.codec.reader_.state_ = .WS_PARSE_FIN ∨
          s.codec.reader_.state_ = .WS_PARSE_EXPECTED_SIZE
      · rw [retiredBytes_of_cross _ _ hs (Or.inr hdone)] at e1 e2
        constructor
        · omega
        · left
          omega
      · have hs' : s.codec.reader_.state_ = .WS_PARSE_READ_DATA ∨
            s.codec.reader_.state_ = .WS_PARSE_DONE := by
          cases hst : s.codec.reader_.state_ <;> simp [hst] at hs ⊢
        have hp := (readFrame_pending_payload _ s.receiveBuffer hinv hpos).2 hs'
        rw [retiredBytes_of_late _ _ hs'] at e2
        refine ⟨by omega, Or.inr ⟨?_, by omega⟩⟩
        intro hnil
        have := congrArg List.length hnil
        simp only [List.length_take, List.length_nil] at this
        omega
    · rw [readLoopBody_of_shortfall s n hn hw] at h
      simp only [Prod.mk.injEq, and_true] at h
      subst h
      exact absurd h0 hn

/-- The hypothesis on the reader in `readLoopBody_progress` is needed.  A reader driven by hand
through the empty frame `81 80 01 02 03 04` and not reset is in `WS_PARSE_DONE` with
`contentLength_ = 0`, a state `readLoop` never leaves in `reader_`; an iteration started
with it reports 0 and takes no byte off the buffer. -/
theorem readLoopBody_unreset_no_progress :
    (readLoopBody
      ⟨⟨((WebSocketFrameReader.new [0, 0, 0, 0]).readFrame ⟨[0x81, 0x80, 1, 2, 3, 4]⟩).reader,
          ⟨WS_OP_CLOSED, []⟩⟩, ⟨[0x81]⟩, 0, []⟩).1.receiveBuffer = ⟨[0x81]⟩ ∧
    (readLoopBody
      ⟨⟨((WebSocketFrameReader.new [0, 0, 0, 0]).readFrame ⟨[0x81, 0x80, 1, 2, 3, 4]⟩).reader,
          ⟨WS_OP_CLOSED, []⟩⟩, ⟨[0x81]⟩, 0, []⟩).1.bytesToRead = 0 ∧
    (readLoopBody
      ⟨⟨((WebSocketFrameReader.new [0, 0, 0, 0]).readFrame ⟨[0x81, 0x80, 1, 2, 3, 4]⟩).reader,
          ⟨WS_OP_CLOSED, []⟩⟩, ⟨[0x81]⟩, 0, []⟩).2 = none := by
  refine ⟨rfl, rfl, rfl⟩

end WebSocketCodec

/-! ## The loop of `countSetBits` -/

/-- The test `bitMask & bitTest` of a one-bit probe is the bit of `bitMask` at that position. -/
theorem land_two_pow_ne_zero (m k : Nat) : (m &&& 2 ^ k ≠ 0) ↔ m.testBit k = true := by
  rw [Nat.and_two_pow]
  cases h : m.testBit k <;> simp

/-- The population count over one more position. -/
theorem populationCount_succ (w m : Nat) :
    populationCount (w + 1) m = populationCount w m + (if m.testBit w then 1 else 0) := by
  unfold populationCount
  rw [List.range_succ, List.countP_append]
  cases h : m.testBit w <;> simp [h]

/-- The population count is at most the number of positions. -/
theorem populationCount_le (w m : Nat) : populationCount w m ≤ w := by
  unfold populationCount
  exact (List.countP_le_length _).trans (by simp)

/-- The probe at loop entry is the most significant bit of the word. -/
theorem countSetBitsEntry_eq (size : Nat) (hsize : 0 < size) (hw : size * 8 < 2 ^ 32) :
    countSetBitsEntry size = ⟨0, 2 ^ (size * 8 - 1), 0⟩ := by
  unfold countSetBitsEntry
  have hL : toUInt32 (size * 8 - 1) = size * 8 - 1 := Nat.mod_eq_of_lt (by omega)
  have hb : (1 <<< (size * 8 - 1)) % 2 ^ (size * 8) = 2 ^ (size * 8 - 1) := by
    rw [Nat.one_shiftLeft]
    exact Nat.mod_eq_of_lt (Nat.pow_lt_pow_right (by norm_num) (by omega))
  rw [hL, hb]

/-- The loop invariant of `countSetBits`: after `i` iterations the counter is `i`, the probe
has moved `i` positions down from the most significant bit, and `bitSetCount` holds the
number of 1 bits among the `i` positions tested. -/
theorem countSetBitsStep_iterate (m w : Nat) (hw0 : 0 < w) (hw : w < 2 ^ 32) :
    ∀ i, i ≤ w →
      ((countSetBitsStep m)^[i] ⟨0, 2 ^ (w - 1), 0⟩).i = i ∧
      ((countSetBitsStep m)^[i] ⟨0, 2 ^ (w - 1), 0⟩).bitTest = 2 ^ (w - 1) / 2 ^ i ∧
      ((countSetBitsStep m)^[i] ⟨0, 2 ^ (w - 1), 0⟩).bitSetCount + populationCount (w - i) m
        = populationCount w m := by
  intro i
  induction i with
  | zero => intro _; simp
  | succ i ih =>
    intro hi
    obtain ⟨h1, h2, h3⟩ := ih (by omega)
    rw [Function.iterate_succ_apply']
    generalize (countSetBitsStep m)^[i] ⟨0, 2 ^ (w - 1), 0⟩ = s at h1 h2 h3
    have hdiv : 2 ^ (w - 1) / 2 ^ i = 2 ^ (w - 1 - i) := Nat.pow_div (by omega) (by norm_num)
    have hpc : populationCount (w - i) m
        = populationCount (w - (i + 1)) m + (if m.testBit (w - 1 - i) then 1 else 0) := by
      have : w - i = (w - (i + 1)) + 1 := by omega
      rw [this, populationCount_succ]
      have : w - (i + 1) = w - 1 - i := by omega
      rw [this]
    have hle := populationCount_le w m
    refine ⟨?_, ?_, ?_⟩
    · simp only [countSetBitsStep, toUInt32, h1]
      exact Nat.mod_eq_of_lt (by omega)
    · simp only [countSetBitsStep, h2]
      rw [Nat.div_div_eq_div_mul, ← pow_succ]
    · simp only [countSetBitsStep, toUInt32, h2, hdiv]
      by_cases hb : m.testBit (w - 1 - i) = true
      · have : m &&& 2 ^ (w - 1 - i) ≠ 0 := (land_two_pow_ne_zero _ _).2 hb
        rw [if_pos this]
        rw [if_pos hb] at hpc
        rw [Nat.mod_eq_of_lt (by omega)]
        omega
      · have : ¬ (m &&& 2 ^ (w - 1 - i) ≠ 0) := fun h => hb ((land_two_pow_ne_zero _ _).1 h)
        rw [if_neg this]
        rw [if_neg hb] at hpc
        rw [Nat.mod_eq_of_lt (by omega)]
        omega

/-- The bounded loop returns the count after `n` iterations when the loop condition holds
before each of them and fails after the last, and the bound exceeds `n`. -/
theorem countSetBitsLoop_iterate (m LSHIFT : Nat) :
    ∀ (fuel : Nat) (s : CountSetBitsState) (n : Nat),
      (∀ j, j < n → ((countSetBitsStep m)^[j] s).i ≤ LSHIFT) →
      ¬ ((countSetBitsStep m)^[n] s).i ≤ LSHIFT → n < fuel →
      countSetBitsLoop m LSHIFT fuel s = some ((countSetBitsStep m)^[n] s).bitSetCount := by
  intro fuel
  induction fuel with
  | zero => intro s n _ _ h; omega
  | succ fuel ih =>
    intro s n hlt hge hf
    cases n with
    | zero =>
      simp only [Function.iterate_zero, id_eq] at hge
      simp only [countSetBitsLoop, if_neg hge, Function.iterate_zero, id_eq]
    | succ n =>
      have h0 : s.i ≤ LSHIFT := hlt 0 (by omega)
      simp only [countSetBitsLoop, if_pos h0]
      rw [ih (countSetBitsStep m s) n ?_ ?_ (by omega)]
      · rw [Function.iterate_succ_apply]
      · intro j hj
        have := hlt (j + 1) (by omega)
        rwa [Function.iterate_succ_apply] at this
      · rwa [Function.iterate_succ_apply] at hge

/-- The function `countSetBits` returns the population count over the positions of the
word. -/
theorem countSetBits_eq (size m : Nat) (hsize : 0 < size) (hw : size * 8 < 2 ^ 32) :
    countSetBits size m = some (populationCount (size * 8) m) := by
  have hit := countSetBitsStep_iterate m (size * 8) (by omega) hw
  unfold countSetBits
  have hL : toUInt32 (size * 8 - 1) = size * 8 - 1 := Nat.mod_eq_of_lt (by omega)
  simp only [hL]
  rw [countSetBitsEntry_eq size hsize hw]
  rw [countSetBitsLoop_iterate m (size * 8 - 1) _ _ (size * 8)]
  · obtain ⟨_, _, h3⟩ := hit (size * 8) le_rfl
    simp only [Nat.sub_self, populationCount, List.range_zero, List.countP_nil, Nat.add_zero] at h3
    rw [h3]; rfl
  · intro j hj
    rw [(hit j (by omega)).1]; omega
  · rw [(hit _ le_rfl).1]; omega
  · omega

/-! ## Claims C21 to C25 -/

namespace WebSocketFrameReader

/-- C21: for every `L < 2 ^ 64` and every 4-byte key `K`, a fresh reader is given the bytes
`writeWebSocketHeader` writes for `L` with bit 7 of the second byte set (`maskedHeader L`),
then `K`, then any further bytes `rest` (none, in the claim).  Stage 1
(`parseFinAndContentLength`) returns without error; the call ends in one of the two
payload stages with `getConetentLength() = L` and `mask_ = K`; the header has the length
of the written header, 2, 4 or 10 bytes; and the call has taken exactly that many bytes
plus 4 off the buffer. -/
theorem readFrame_masked_header_roundtrip (L : Nat) (hL : L < 2 ^ 64) (K : List Nat)
    (hK : K.length = 4) (mask0 rest : List Nat) :
    ((new mask0).parseFinAndContentLength ⟨maskedHeader L ++ K ++ rest⟩).2 = .ok () ∧
    (((new mask0).readFrame ⟨maskedHeader L ++ K ++ rest⟩).reader.state_ = .WS_PARSE_READ_DATA ∨
      ((new mask0).readFrame ⟨maskedHeader L ++ K ++ rest⟩).reader.state_ = .WS_PARSE_DONE) ∧
    ((new mask0).readFrame ⟨maskedHeader L ++ K ++ rest⟩).reader.getConetentLength = L ∧
    ((new mask0).readFrame ⟨maskedHeader L ++ K ++ rest⟩).reader.mask_ = K ∧
    (maskedHeader L).length = (writeWebSocketHeader ⟨[]⟩ L).readable ∧
    (maskedHeader L).length = (if L ≤ 125 then 2 else if L ≤ 65535 then 4 else 10) ∧
    ((new mask0).readFrame ⟨maskedHeader L ++ K ++ rest⟩).buffer.readable
        + ((maskedHeader L).length + 4)
      = IoBuffer.readable ⟨maskedHeader L ++ K ++ rest⟩ := by
  match K, hK with
  | [k0, k1, k2, k3], _ =>
    refine ⟨?_, ?_, ?_, ?_, ?_, maskedHeader_length L, ?_⟩
    · rw [List.append_assoc]
      exact parseFinAndContentLength_maskedHeader _ _ _
    · rw [readFrame_masked_frame (new mask0) rfl L hL]
      rcases (readFrameReadData_frame _ _).1 with ⟨h, -⟩ | h <;> rw [h]
      · exact Or.inl rfl
      · exact Or.inr rfl
    · rw [readFrame_masked_frame (new mask0) rfl L hL]
      rcases (readFrameReadData_frame _ _).1 with ⟨h, -⟩ | h <;> rw [h] <;> rfl
    · rw [readFrame_masked_frame (new mask0) rfl L hL]
      rcases (readFrameReadData_frame _ _).1 with ⟨h, -⟩ | h <;> rw [h]
    · rw [maskedHeader_length]
      simp only [IoBuffer.readable]
      rw [writeWebSocketHeader_data]
      by_cases h1 : L ≤ 125
      · simp [h1, IoBuffer.readable]
      · by_cases h2 : L ≤ 65535
        · simp [h1, h2, IoBuffer.readable]
        · simp [h1, h2, IoBuffer.readable]
    · rw [readFrame_masked_frame (new mask0) rfl L hL, (readFrameReadData_frame _ _).2]
      simp only [IoBuffer.readable, List.length_append, List.length_cons, List.length_nil]
      omega

/-- Witness of C21: `L = 70000` (64-bit extended length), key `1 2 3 4`, one payload byte
buffered. -/
theorem readFrame_masked_header_roundtrip_witness :
    70000 < 2 ^ 64 ∧ [1, 2, 3, 4].length = 4 ∧
    ((new [0, 0, 0, 0]).readFrame ⟨maskedHeader 70000 ++ [1, 2, 3, 4] ++ [0x49]⟩).reader.getConetentLength
      = 70000 ∧
    ((new [0, 0, 0, 0]).readFrame ⟨maskedHeader 70000 ++ [1, 2, 3, 4] ++ [0x49]⟩).reader.mask_
      = [1, 2, 3, 4] :=
  have h := readFrame_masked_header_roundtrip 70000 (by decide) [1, 2, 3, 4] rfl [0, 0, 0, 0] [0x49]
  ⟨by decide, rfl, h.2.2.1, h.2.2.2.1⟩

/-- C23: for every reachable reader state and every buffer, `readFrame` takes exactly
`retiredBytes` bytes off the front of the buffer: `2 + ext + 4` when the call makes the
transition from `WS_PARSE_EXPECTED_SIZE` to `WS_PARSE_READ_DATA`, none otherwise (in
stage `WS_PARSE_FIN`, on every shortfall report, at completion).  A call that does not
end in stage `WS_PARSE_DONE` leaves the bytes behind them as they were.  A call that ends
in `WS_PARSE_DONE` has run the XOR loop of that stage, and nothing else has touched the
bytes: the first `contentLength_` of them are XORed cyclically with the key.  The call
reports 0 exactly when it ends there with all `contentLength_` bytes readable; when fewer
are readable the loop has XORed the readable ones and the call ends at the first index
outside them. -/
theorem readFrame_buffer_frame (r : WebSocketFrameReader) (hr : Reachable r)
    (buffer : IoBuffer) :
    retiredBytes r (r.readFrame buffer) ≤ buffer.readable ∧
    (r.readFrame buffer).buffer.readable + retiredBytes r (r.readFrame buffer)
      = buffer.readable ∧
    ((r.readFrame buffer).reader.state_ ≠ .WS_PARSE_DONE →
      (r.readFrame buffer).buffer.data
        = buffer.data.drop (retiredBytes r (r.readFrame buffer))) ∧
    ((r.readFrame buffer).reader.state_ = .WS_PARSE_DONE →
      (r.readFrame buffer).buffer.data
        = cyclicXor (r.readFrame buffer).reader.mask_ 0
            ((buffer.data.drop (retiredBytes r (r.readFrame buffer))).take
              (r.readFrame buffer).reader.contentLength_)
          ++ (buffer.data.drop (retiredBytes r (r.readFrame buffer))).drop
              (r.readFrame buffer).reader.contentLength_) ∧
    ((r.readFrame buffer).wantReadSize = .ok 0 ↔
      (r.readFrame buffer).reader.state_ = .WS_PARSE_DONE ∧
        (r.readFrame buffer).reader.contentLength_ ≤ (r.readFrame buffer).buffer.readable) ∧
    ((r.readFrame buffer).wantReadSize = .error .outsideReadable ∧
        (r.readFrame buffer).reader.state_ = .WS_PARSE_DONE ↔
      (r.readFrame buffer).reader.state_ = .WS_PARSE_DONE ∧
        (r.readFrame buffer).buffer.readable < (r.readFrame buffer).reader.contentLength_) :=
  readFrame_effect r buffer (reachable_isMasked r hr)

/-- Witness of C23.  A fresh reader on the masked Text frame `81 82`, key `1 2 3 4`, payload
`49 4B`, followed by one more byte: 6 bytes are retired, the payload is unmasked in place.
And a fresh reader on a frame that announces `2 ^ 32 + 2` payload bytes with the two bytes
`49 4B` buffered: they are XORed to `48 49` before the loop leaves the readable bytes. -/
theorem readFrame_buffer_frame_witness :
    Reachable (new [0, 0, 0, 0]) ∧
    retiredBytes (new [0, 0, 0, 0])
      ((new [0, 0, 0, 0]).readFrame ⟨[0x81, 0x82, 1, 2, 3, 4, 0x49, 0x4B, 0x81]⟩) = 6 ∧
    ((new [0, 0, 0, 0]).readFrame ⟨[0x81, 0x82, 1, 2, 3, 4, 0x49, 0x4B, 0x81]⟩).buffer.readable + 6
      = 9 ∧
    ((new [0, 0, 0, 0]).readFrame ⟨[0x81, 0x82, 1, 2, 3, 4, 0x49, 0x4B, 0x81]⟩).buffer.data
      = [0x48, 0x49, 0x81] ∧
    ((new [0, 0, 0, 0]).readFrame
        ⟨[0x81, 0xFF, 0, 0, 0, 1, 0, 0, 0, 2, 1, 2, 3, 4, 0x49, 0x4B]⟩).buffer.data
      = [0x48, 0x49] ∧
    ((new [0, 0, 0, 0]).readFrame
        ⟨[0x81, 0xFF, 0, 0, 0, 1, 0, 0, 0, 2, 1, 2, 3, 4, 0x49, 0x4B]⟩).wantReadSize
      = .error .outsideReadable :=
  have h := readFrame_buffer_frame (new [0, 0, 0, 0]) (.construct _)
    ⟨[0x81, 0x82, 1, 2, 3, 4, 0x49, 0x4B, 0x81]⟩
  have h2 := readFrame_buffer_frame (new [0, 0, 0, 0]) (.construct _)
    ⟨[0x81, 0xFF, 0, 0, 0, 1, 0, 0, 0, 2, 1, 2, 3, 4, 0x49, 0x4B]⟩
  ⟨.construct _, by decide, h.2.1, h.2.2.2.1 rfl, h2.2.2.2.1 rfl,
    (h2.2.2.2.2.2.2 ⟨rfl, by decide⟩).1⟩

/-- C24: when `readFrame` on a reachable reader state raises a protocol violation, the call
started in stage `WS_PARSE_FIN`, the cause is in the two bytes at `peek()` (mask bit clear
or opcode outside the legal set), the stage still is `WS_PARSE_FIN`, the buffer is the one
the call was given, and calling `readFrame` again on reader and buffer as they were left
gives the same result: the same violation, the same reader, the same buffer. -/
theorem readFrame_violation_persists (r : WebSocketFrameReader) (hr : Reachable r)
    (buffer : IoBuffer)
    (h : (r.readFrame buffer).wantReadSize = .error .protocolViolation) :
    r.state_ = .WS_PARSE_FIN ∧
    (∃ b0 b1, buffer.peekAt 0 = some b0 ∧ buffer.peekAt 1 = some b1 ∧
      ((b1 &&& 0x80) >>> 7 = 0 ∨ isLegalOpcode (b0 &&& WS_MASK_OPCODE) = false)) ∧
    (r.readFrame buffer).reader.state_ = .WS_PARSE_FIN ∧
    (r.readFrame buffer).buffer = buffer ∧
    (r.readFrame buffer).reader.readFrame (r.readFrame buffer).buffer = r.readFrame buffer := by
  have hinv := reachable_isMasked r hr
  have hs : r.state_ = .WS_PARSE_FIN := by
    by_contra hc
    exact (readFrame_isMasked r buffer hinv).2 hc h
  refine ⟨hs, ?_⟩
  rw [readFrame_of_fin r hs] at h ⊢
  by_cases he : buffer.isEmpty = true
  · rw [if_pos he] at h
    cases h
  · rw [if_neg he] at h ⊢
    obtain ⟨h1, h2⟩ := parseFinAndContentLength_isMasked r buffer
    have hv := parseFinAndContentLength_violation r buffer
    rcases hp : r.parseFinAndContentLength buffer with ⟨r1, e | u⟩
    · rw [hp] at h h1 hv
      simp only at h h1 hv ⊢
      simp only [Except.error.injEq] at h
      subst h
      obtain ⟨hcause, hfix⟩ := hv rfl
      refine ⟨hcause, h1.trans hs, trivial, ?_⟩
      rw [readFrame_of_fin r1 (h1.trans hs), if_neg he, hfix]
    · rw [hp] at h h2
      simp only at h h2
      exact absurd h ((readFrameExpectedSize_isMasked _ buffer).2.2 (h2 trivial))

/-- Witness of C24: a fresh reader on a masked frame with the illegal opcode 3. -/
theorem readFrame_violation_persists_witness :
    Reachable (new [0, 0, 0, 0]) ∧
    ((new [0, 0, 0, 0]).readFrame ⟨[0x83, 0x81, 1, 2, 3, 4, 0x49]⟩).wantReadSize
      = .error .protocolViolation ∧
    ((new [0, 0, 0, 0]).readFrame ⟨[0x83, 0x81, 1, 2, 3, 4, 0x49]⟩).reader.readFrame
        ((new [0, 0, 0, 0]).readFrame ⟨[0x83, 0x81, 1, 2, 3, 4, 0x49]⟩).buffer
      = (new [0, 0, 0, 0]).readFrame ⟨[0x83, 0x81, 1, 2, 3, 4, 0x49]⟩ :=
  ⟨.construct _, rfl,
    (readFrame_violation_persists (new [0, 0, 0, 0]) (.construct _)
      ⟨[0x83, 0x81, 1, 2, 3, 4, 0x49]⟩ rfl).2.2.2.2⟩

end WebSocketFrameReader

namespace WebSocketCodec

open WebSocketFrameReader

/-- C22: for every state the reader of a codec can have at the start of a loop iteration and
every receive buffer, `readLoop` ends; and every iteration that is followed by another one
(it dispatched, `bytesToRead = 0`, and the buffer is not empty) leaves the reader in such a
state again and has made the readable count strictly smaller: it has taken at least 6
bytes (header and key) off the buffer, or exactly the non-empty payload it dispatched. -/
theorem readLoop_terminates (s : ReadLoopState) (hr : ReachableReader s.codec.reader_) :
    (∃ res, readLoop s.codec s.receiveBuffer s.bytesToRead = some res) ∧
    ∀ s1 : ReadLoopState, readLoopBody s = (s1, none) →
      s1.bytesToRead = 0 ∧ s1.receiveBuffer.isEmpty = false →
      ReachableReader s1.codec.reader_ ∧
      s1.receiveBuffer.readable < s.receiveBuffer.readable ∧
      (s1.receiveBuffer.readable + 6 ≤ s.receiveBuffer.readable ∨
        (s1.codec.pWebSocketRequest_.content_ ≠ [] ∧
          s1.receiveBuffer.readable + s1.codec.pWebSocketRequest_.content_.length
            = s.receiveBuffer.readable)) := by
  refine ⟨readLoop_returns _ _ _, ?_⟩
  intro s1 hb hc
  obtain ⟨hinv, hpos⟩ := reachableReader_invariant _ hr
  obtain ⟨h1, h2⟩ := readLoopBody_progress s s1 hinv hpos hb hc.1
  refine ⟨?_, h1, h2⟩
  have := ReachableReader.readLoopBody s hr
  rw [hb] at this
  exact this

/-- Witness of C22: a fresh codec on two masked Text frames; the first iteration is followed by
a second one and leaves fewer readable bytes. -/
theorem readLoop_terminates_witness :
    ReachableReader (WebSocketCodec.new [0, 0, 0, 0]).reader_ ∧
    (∃ res, readLoop (WebSocketCodec.new [0, 0, 0, 0])
      ⟨[0x81, 0x82, 1, 2, 3, 4, 0x49, 0x4B, 0x81, 0x80, 9, 8, 7, 6]⟩ 0 = some res) ∧
    (readLoopBody
      ⟨WebSocketCodec.new [0, 0, 0, 0],
        ⟨[0x81, 0x82, 1, 2, 3, 4, 0x49, 0x4B, 0x81, 0x80, 9, 8, 7, 6]⟩, 0, []⟩).1.receiveBuffer
      = ⟨[0x81, 0x80, 9, 8, 7, 6]⟩ ∧
    (readLoopBody
      ⟨WebSocketCodec.new [0, 0, 0, 0],
        ⟨[0x81, 0x82, 1, 2, 3, 4, 0x49, 0x4B, 0x81, 0x80, 9, 8, 7, 6]⟩, 0, []⟩).1.receiveBuffer.readable
      < 14 :=
  have h := readLoop_terminates
    ⟨WebSocketCodec.new [0, 0, 0, 0],
      ⟨[0x81, 0x82, 1, 2, 3, 4, 0x49, 0x4B, 0x81, 0x80, 9, 8, 7, 6]⟩, 0, []⟩ (.construct _)
  ⟨.construct _, h.1, rfl, (h.2 _ rfl ⟨rfl, rfl⟩).2.1⟩

end WebSocketCodec

/-- C25: for every word size `sizeofULongPtr > 0` and every `bitMask` that fits the word,
`countSetBits` returns the population count of `bitMask` (all its 1 bits are at positions
below the word width), which is at most the width; and the iteration with counter value
`i` tests the single bit position `width - 1 - i`, so the positions are tested once each,
from the most significant to the least significant. -/
theorem countSetBits_population_count (sizeofULongPtr bitMask : Nat)
    (hsize : 0 < sizeofULongPtr) (hw : sizeofULongPtr * 8 < 2 ^ 32)
    (hm : bitMask < 2 ^ (sizeofULongPtr * 8)) :
    countSetBits sizeofULongPtr bitMask
      = some (populationCount (sizeofULongPtr * 8) bitMask) ∧
    populationCount (sizeofULongPtr * 8) bitMask ≤ sizeofULongPtr * 8 ∧
    (∀ k, bitMask.testBit k = true → k < sizeofULongPtr * 8) ∧
    (∀ i, i < sizeofULongPtr * 8 →
      ((countSetBitsStep bitMask)^[i] (countSetBitsEntry sizeofULongPtr)).i = i ∧
      ((countSetBitsStep bitMask)^[i] (countSetBitsEntry sizeofULongPtr)).bitTest
        = 2 ^ (sizeofULongPtr * 8 - 1 - i)) := by
  refine ⟨countSetBits_eq _ _ hsize hw, populationCount_le _ _, ?_, ?_⟩
  · intro k hk
    by_contra hc
    have : bitMask.testBit k = false :=
      Nat.testBit_lt_two_pow (lt_of_lt_of_le hm (Nat.pow_le_pow_right (by norm_num) (by omega)))
    rw [this] at hk
    cases hk
  · intro i hi
    rw [countSetBitsEntry_eq _ hsize hw]
    obtain ⟨h1, h2, -⟩ := countSetBitsStep_iterate bitMask (sizeofULongPtr * 8) (by omega) hw i
      (by omega)
    exact ⟨h1, by rw [h2]; exact Nat.pow_div (by omega) (by norm_num)⟩

/-- Witness of C25: the 64-bit word `F0F1` has nine 1 bits. -/
theorem countSetBits_population_count_witness :
    0 < 8 ∧ 8 * 8 < 2 ^ 32 ∧ 0xF0F1 < 2 ^ (8 * 8) ∧
    countSetBits 8 0xF0F1 = some (populationCount (8 * 8) 0xF0F1) ∧
    populationCount (8 * 8) 0xF0F1 = 9 :=
  ⟨by decide, by decide, by decide,
    (countSetBits_population_count 8 0xF0F1 (by decide) (by decide) (by decide)).1, by decide⟩

end Rapid
